import Mathlib

/-!
DVL driver (`packages/drivers/dvl/src/DVL.cpp`): checksum, byte channel and frame decoder;
PID controller (`src/controls/src/pid_controller.cpp`): one control step.

A shallow embedding of `DVL::crc16`, `DVL::readRaw`, `DVL::writeRaw`, `DVL::readMessage`
and `DVL::writeCommand`, and what can be proved about them.

Conventions of the embedding.
* A byte is a `Fin 256`; `frameid_t`, `checksum_t`, `bytecount_t` and `data_offset_t` are
  unsigned 16-bit values held in `Nat`, stored least significant byte first.
* `DVL.cpp` takes its identifier constants, the `sizeof` of the packed records and the
  layout of `PD0_Header` from `include/DVL.h`.  They are the fields of `Decl`, and so is
  the signedness of plain `char`, which the C++ implementation fixes and not the program.
  `rdi` gives them the values of the vendor's output data format.
* The serial line is a script of `Event`s: what `select(2)` and `read(2)` answer at each
  wait cycle.  `avail` is the byte stream that such a script delivers.  For the other
  direction it is a script of `WEvent`s: what `select(2)` and `write(2)` answer; `roomOf`
  is the number of bytes that such a script takes, `wire` the bytes taken so far and
  `calls` the system calls issued so far.
* The `double` members of `PIDController` are elements of an ordered field `K`, so that
  `update` is read over exact arithmetic; the constant `PI` of `pid_controller.h` is a
  parameter of `update`, and so are the messages that `ros::spinOnce` delivers and the
  two readings of the clock.
* `vsnprintf` is `formatText`, for formats made of ordinary characters, `%s`, `%d` and
  `%%`; a `Char` of a format or of a string argument stands for one `char`.
* `std::vector<char>` is a `Vec`: its `size()` and the block it owns.  `reserve` allocates
  a new block when the capacity is too small and copies the `size()` constructed
  elements; what else the new block holds is given by `Env.fresh`.  An access outside the
  block is the outcome `fault`: it records that the access happens, not what a run does
  after it.
-/

namespace DVL

set_option maxRecDepth 100000

/-! ## The embedding -/

abbrev Byte := Fin 256

/-- The thirteen PD0 sub-records that the inner `switch` of `readMessage` knows. -/
inductive Kind
  | fixedLeader
  | variableLeader
  | velocityData
  | correlationMagnitude
  | echoIntensity
  | percentGood
  | statusData
  | bottomTrack
  | environment
  | bottomTrackCommand
  | bottomTrackHighRes
  | bottomTrackRange
  | sensorData
  deriving DecidableEq, Repr

/-- Declarations that `DVL.cpp` uses from `include/DVL.h`, and the signedness of `char`. -/
structure Decl where
  /-- whether plain `char` is a signed type on the target -/
  charSigned : Bool
  kPD0HeaderID : Nat
  kPD4HeaderID : Nat
  kPD5HeaderID : Nat
  kPD0FixedLeaderID : Nat
  kPD0VariableLeaderID : Nat
  kPD0VelocityDataID : Nat
  kPD0CorrelationMagnitudeID : Nat
  kPD0EchoIntensityID : Nat
  kPD0PercentGoodID : Nat
  kPD0StatusDataID : Nat
  kPD0BottomTrackID : Nat
  kPD0EnvironmentID : Nat
  kPD0BottomTrackCommandID : Nat
  kPD0BottomTrackHighResID : Nat
  kPD0BottomTrackRangeID : Nat
  kPD0SensorDataID : Nat
  /-- `sizeof(PD0_Header)` -/
  sizeofPD0Header : Nat
  /-- byte position of `bytes_in_ensemble` (16 bit) inside `PD0_Header` -/
  offBytesInEnsemble : Nat
  /-- byte position of `data_types` (8 bit) inside `PD0_Header` -/
  offDataTypes : Nat
  /-- `sizeof(PD4_Data)` -/
  sizeofPD4Data : Nat
  /-- `sizeof(PD5_Data)` -/
  sizeofPD5Data : Nat

/-- The identifier constant of a sub-record kind. -/
def Decl.subId (D : Decl) : Kind → Nat
  | .fixedLeader => D.kPD0FixedLeaderID
  | .variableLeader => D.kPD0VariableLeaderID
  | .velocityData => D.kPD0VelocityDataID
  | .correlationMagnitude => D.kPD0CorrelationMagnitudeID
  | .echoIntensity => D.kPD0EchoIntensityID
  | .percentGood => D.kPD0PercentGoodID
  | .statusData => D.kPD0StatusDataID
  | .bottomTrack => D.kPD0BottomTrackID
  | .environment => D.kPD0EnvironmentID
  | .bottomTrackCommand => D.kPD0BottomTrackCommandID
  | .bottomTrackHighRes => D.kPD0BottomTrackHighResID
  | .bottomTrackRange => D.kPD0BottomTrackRangeID
  | .sensorData => D.kPD0SensorDataID

/-- The kinds in the order of the `case` labels. -/
def Kind.all : List Kind :=
  [.fixedLeader, .variableLeader, .velocityData, .correlationMagnitude, .echoIntensity,
   .percentGood, .statusData, .bottomTrack, .environment, .bottomTrackCommand,
   .bottomTrackHighRes, .bottomTrackRange, .sensorData]

/-- What any `DVL.h` that compiles with `DVL.cpp` satisfies: the constants are 16-bit
values, the `case` labels of each `switch` are pairwise distinct, and the two header
fields lie inside the header. -/
def Decl.WF (D : Decl) : Prop :=
  D.kPD0HeaderID < 65536 ∧ D.kPD4HeaderID < 65536 ∧ D.kPD5HeaderID < 65536 ∧
  [D.kPD0HeaderID, D.kPD4HeaderID, D.kPD5HeaderID].Nodup ∧
  (∀ k ∈ Kind.all, D.subId k < 65536) ∧
  (Kind.all.map D.subId).Nodup ∧
  D.sizeofPD0Header < 65536 ∧
  D.offBytesInEnsemble + 2 ≤ D.sizeofPD0Header ∧
  D.offDataTypes + 1 ≤ D.sizeofPD0Header ∧
  D.sizeofPD4Data < 65536 ∧ D.sizeofPD5Data < 65536

instance (D : Decl) : Decidable D.WF := by
  unfold Decl.WF
  infer_instance

/-- The messages of the `DVLException`s thrown by the functions embedded here. -/
inductive DVLException
  /-- "Device needs to be open!" -/
  | needsOpen
  /-- "Unable to read beginning of incoming packet." -/
  | unableBeginning
  /-- "Unable to read header of incoming packet" -/
  | unableHeader
  /-- "Unable to read payload of incoming packet" -/
  | unablePayload
  /-- "Unable to read checksum of incoming packet" -/
  | unableChecksum
  /-- "Remote and local checksum mismatch" -/
  | checksumMismatch
  /-- "Unknown data format in PD0 packet" -/
  | unknownDataFormat
  /-- "Unable to read text character" -/
  | unableText
  /-- "Write buffer overflow" -/
  | writeOverflow
  /-- "Unable to send message" -/
  | unableSend
  /-- "Unable to send carriage return" -/
  | unableCR
  deriving DecidableEq, Repr

/-- How a call ends: it returns, it throws, it touches memory outside the object it was
given (the block the vector owns, the buffer of `writeCommand`; behaviour undefined in
C++: `fault` records that such an access happens and says nothing about what a run does
after it), or the embedding does not cover the run: the unrolling bound of a loop is reached
(which the theorems exclude) or a `printf` conversion lies outside `formatText`. -/
inductive Outcome (α : Type)
  | ok (a : α)
  | throws (e : DVLException)
  | fault
  | unfinished
  deriving DecidableEq, Repr

/-- What the serial line does at one wait cycle of a read. -/
inductive Event
  /-- `select` returns 0: nothing became readable within the timeout -/
  | timeout
  /-- `select` returns -1 -/
  | waitError
  /-- `select` returns 1 and `read` hands over these bytes, as many as are asked for -/
  | data (chunk : List Byte)
  /-- `select` returns 1 and `read` returns -1 -/
  | readError
  deriving DecidableEq, Repr

/-- What the serial line does at one wait cycle of a write. -/
inductive WEvent
  /-- `select` returns 0: the line did not become writable within the timeout -/
  | timeout
  /-- `select` returns -1 -/
  | waitError
  /-- `select` returns 1 and `write` takes up to `room` of the bytes offered -/
  | accept (room : Nat)
  /-- `select` returns 1 and `write` returns -1 -/
  | writeError
  deriving DecidableEq, Repr

/-- A system call issued on the file descriptor, with its result. -/
inductive Call
  | selectRead (result : Int)
  | read (count : Int) (result : Int)
  | selectWrite (result : Int)
  | write (count : Int) (result : Int)
  deriving DecidableEq, Repr

/-- The driver instance together with the line it talks to. -/
structure Dev where
  /-- `_deviceFD` -/
  deviceFD : Int
  /-- what the line will do at the coming wait cycles of reads -/
  rx : List Event
  /-- what the line will do at the coming wait cycles of writes -/
  tx : List WEvent
  /-- the bytes the line has taken so far, oldest first -/
  wire : List Byte
  /-- the system calls issued so far, oldest first -/
  calls : List Call
  deriving DecidableEq, Repr

/-- The function `isOpen`. -/
def isOpen (d : Dev) : Bool := decide (0 ≤ d.deviceFD)

/-- The call `select(_deviceFD+1, &read_fds, ...)` with only `_deviceFD` in `read_fds`. -/
def selectRead (d : Dev) : Int × Dev :=
  match d.rx with
  | [] => (0, { d with calls := d.calls ++ [.selectRead 0] })
  | .timeout :: es => (0, { d with rx := es, calls := d.calls ++ [.selectRead 0] })
  | .waitError :: es => (-1, { d with rx := es, calls := d.calls ++ [.selectRead (-1)] })
  | .data _ :: _ => (1, { d with calls := d.calls ++ [.selectRead 1] })
  | .readError :: _ => (1, { d with calls := d.calls ++ [.selectRead 1] })

/-- The call `read(_deviceFD, p, count)`: the result, the bytes stored at `p`, the line. -/
def sysRead (d : Dev) (count : Int) : Int × List Byte × Dev :=
  match d.rx with
  | .data chunk :: es =>
    let got := chunk.take count.toNat
    let rest := chunk.drop count.toNat
    ((got.length : Int), got,
      { d with rx := if rest = [] then es else .data rest :: es,
               calls := d.calls ++ [.read count got.length] })
  | .readError :: es => (-1, [], { d with rx := es, calls := d.calls ++ [.read count (-1)] })
  | _ => (-1, [], { d with calls := d.calls ++ [.read count (-1)] })

/-- The value of `*data` for `char* data`, converted to `int`. -/
def charValue (charSigned : Bool) (b : Byte) : Int :=
  if charSigned = true ∧ 128 ≤ b.val then (b.val : Int) - 256 else (b.val : Int)

/-- The function `crc16`: `crc += *data` for each byte, `crc` being a `uint16_t`. -/
def crc16 (charSigned : Bool) : Nat → List Byte → Nat
  | crc, [] => crc
  | crc, b :: data => crc16 charSigned (((crc : Int) + charValue charSigned b) % 65536).toNat data

/-- The `do ... while` loop of `readRaw`; the first argument bounds the iterations.
Returns `bytes_read`, the bytes stored into `blob` so far, and the line. -/
def readLoop (bytes_to_read : Int) : Nat → Int → List Byte → Dev → Int × List Byte × Dev
  | 0, bytes_read, blob, d => (bytes_read, blob, d)
  | fuel + 1, bytes_read, blob, d =>
    if (selectRead d).1 = 1 then
      let r := sysRead (selectRead d).2 (bytes_to_read - bytes_read)
      let current_read := r.1
      let bytes_read1 := if current_read > 0 then bytes_read + current_read else bytes_read
      if bytes_read1 < bytes_to_read ∧ current_read > 0 then
        readLoop bytes_to_read fuel bytes_read1 (blob ++ r.2.1) r.2.2
      else (bytes_read1, blob ++ r.2.1, r.2.2)
    else (bytes_read, blob, (selectRead d).2)

/-- The function `readRaw`: the number of bytes still missing and the bytes stored at
the start of `blob`.  Every iteration that is followed by another one has read at least
one byte, so `bytes_to_read` iterations are enough. -/
def readRaw (d : Dev) (bytes_to_read : Int) : Outcome (Int × List Byte) × Dev :=
  if isOpen d = false then (.throws .needsOpen, d)
  else if bytes_to_read > 0 then
    let r := readLoop bytes_to_read bytes_to_read.toNat 0 [] d
    (.ok (bytes_to_read - r.1, r.2.1), r.2.2)
  else (.ok (bytes_to_read, []), d)

/-- What the allocator hands out: `fresh k i` is the byte found at position `i` of the
block obtained by the `k`-th allocation of a `readMessage` call, before it is written. -/
structure Env where
  fresh : Nat → Nat → Byte

/-- A `std::vector<char>`: `size()` and the block it owns (`capacity()` is its length). -/
structure Vec where
  size : Nat
  store : List Byte
  deriving DecidableEq, Repr

/-- The vector made by `std::make_shared<std::vector<char>>()`. -/
def Vec.empty : Vec := { size := 0, store := [] }

/-- The call `reserve(n)`: when the capacity is below `n` a block of `n` bytes is
allocated and the `size()` elements are copied into it. -/
def Vec.reserve (v : Vec) (n : Nat) (block : Nat → Byte) : Vec :=
  if v.store.length < n then
    { size := v.size,
      store := (List.range n).map fun i => if i < v.size then v.store.getD i 0 else block i }
  else v

/-- The call `push_back(b)`; the elements are kept, the capacity grows as needed. -/
def Vec.push_back (v : Vec) (b : Byte) : Vec :=
  { size := v.size + 1, store := v.store.take v.size ++ [b] ++ v.store.drop (v.size + 1) }

/-- Reading `n` bytes at `data() + pos`; `none` when they are not all inside the block. -/
def peek (store : List Byte) (pos n : Nat) : Option (List Byte) :=
  if pos + n ≤ store.length then some ((store.drop pos).take n) else none

/-- Storing bytes at `data() + pos`; `none` when they do not all fall inside the block. -/
def poke (store : List Byte) (pos : Nat) (bytes : List Byte) : Option (List Byte) :=
  if pos + bytes.length ≤ store.length then
    some (store.take pos ++ bytes ++ store.drop (pos + bytes.length))
  else none

/-- The value of a `uint16_t` object whose two bytes are given (little-endian). -/
def le16 (bytes : List Byte) : Nat := (bytes.getD 0 0).val + 256 * (bytes.getD 1 0).val

/-- Reading a `uint16_t` at `data() + pos`. -/
def peek16 (store : List Byte) (pos : Nat) : Option Nat := (peek store pos 2).map le16

/-- The enumeration of message formats. -/
inductive Format
  | PD0
  | PD4
  | PD5
  | TEXT
  deriving DecidableEq, Repr

/-- The struct `Message`.  A view is the position in the payload block that the pointer
refers to; `none` is a pointer `readMessage` has not assigned. -/
structure Message where
  format : Format
  payload : Vec
  pd0_header : Option Nat := none
  pd0_fixed : Option Nat := none
  pd0_variable : Option Nat := none
  pd0_velocity : Option Nat := none
  pd0_correlation : Option Nat := none
  pd0_echo_intensity : Option Nat := none
  pd0_percent_good : Option Nat := none
  pd0_status : Option Nat := none
  pd0_bottom_track : Option Nat := none
  pd0_environment : Option Nat := none
  pd0_bottom_track_command : Option Nat := none
  pd0_bottom_track_highres : Option Nat := none
  pd0_bottom_track_range : Option Nat := none
  pd0_sensor_data : Option Nat := none
  pd4_data : Option Nat := none
  pd5_data : Option Nat := none
  text : Option Nat := none
  deriving DecidableEq, Repr

/-- The view that the inner `switch` assigns for a kind. -/
def Message.view (m : Message) : Kind → Option Nat
  | .fixedLeader => m.pd0_fixed
  | .variableLeader => m.pd0_variable
  | .velocityData => m.pd0_velocity
  | .correlationMagnitude => m.pd0_correlation
  | .echoIntensity => m.pd0_echo_intensity
  | .percentGood => m.pd0_percent_good
  | .statusData => m.pd0_status
  | .bottomTrack => m.pd0_bottom_track
  | .environment => m.pd0_environment
  | .bottomTrackCommand => m.pd0_bottom_track_command
  | .bottomTrackHighRes => m.pd0_bottom_track_highres
  | .bottomTrackRange => m.pd0_bottom_track_range
  | .sensorData => m.pd0_sensor_data

/-- The assignment in the `case` of a kind: `message.pd0_... = (...*) body`. -/
def Message.setView (m : Message) (body : Nat) : Kind → Message
  | .fixedLeader => { m with pd0_fixed := some body }
  | .variableLeader => { m with pd0_variable := some body }
  | .velocityData => { m with pd0_velocity := some body }
  | .correlationMagnitude => { m with pd0_correlation := some body }
  | .echoIntensity => { m with pd0_echo_intensity := some body }
  | .percentGood => { m with pd0_percent_good := some body }
  | .statusData => { m with pd0_status := some body }
  | .bottomTrack => { m with pd0_bottom_track := some body }
  | .environment => { m with pd0_environment := some body }
  | .bottomTrackCommand => { m with pd0_bottom_track_command := some body }
  | .bottomTrackHighRes => { m with pd0_bottom_track_highres := some body }
  | .bottomTrackRange => { m with pd0_bottom_track_range := some body }
  | .sensorData => { m with pd0_sensor_data := some body }

/-- The inner `switch (*((frameid_t*) frame))`: the kind whose `case` label matches,
`none` for `default`. -/
def classify (D : Decl) (id : Nat) : Option Kind :=
  if id = D.kPD0FixedLeaderID then some .fixedLeader
  else if id = D.kPD0VariableLeaderID then some .variableLeader
  else if id = D.kPD0VelocityDataID then some .velocityData
  else if id = D.kPD0CorrelationMagnitudeID then some .correlationMagnitude
  else if id = D.kPD0EchoIntensityID then some .echoIntensity
  else if id = D.kPD0PercentGoodID then some .percentGood
  else if id = D.kPD0StatusDataID then some .statusData
  else if id = D.kPD0BottomTrackID then some .bottomTrack
  else if id = D.kPD0EnvironmentID then some .environment
  else if id = D.kPD0BottomTrackCommandID then some .bottomTrackCommand
  else if id = D.kPD0BottomTrackHighResID then some .bottomTrackHighRes
  else if id = D.kPD0BottomTrackRangeID then some .bottomTrackRange
  else if id = D.kPD0SensorDataID then some .sensorData
  else none

/-- Sequencing: the rest of the function runs when the call returned. -/
def Outcome.andThen {α β : Type} (r : Outcome α × Dev)
    (f : α → Dev → Outcome β × Dev) : Outcome β × Dev :=
  match r with
  | (.ok a, d) => f a d
  | (.throws e, d) => (.throws e, d)
  | (.fault, d) => (.fault, d)
  | (.unfinished, d) => (.unfinished, d)

/-- The `for` loop over the offset table, `count` iterations from `data_types_i = i` on.
`offsets` is `(data_offset_t*) data() + header_bytes`, so `offsets[i]` is the 16-bit
object at byte `2 * (header_bytes + i)` of the block. -/
def walk (D : Decl) (store : List Byte) (header_bytes : Nat) :
    Nat → Nat → Message → Outcome Message
  | 0, _, m => .ok m
  | count + 1, i, m =>
    match peek16 store (2 * (header_bytes + i)) with
    | none => .fault
    | some offset =>
      match peek16 store offset with
      | none => .fault
      | some id =>
        match classify D id with
        | none => .throws .unknownDataFormat
        | some kind => walk D store header_bytes count (i + 1) (m.setView (offset + 2) kind)

/-- The `case kPD0HeaderID` of `readMessage`. -/
def readPD0 (D : Decl) (E : Env) (checksum : Nat) (d : Dev) : Outcome Message × Dev :=
  let header_bytes := D.sizeofPD0Header % 65536
  let payload0 := Vec.empty.reserve D.sizeofPD0Header (E.fresh 0)
  Outcome.andThen (readRaw d header_bytes) fun r1 d1 =>
    if r1.1 ≠ 0 then (.throws .unableHeader, d1) else
    match poke payload0.store 0 r1.2 with
    | none => (.fault, d1)
    | some store1 =>
      match peek16 store1 D.offBytesInEnsemble with
      | none => (.fault, d1)
      | some total_bytes =>
        let payload_bytes := (((total_bytes : Int) - 2 - 2) % 65536).toNat
        let payload1 := Vec.reserve { size := payload0.size, store := store1 }
          payload_bytes (E.fresh 1)
        Outcome.andThen (readRaw d1 ((payload_bytes : Int) - (header_bytes : Int))) fun r2 d2 =>
          if r2.1 ≠ 0 then (.throws .unablePayload, d2) else
          match poke payload1.store header_bytes r2.2 with
          | none => (.fault, d2)
          | some store2 =>
            match peek store2 0 payload_bytes with
            | none => (.fault, d2)
            | some bytes =>
              let checksum1 := crc16 D.charSigned checksum bytes
              Outcome.andThen (readRaw d2 2) fun r3 d3 =>
                if r3.1 ≠ 0 then (.throws .unableChecksum, d3) else
                if checksum1 ≠ le16 r3.2 then (.throws .checksumMismatch, d3) else
                match peek store2 D.offDataTypes 1 with
                | none => (.fault, d3)
                | some data_types =>
                  (walk D store2 header_bytes (data_types.headD 0).val 0
                    { format := .PD0, payload := { size := payload1.size, store := store2 },
                      pd0_header := some 0 }, d3)

/-- The `case kPD4HeaderID` of `readMessage`. -/
def readPD4 (D : Decl) (E : Env) (checksum : Nat) (d : Dev) : Outcome Message × Dev :=
  let payload0 := Vec.empty.reserve D.sizeofPD4Data (E.fresh 0)
  Outcome.andThen (readRaw d D.sizeofPD4Data) fun r1 d1 =>
    if r1.1 ≠ 0 then (.throws .unablePayload, d1) else
    match poke payload0.store 0 r1.2 with
    | none => (.fault, d1)
    | some store1 =>
      match peek store1 0 D.sizeofPD4Data with
      | none => (.fault, d1)
      | some bytes =>
        let checksum1 := crc16 D.charSigned checksum bytes
        Outcome.andThen (readRaw d1 2) fun r2 d2 =>
          if r2.1 ≠ 0 then (.throws .unableChecksum, d2) else
          if checksum1 ≠ le16 r2.2 then (.throws .checksumMismatch, d2) else
          (.ok { format := .PD4, payload := { size := payload0.size, store := store1 },
                 pd4_data := some 0 }, d2)

/-- The `case kPD5HeaderID` of `readMessage`; the checksum is taken over
`sizeof(PD4_Data)` bytes, as in the source. -/
def readPD5 (D : Decl) (E : Env) (checksum : Nat) (d : Dev) : Outcome Message × Dev :=
  let payload0 := Vec.empty.reserve D.sizeofPD5Data (E.fresh 0)
  Outcome.andThen (readRaw d D.sizeofPD5Data) fun r1 d1 =>
    if r1.1 ≠ 0 then (.throws .unablePayload, d1) else
    match poke payload0.store 0 r1.2 with
    | none => (.fault, d1)
    | some store1 =>
      match peek store1 0 D.sizeofPD4Data with
      | none => (.fault, d1)
      | some bytes =>
        let checksum1 := crc16 D.charSigned checksum bytes
        Outcome.andThen (readRaw d1 2) fun r2 d2 =>
          if r2.1 ≠ 0 then (.throws .unableChecksum, d2) else
          if checksum1 ≠ le16 r2.2 then (.throws .checksumMismatch, d2) else
          (.ok { format := .PD5, payload := { size := payload0.size, store := store1 },
                 pd5_data := some 0 }, d2)

/-- The number of bytes that the line still has to hand over. -/
def pending : List Event → Nat
  | [] => 0
  | .data chunk :: es => chunk.length + pending es
  | _ :: es => pending es

/-- The `do ... while (text != '>')` loop of the `default` case; the first argument
bounds the iterations. -/
def textLoop : Nat → Vec → Dev → Outcome Vec × Dev
  | 0, _, d => (.unfinished, d)
  | fuel + 1, payload, d =>
    Outcome.andThen (readRaw d 1) fun r d1 =>
      if r.1 ≠ 0 then (.throws .unableText, d1) else
      let text : Byte := r.2.headD 0
      let payload1 := payload.push_back text
      if text ≠ 62 then textLoop fuel payload1 d1 else (.ok payload1, d1)

/-- The `default` case of `readMessage`.  Every iteration of the loop that is followed
by another one has taken a byte from the line, so `pending + 1` iterations are enough. -/
def readText (d : Dev) : Outcome Message × Dev :=
  Outcome.andThen (textLoop (pending d.rx + 1) Vec.empty d) fun payload d1 =>
    (.ok { format := .TEXT, payload := payload.push_back 0, text := some 0 }, d1)

/-- The function `readMessage`. -/
def readMessage (D : Decl) (E : Env) (d : Dev) : Outcome Message × Dev :=
  Outcome.andThen (readRaw d 2) fun r d1 =>
    if r.1 ≠ 0 then (.throws .unableBeginning, d1) else
    let checksum := crc16 D.charSigned 0 r.2
    let start := le16 r.2
    if start = D.kPD0HeaderID then readPD0 D E checksum d1
    else if start = D.kPD4HeaderID then readPD4 D E checksum d1
    else if start = D.kPD5HeaderID then readPD5 D E checksum d1
    else readText d1

/-- The declarations of the vendor's output data format (PD0 header `7F 7F`, PD4 `7D 00`,
PD5 `7D 01`, a four-byte PD0 header after the identifier: ensemble byte count, spare,
number of data types), used where a concrete `Decl` is needed. -/
def rdi (charSigned : Bool) : Decl :=
  { charSigned := charSigned
    kPD0HeaderID := 0x7F7F
    kPD4HeaderID := 0x007D
    kPD5HeaderID := 0x017D
    kPD0FixedLeaderID := 0x0000
    kPD0VariableLeaderID := 0x0080
    kPD0VelocityDataID := 0x0100
    kPD0CorrelationMagnitudeID := 0x0200
    kPD0EchoIntensityID := 0x0300
    kPD0PercentGoodID := 0x0400
    kPD0StatusDataID := 0x0500
    kPD0BottomTrackID := 0x0600
    kPD0EnvironmentID := 0x3000
    kPD0BottomTrackCommandID := 0x5800
    kPD0BottomTrackHighResID := 0x5803
    kPD0BottomTrackRangeID := 0x5804
    kPD0SensorDataID := 0x3001
    sizeofPD0Header := 4
    offBytesInEnsemble := 0
    offDataTypes := 3
    sizeofPD4Data := 43
    sizeofPD5Data := 84 }

/-- An open device on which the given bytes are readable at once and nothing follows. -/
def Dev.ofStream (bytes : List Byte) : Dev :=
  { deviceFD := 3, rx := [.data bytes], tx := [], wire := [], calls := [] }

/-- An allocator whose blocks hold zero bytes. -/
def Env.zero : Env := { fresh := fun _ _ => 0 }

/-- The byte stream of a script: the bytes that successive reads obtain before the line
first fails to deliver (a timeout, an error, or a read of zero bytes). -/
def avail : List Event → List Byte
  | .data chunk :: es => if chunk = [] then [] else chunk ++ avail es
  | _ => []

/-- A PD4 frame of the vendor format: identifier `7D 00`, a payload of 43 bytes whose first
byte is `0x80`, and the trailing checksum `00FD` = `7D + 00 + 80`, least significant byte
first. -/
def pd4HighByteFrame : List Byte := [0x7D, 0x00, 0x80] ++ List.replicate 42 0 ++ [0xFD, 0x00]

/-- A PD5 frame of the vendor format: identifier `7D 01`, a payload of 84 bytes of which
only the last is non-zero, and the trailing checksum `007F` = `7D + 01 + 01` over the
identifier and the 84 payload bytes. -/
def pd5TailFrame : List Byte := [0x7D, 0x01] ++ List.replicate 83 0 ++ [0x01, 0x7F, 0x00]

/-- The frame `pd5TailFrame` with the trailing checksum `007E`, the sum over the
identifier and only the first 43 payload bytes. -/
def pd5ShortSumFrame : List Byte := [0x7D, 0x01] ++ List.replicate 83 0 ++ [0x01, 0x7E, 0x00]

/-- A PD4 frame of the vendor format with an all-zero payload and its checksum `007D`. -/
def pd4ZeroFrame : List Byte := [0x7D, 0x00] ++ List.replicate 43 0 ++ [0x7D, 0x00]

/-- The value of `bytes_in_ensemble` in a header read from the line. -/
def ensembleBytes (D : Decl) (header : List Byte) : Nat :=
  le16 ((header.drop D.offBytesInEnsemble).take 2)

/-- The value `payload_bytes = total_bytes - sizeof(checksum_t) - sizeof(frameid_t)`
computed from a header, in unsigned 16-bit arithmetic. -/
def payloadBytes (D : Decl) (header : List Byte) : Nat :=
  (((ensembleBytes D header : Nat) : Int) - 2 - 2) % 65536 |>.toNat

/-- The payload block after the PD0 case has read a frame from the stream `a` (the bytes
after the identifier): the bytes after the header are those of the stream; the header
bytes are those of the stream when the second `reserve` keeps the block, and whatever the
new block held when it allocates one. -/
def pd0Block (D : Decl) (E : Env) (a : List Byte) : List Byte :=
  (if D.sizeofPD0Header < payloadBytes D (a.take D.sizeofPD0Header) then
      (List.range D.sizeofPD0Header).map (E.fresh 1)
    else a.take D.sizeofPD0Header)
    ++ (a.drop D.sizeofPD0Header).take
        (payloadBytes D (a.take D.sizeofPD0Header) - D.sizeofPD0Header)

/-- The offset-table entry `offsets[i]` that the loop of `readMessage` reads: the 16-bit
value at byte `2 * (header_bytes + i)` of the block, when that lies inside the block. -/
def offsetAt (store : List Byte) (header_bytes i : Nat) : Option Nat :=
  peek16 store (2 * (header_bytes + i))

/-- The walked entry `i` when its offset and the identifier at that offset lie inside the
block and the identifier is one of the thirteen known ones: the offset and the kind. -/
def entry (D : Decl) (store : List Byte) (header_bytes i : Nat) : Option (Nat × Kind) :=
  match offsetAt store header_bytes i with
  | none => none
  | some offset =>
    match peek16 store offset with
    | none => none
    | some id =>
      match classify D id with
      | none => none
      | some kind => some (offset, kind)

/-- The identifier that the walked entry `i` locates, when the table entry and the
identifier lie inside the block. -/
def located (store : List Byte) (header_bytes i : Nat) : Option Nat :=
  match offsetAt store header_bytes i with
  | none => none
  | some offset => peek16 store offset

/-- An allocator whose blocks already hold the given bytes at their start. -/
def Env.holding (bytes : List Byte) : Env := { fresh := fun _ i => bytes.getD i 0 }

/-- The payload of `pd0ScenarioFrame`: the header (ensemble byte count 30, one data
type), the offset 6 right after the header, the fixed-leader identifier `00 00` at
position 6, and at positions 8 and 10 the value 10 and the unknown identifier `FF FF`. -/
def pd0ScenarioPayload : List Byte :=
  [30, 0, 0, 1, 6, 0, 0x00, 0x00, 10, 0, 0xFF, 0xFF] ++ List.replicate 14 0

/-- A PD0 frame of the vendor format: identifier `7F 7F`, `pd0ScenarioPayload`, and the
trailing checksum `032B`, the sum of all its bytes. -/
def pd0ScenarioFrame : List Byte := [0x7F, 0x7F] ++ pd0ScenarioPayload ++ [0x2B, 0x03]

/-- The payload of `pd0TwinFrame`: the header (ensemble byte count 20, two data types),
at bytes 8 and 10 the table entries 12 and 14 that the walk reads, and at positions 12
and 14 the fixed-leader identifier `00 00` twice. -/
def pd0TwinPayload : List Byte := [20, 0, 0, 2, 0, 0, 0, 0, 12, 0, 14, 0, 0, 0, 0, 0]

/-- A PD0 frame of the vendor format whose two walked offsets both point at a fixed
leader; trailing checksum `012E`, the sum of all its bytes. -/
def pd0TwinFrame : List Byte := [0x7F, 0x7F] ++ pd0TwinPayload ++ [0x2E, 0x01]

/-- The Message that `readMessage` returns for `pd0TwinFrame`. -/
def pd0TwinMessage : Message :=
  { format := .PD0, payload := { size := 0, store := pd0TwinPayload },
    pd0_header := some 0, pd0_fixed := some 16 }

/-- What follows the identifier in `pd0WrapFrame`: a header declaring an ensemble byte
count of 3 and no data type, 65531 zero bytes, and the trailing checksum `0101`. -/
def pd0WrapTail : List Byte := [3, 0, 0, 0] ++ (List.replicate 65531 0 ++ [0x01, 0x01])

/-- A stream that starts with the PD0 identifier and a header declaring an ensemble byte
count of 3; its last two bytes are the sum of all bytes before them. -/
def pd0WrapFrame : List Byte := 0x7F :: 0x7F :: pd0WrapTail

/-- The call `select(_deviceFD+1, ..., &write_fds, ...)` with only `_deviceFD` in
`write_fds`. -/
def selectWrite (d : Dev) : Int × Dev :=
  match d.tx with
  | [] => (0, { d with calls := d.calls ++ [.selectWrite 0] })
  | .timeout :: es => (0, { d with tx := es, calls := d.calls ++ [.selectWrite 0] })
  | .waitError :: es => (-1, { d with tx := es, calls := d.calls ++ [.selectWrite (-1)] })
  | .accept _ :: _ => (1, { d with calls := d.calls ++ [.selectWrite 1] })
  | .writeError :: _ => (1, { d with calls := d.calls ++ [.selectWrite 1] })

/-- The call `write(_deviceFD, blob + pos, count)`: the result and the line; `none` when
the bytes that the line takes do not all lie inside `blob`. -/
def sysWrite (d : Dev) (blob : List Byte) (pos : Nat) (count : Int) : Option (Int × Dev) :=
  match d.tx with
  | .accept room :: es =>
    match peek blob pos (min room count.toNat) with
    | none => none
    | some bytes =>
      some (((min room count.toNat : Nat) : Int),
        { d with tx := if room - min room count.toNat = 0 then es
                       else .accept (room - min room count.toNat) :: es,
                 wire := d.wire ++ bytes,
                 calls := d.calls ++ [.write count (min room count.toNat : Nat)] })
  | .writeError :: es => some (-1, { d with tx := es, calls := d.calls ++ [.write count (-1)] })
  | _ => some (-1, { d with calls := d.calls ++ [.write count (-1)] })

/-- The `do ... while` loop of `writeRaw`; the first argument bounds the iterations.
Returns `bytes_written` and the line. -/
def writeLoop (blob : List Byte) (bytes_to_write : Int) : Nat → Int → Dev → Outcome Int × Dev
  | 0, bytes_written, d => (.ok bytes_written, d)
  | fuel + 1, bytes_written, d =>
    if (selectWrite d).1 = 1 then
      match sysWrite (selectWrite d).2 blob bytes_written.toNat (bytes_to_write - bytes_written) with
      | none => (.fault, (selectWrite d).2)
      | some r =>
        if (if r.1 > 0 then bytes_written + r.1 else bytes_written) < bytes_to_write ∧ r.1 > 0 then
          writeLoop blob bytes_to_write fuel
            (if r.1 > 0 then bytes_written + r.1 else bytes_written) r.2
        else (.ok (if r.1 > 0 then bytes_written + r.1 else bytes_written), r.2)
    else (.ok bytes_written, (selectWrite d).2)

/-- The function `writeRaw`: the number of bytes still unwritten.  `blob` holds the bytes
of the object that the pointer refers to.  Every iteration that is followed by another
one has written at least one byte, so `bytes_to_write` iterations are enough. -/
def writeRaw (d : Dev) (blob : List Byte) (bytes_to_write : Int) : Outcome Int × Dev :=
  if isOpen d = false then (.throws .needsOpen, d)
  else if bytes_to_write > 0 then
    Outcome.andThen (writeLoop blob bytes_to_write bytes_to_write.toNat 0 d)
      fun bytes_written d1 => (.ok (bytes_to_write - bytes_written), d1)
  else (.ok bytes_to_write, d)

/-- The struct `Command`: a name and a `printf` format. -/
structure Command where
  name : String
  format : String

/-- An argument passed through the ellipsis of `writeCommand`. -/
inductive Arg
  | str (s : String)
  | int (i : Int)

/-- The macro `BUF_SIZE`. -/
def BUF_SIZE : Nat := 1024

/-- The text of `%d` for an `int`. -/
def decimal (i : Int) : List Char :=
  if i < 0 then '-' :: Nat.toDigits 10 i.natAbs else Nat.toDigits 10 i.toNat

/-- The text that `printf` formatting produces, for formats made of ordinary characters
and the conversions `%s`, `%d` and `%%` with arguments of the matching types; `none` for
anything else. -/
def formatText : List Char → List Arg → Option (List Char)
  | [], _ => some []
  | '%' :: 's' :: fmt, .str s :: args => (formatText fmt args).map (s.toList ++ ·)
  | '%' :: 'd' :: fmt, .int i :: args => (formatText fmt args).map (decimal i ++ ·)
  | '%' :: '%' :: fmt, args => (formatText fmt args).map ('%' :: ·)
  | '%' :: _, _ => none
  | c :: fmt, args => (formatText fmt args).map (c :: ·)

/-- The byte of a character of a command. -/
def charByte (c : Char) : Byte := ⟨c.toNat % 256, Nat.mod_lt _ (by decide)⟩

/-- The part of `writeCommand` after `vsnprintf`, for the formatted text `text`:
`vsnprintf` returns the length of `text` and stores at most `BUF_SIZE - 1` of its bytes
and a terminating NUL in `buffer`. -/
def sendText (text : List Byte) (d : Dev) : Outcome Unit × Dev :=
  let buffer := text.take (BUF_SIZE - 1) ++ [0]
  let bytes : Int := text.length
  if bytes = (BUF_SIZE : Int) - 1 then (.throws .writeOverflow, d)
  else
    Outcome.andThen (writeRaw d buffer bytes) fun r1 d1 =>
      if r1 ≠ 0 then (.throws .unableSend, d1) else
      Outcome.andThen (writeRaw d1 [13] 1) fun r2 d2 =>
        if r2 ≠ 0 then (.throws .unableCR, d2) else (.ok (), d2)

/-- The function `writeCommand`. -/
def writeCommand (cmd : Command) (args : List Arg) (d : Dev) : Outcome Unit × Dev :=
  match formatText cmd.format.toList args with
  | none => (.unfinished, d)
  | some text => sendText (text.map charByte) d

/-- The number of bytes that successive writes hand to the line before it first fails to
take any (a timeout, an error, or a write of zero bytes). -/
def roomOf : List WEvent → Nat
  | .accept room :: es => if room = 0 then 0 else room + roomOf es
  | _ => 0

/-- The number of wait cycles (`select` calls) in a list of system calls. -/
def waits : List Call → Nat
  | [] => 0
  | .selectRead _ :: cs => waits cs + 1
  | .selectWrite _ :: cs => waits cs + 1
  | _ :: cs => waits cs

/-- The result of a `select` call in the trace; `none` for another call. -/
def Call.waitResult : Call → Option Int
  | .selectRead r => some r
  | .selectWrite r => some r
  | _ => none

/-- The count asked and the result of a `read` or `write` call in the trace. -/
def Call.transfer : Call → Option (Int × Int)
  | .read count r => some (count, r)
  | .write count r => some (count, r)
  | _ => none

/-- The system calls of one run of the `do ... while` loop of `readRaw` or `writeRaw`
that starts with `missing` bytes to transfer: every iteration waits; an iteration whose
wait is ready asks for exactly the bytes still missing and gets at most that many; an
iteration is followed by another one only when it transferred at least one byte and
bytes are still missing. -/
def loopTrace (missing : Int) : List Call → Prop
  | [] => False
  | [w] => ∃ r, w.waitResult = some r ∧ r ≠ 1
  | w :: t :: rest =>
    w.waitResult = some 1 ∧
    ∃ r, t.transfer = some (missing, r) ∧ r ≤ missing ∧
      ((rest = [] ∧ (r ≤ 0 ∨ r = missing)) ∨ (0 < r ∧ r < missing ∧ loopTrace (missing - r) rest))

/-- The number of bytes of the stream `a` that a `readMessage` call which returns a
Message takes from the line: the identifier, then for PD0 `payload_bytes` bytes, for PD4
and PD5 the size of the structure, each followed by the two checksum bytes, and for a text
response the bytes up to and including the first `>`. -/
def frameLength (D : Decl) (a : List Byte) : Nat :=
  if le16 (a.take 2) = D.kPD0HeaderID then
    2 + payloadBytes D ((a.drop 2).take D.sizeofPD0Header) + 2
  else if le16 (a.take 2) = D.kPD4HeaderID then 2 + D.sizeofPD4Data + 2
  else if le16 (a.take 2) = D.kPD5HeaderID then 2 + D.sizeofPD5Data + 2
  else 2 + ((a.drop 2).takeWhile (fun b => b != 62)).length + 1

/-- An open device whose line follows the given scripts and has taken no byte yet. -/
def Dev.ofLine (rx : List Event) (tx : List WEvent) : Dev :=
  { deviceFD := 3, rx := rx, tx := tx, wire := [], calls := [] }

/-- A driver on which `openDevice` has not run (`_deviceFD` is -1, the value the
constructor stores), next to a line that would deliver and take bytes. -/
def Dev.closed : Dev :=
  { deviceFD := -1, rx := [.data [0x7D, 0x00]], tx := [.accept 8], wire := [], calls := [] }

/-- A command whose format takes a name and a number. -/
def cmdAssign : Command := { name := "assign", format := "%s=%d" }

/-- A command whose format is 1024 times the letter `A`. -/
def cmdLong : Command := { name := "long", format := String.mk (List.replicate 1024 'A') }

/-- A PD0 frame of the vendor format that passes the checksum (`0117`): the header
declares an ensemble byte count of 14 and one data type, so the payload has 10 bytes; the
table entry that the walk reads, at bytes 8 and 9, holds the offset 10, the position right
behind the payload. -/
def pd0PastFrame : List Byte := [0x7F, 0x7F, 14, 0, 0, 1, 0, 0, 0, 0, 10, 0, 0x17, 0x01]

/-- The PD0 frame `pd0TwinFrame` with the last two header bytes exchanged: it declares an
ensemble byte count of 20 and no data type, and has the same checksum `012E`. -/
def pd0SwapFrame : List Byte :=
  [0x7F, 0x7F] ++ [20, 0, 2, 0, 0, 0, 0, 0, 12, 0, 14, 0, 0, 0, 0, 0] ++ [0x2E, 0x01]

end DVL

/-! ## The embedding of the PID controller -/

/-- The class `PIDController`: its data members of type `double`, read as elements of an
ordered field `K`, the two flags, the `data` of `m_command_msg`, and `m_prev_time` in
seconds. -/
structure PIDController (K : Type) where
  m_kp : K
  m_ki : K
  m_kd : K
  m_upper_limit : K
  m_lower_limit : K
  m_windup_limit : K
  m_unwind_angle : Bool
  m_filter : Bool
  m_desired : K
  m_current : K
  m_error : K
  m_prev_error : K
  m_error_integral : K
  m_error_derivative : K
  m_command_msg : K
  m_prev_time : K

namespace PIDController

/-- A message that `ros::spinOnce` hands to one of the two callbacks of the controller. -/
inductive Callback (K : Type) where
  /-- a `std_msgs::Float64` on the sensor topic -/
  | sensor (data : K)
  /-- a reconfigure request with `config.kp`, `config.ki`, `config.kd`, `config.target` -/
  | config (kp ki kd target : K)

/-- The function `sensorCallback`. -/
def sensorCallback {K : Type} (c : PIDController K) (data : K) : PIDController K :=
  { c with m_current := data }

/-- The function `configCallback`. -/
def configCallback {K : Type} [LinearOrderedField K] (c : PIDController K)
    (kp ki kd target : K) : PIDController K :=
  { c with m_kp := kp, m_ki := ki, m_kd := kd, m_desired := target,
           m_error := 0, m_error_integral := 0, m_error_derivative := 0 }

/-- The call `ros::spinOnce()`: the pending messages go to their callbacks in order. -/
def spinOnce {K : Type} [LinearOrderedField K] (c : PIDController K) :
    List (Callback K) → PIDController K
  | [] => c
  | .sensor data :: msgs => spinOnce (c.sensorCallback data) msgs
  | .config kp ki kd target :: msgs => spinOnce (c.configCallback kp ki kd target) msgs

/-- The statement `if(m_error > PI) ... else if(m_error < -PI) ...` of `update`, as the
new value of `m_error`; `PI` is the constant of `pid_controller.h`. -/
def unwound {K : Type} [LinearOrderedField K] (PI m_error : K) : K :=
  if m_error > PI then 2 * PI - m_error
  else if m_error < -PI then 2 * PI + m_error
  else m_error

/-- The two statements `if(x > upper) x = upper; else if(x < lower) x = lower;` of
`update`, as the new value of `x`. -/
def limited {K : Type} [LinearOrderedField K] (upper lower x : K) : K :=
  if x > upper then upper
  else if x < lower then lower
  else x

/-- The function `update`: the controller afterwards and the value it publishes.  `msgs`
are the messages that `ros::spinOnce` delivers, `now1` and `now2` what the two calls of
`ros::Time::now` return, in seconds, so that `dt.toSec()` is `now1 - m_prev_time`. -/
def update {K : Type} [LinearOrderedField K] (PI : K) (msgs : List (Callback K))
    (now1 now2 : K) (c : PIDController K) : PIDController K × K :=
  let c0 := c.spinOnce msgs
  let dt := now1 - c0.m_prev_time
  let e1 := c0.m_desired - c0.m_current
  let e2 := if c0.m_filter = true then e1 / 2 + c0.m_prev_error / 2 else e1
  let m_error := if c0.m_unwind_angle = true then unwound PI e2 else e2
  let m_error_integral :=
    limited c0.m_windup_limit (-c0.m_windup_limit) (c0.m_error_integral + m_error * dt)
  let m_error_derivative := (m_error - c0.m_prev_error) / dt
  let data := limited c0.m_upper_limit c0.m_lower_limit
    (c0.m_kp * m_error + c0.m_ki * m_error_integral + c0.m_kd * m_error_derivative)
  ({ c0 with m_prev_time := now2, m_error := m_error, m_error_integral := m_error_integral,
             m_error_derivative := m_error_derivative, m_command_msg := data }, data)

/-- A controller with the default parameters of the constructor (`kp` 1, `ki` 0, `kd` 0,
limits 1000, -1000 and 1000, no filtering), the flag `angular_variable` set, and the
target `desired`. -/
def angular {K : Type} [LinearOrderedField K] (desired : K) : PIDController K :=
  { m_kp := 1, m_ki := 0, m_kd := 0, m_upper_limit := 1000, m_lower_limit := -1000,
    m_windup_limit := 1000, m_unwind_angle := true, m_filter := false,
    m_desired := desired, m_current := 0, m_error := 0, m_prev_error := 0,
    m_error_integral := 0, m_error_derivative := 0, m_command_msg := 0, m_prev_time := 0 }

end PIDController

namespace DVL

set_option maxRecDepth 100000

/-! ## Lemmas about the embedding -/

theorem readLoop_data_short (d : Dev) (N B f : Nat) (blob c : List Byte) (es : List Event)
    (hrx : d.rx = .data c :: es) (hc : c ≠ []) (hs : c.length < N - B) :
    readLoop (N : Int) (f + 1) (B : Int) blob d
      = readLoop (N : Int) f ((B + c.length : Nat) : Int) (blob ++ c)
          { d with rx := es,
                   calls := d.calls ++ [.selectRead 1, .read ((N : Int) - (B : Int)) c.length] } := by
  have hlen : 0 < c.length := List.length_pos.mpr hc
  have h1 : min (N - B) c.length = c.length := by omega
  have h2 : List.take (N - B) c = c := List.take_of_length_le (by omega)
  have h3 : List.drop (N - B) c = [] := List.drop_of_length_le (by omega)
  simp only [readLoop, selectRead, sysRead, hrx]
  simp [h1, h2, h3, hlen]
  intro h
  omega

theorem readLoop_data_full (d : Dev) (N B f : Nat) (blob c : List Byte) (es : List Event)
    (hrx : d.rx = .data c :: es) (hB : B < N) (hs : N - B ≤ c.length) :
    readLoop (N : Int) (f + 1) (B : Int) blob d
      = ((N : Int), blob ++ c.take (N - B),
          { d with rx := if c.drop (N - B) = [] then es else .data (c.drop (N - B)) :: es,
                   calls := d.calls ++ [.selectRead 1, .read ((N : Int) - (B : Int)) ((N - B : Nat) : Int)] }) := by
  have h1 : min (N - B) c.length = N - B := by omega
  have h2 : (B : Int) + ((N - B : Nat) : Int) = N := by omega
  simp only [readLoop, selectRead, sysRead, hrx]
  simp [h1, hB, h2]

theorem readLoop_spec (rx : List Event) :
    ∀ (d : Dev) (N B fuel : Nat) (blob : List Byte), d.rx = rx → B < N → N - B ≤ fuel →
      (readLoop (N : Int) fuel (B : Int) blob d).1
          = ((B + min (N - B) (avail rx).length : Nat) : Int)
        ∧ (readLoop (N : Int) fuel (B : Int) blob d).2.1 = blob ++ (avail rx).take (N - B)
        ∧ (readLoop (N : Int) fuel (B : Int) blob d).2.2.deviceFD = d.deviceFD 
        ∧ (readLoop (N : Int) fuel (B : Int) blob d).2.2.tx = d.tx 
        ∧ (readLoop (N : Int) fuel (B : Int) blob d).2.2.wire = d.wire
        ∧ (N - B ≤ (avail rx).length →
            avail (readLoop (N : Int) fuel (B : Int) blob d).2.2.rx = (avail rx).drop (N - B) 
            ∧ pending (readLoop (N : Int) fuel (B : Int) blob d).2.2.rx + (N - B) = pending rx) := by
  induction rx with
  | nil =>
    intro d N B fuel blob hrx hB hf
    obtain ⟨f, rfl⟩ : ∃ f, fuel = f + 1 := ⟨fuel - 1, by omega⟩
    simp [readLoop, selectRead, hrx, avail]
  | cons e es ih =>
    intro d N B fuel blob hrx hB hf
    obtain ⟨f, rfl⟩ : ∃ f, fuel = f + 1 := ⟨fuel - 1, by omega⟩
    cases e with
    | timeout =>
      simp [readLoop, selectRead, hrx, avail]
      omega
    | waitError =>
      simp [readLoop, selectRead, hrx, avail]
      omega
    | readError =>
      simp [readLoop, selectRead, sysRead, hrx, avail]
      omega
    | data c =>
      by_cases hc : c = []
      · subst hc
        simp [readLoop, selectRead, sysRead, hrx, avail]
        omega
      · have hlen : 0 < c.length := List.length_pos.mpr hc
        by_cases hfull : N - B ≤ c.length
        · rw [readLoop_data_full d N B f blob c es hrx hB hfull]
          have h1 : min (N - B) (c.length + (avail es).length) = N - B := by omega
          have h2 : B + (N - B) = N := by omega
          simp only [avail, hc, if_false, List.length_append, h1, h2, List.take_append_of_le_length hfull]
          refine ⟨trivial, trivial, trivial, trivial, trivial, fun _ => ?_⟩
          by_cases hd : List.drop (N - B) c = []
          · have hl : c.length = N - B := by
              have := congrArg List.length hd
              simp at this
              omega
            simp [hd, pending, List.drop_append_eq_append_drop, hl]
            omega
          · have hl : N - B < c.length := by
              rcases Nat.lt_or_ge (N - B) c.length with h | h
              · exact h
              · exact absurd (List.drop_of_length_le h) hd
            simp [hd, pending, avail, List.drop_append_eq_append_drop]
            constructor
            · rw [Nat.sub_eq_zero_of_le (by omega)]
              simp
            · omega
        · have hs : c.length < N - B := by omega
          rw [readLoop_data_short d N B f blob c es hrx hc hs]
          have := ih { d with rx := es, calls := d.calls ++ [.selectRead 1, .read ((N : Int) - (B : Int)) c.length] } N (B + c.length) f (blob ++ c) rfl (by omega) (by omega)
          obtain ⟨a1, a2, a3, a4, a5, a6⟩ := this
          have e1 : N - (B + c.length) = N - B - c.length := by omega
          refine ⟨?_, ?_, a3, a4, a5, ?_⟩
          · rw [a1]
            simp [avail, hc]
            omega
          · rw [a2]
            simp [avail, hc, e1, List.take_append_eq_append_take]
            omega
          · intro hle
            simp [avail, hc] at hle
            obtain ⟨b1, b2⟩ := a6 (by omega)
            refine ⟨?_, ?_⟩
            · rw [b1]
              simp [avail, hc, e1, List.drop_append_eq_append_drop]
              omega
            · simp only [pending]
              omega

theorem readRaw_closed (d : Dev) (n : Int) (h : isOpen d = false) :
    readRaw d n = (.throws .needsOpen, d) := by
  simp [readRaw, h]

theorem readRaw_avail (d : Dev) (N : Nat) (ho : isOpen d = true) (hN : N ≤ (avail d.rx).length) :
    (readRaw d (N : Int)).1 = .ok (0, (avail d.rx).take N)
      ∧ isOpen (readRaw d (N : Int)).2 = true
      ∧ (readRaw d (N : Int)).2.tx = d.tx
      ∧ (readRaw d (N : Int)).2.wire = d.wire
      ∧ avail (readRaw d (N : Int)).2.rx = (avail d.rx).drop N
      ∧ pending (readRaw d (N : Int)).2.rx + N = pending d.rx := by
  rcases Nat.eq_zero_or_pos N with h0 | hpos
  · subst h0
    simp [readRaw, ho]
  · have hs := readLoop_spec d.rx d N 0 N [] rfl hpos (by omega)
    simp only [Nat.sub_zero, Nat.zero_add, List.nil_append, Nat.cast_zero] at hs
    obtain ⟨a1, a2, a3, a4, a5, a6⟩ := hs
    obtain ⟨b1, b2⟩ := a6 hN
    have hp : (N : Int) > 0 := by omega
    have hm : min N (avail d.rx).length = N := by omega
    simp only [readRaw, ho, hp, if_true, Int.toNat_ofNat, Nat.cast_zero]
    simp only [Bool.true_eq_false, if_false]
    refine ⟨?_, ?_, a4, a5, b1, b2⟩
    · rw [a1, a2, hm]
      simp
    · simp only [isOpen] at ho ⊢
      rw [a3]
      exact ho

theorem andThen_ok {α β : Type} (r : Outcome α × Dev) (f : α → Dev → Outcome β × Dev) (a : α)
    (h : r.1 = .ok a) : Outcome.andThen r f = f a r.2 := by
  obtain ⟨o, d⟩ := r
  simp only at h
  subst h
  rfl

theorem readRaw_stream (d : Dev) (N : Nat) (ho : isOpen d = true) :
    (readRaw d (N : Int)).1
      = .ok ((N : Int) - ((min N (avail d.rx).length : Nat) : Int), (avail d.rx).take N) := by
  rcases Nat.lt_or_ge (avail d.rx).length N with h | h
  · have hs := readLoop_spec d.rx d N 0 N [] rfl (by omega) (by omega)
    simp only [Nat.sub_zero, Nat.zero_add, List.nil_append, Nat.cast_zero] at hs
    obtain ⟨a1, a2, -⟩ := hs
    have hp : (N : Int) > 0 := by omega
    simp only [readRaw, ho, hp, if_true, Int.toNat_ofNat, Nat.cast_zero]
    simp only [Bool.true_eq_false, if_false]
    rw [a1, a2]
  · rw [(readRaw_avail d N ho h).1]
    have hm : min N (avail d.rx).length = N := by omega
    rw [hm]
    simp

theorem readRaw_missing (d : Dev) (N : Nat) (ho : isOpen d = true)
    (h : (avail d.rx).length < N) :
    ∃ r : Int × List Byte, (readRaw d (N : Int)).1 = .ok r ∧ r.1 ≠ 0 := by
  refine ⟨_, readRaw_stream d N ho, ?_⟩
  have hm : min N (avail d.rx).length = (avail d.rx).length := by omega
  simp only [hm]
  omega

theorem readRaw_negative (d : Dev) (n : Int) (ho : isOpen d = true) (h : n < 0) :
    readRaw d n = (.ok (n, []), d) := by
  have : ¬ n > 0 := by omega
  simp [readRaw, ho, this]

theorem reserve_empty_length (n : Nat) (block : Nat → Byte) :
    (Vec.empty.reserve n block).store.length = n := by
  unfold Vec.reserve Vec.empty
  by_cases h : 0 < n
  · simp [h]
  · have : n = 0 := by omega
    subst this
    simp

theorem reserve_empty_size (n : Nat) (block : Nat → Byte) :
    (Vec.empty.reserve n block).size = 0 := by
  unfold Vec.reserve Vec.empty
  by_cases h : 0 < n
  · simp [h]
  · simp [h]

theorem poke_whole (store bytes : List Byte) (h : bytes.length = store.length) :
    poke store 0 bytes = some bytes := by
  simp [poke, h]

theorem peek_whole (store : List Byte) (n : Nat) (h : store.length = n) :
    peek store 0 n = some store := by
  subst h
  simp [peek]

theorem andThen_missing {β : Type} (r : Outcome (Int × List Byte) × Dev)
    (g : Int × List Byte → Dev → Outcome β × Dev) (e : DVLException)
    (h : ∃ a : Int × List Byte, r.1 = .ok a ∧ a.1 ≠ 0) :
    (Outcome.andThen r fun a d1 => if a.1 ≠ 0 then (.throws e, d1) else g a d1).1 = .throws e := by
  obtain ⟨a, h1, h2⟩ := h
  rw [andThen_ok _ _ _ h1]
  simp [h2]

theorem readPD4_stream (D : Decl) (E : Env) (checksum : Nat) (d : Dev) (ho : isOpen d = true) :
    (readPD4 D E checksum d).1
        = (if (avail d.rx).length < D.sizeofPD4Data then .throws .unablePayload
          else if (avail d.rx).length < D.sizeofPD4Data + 2 then .throws .unableChecksum
          else if crc16 D.charSigned checksum ((avail d.rx).take D.sizeofPD4Data)
              = le16 (((avail d.rx).drop D.sizeofPD4Data).take 2) then
            .ok { format := .PD4,
                  payload := { size := 0, store := (avail d.rx).take D.sizeofPD4Data },
                  pd4_data := some 0 }
          else .throws .checksumMismatch)
      ∧ (D.sizeofPD4Data + 2 ≤ (avail d.rx).length →
          isOpen (readPD4 D E checksum d).2 = true
          ∧ avail (readPD4 D E checksum d).2.rx = (avail d.rx).drop (D.sizeofPD4Data + 2)) := by
  rcases Nat.lt_or_ge (avail d.rx).length D.sizeofPD4Data with h1 | h1
  · refine ⟨?_, fun h => by omega⟩
    rw [if_pos h1]
    exact andThen_missing _ _ _ (readRaw_missing d _ ho h1)
  · obtain ⟨a1, a2, -, -, a5, -⟩ := readRaw_avail d D.sizeofPD4Data ho h1
    have hl : ((avail d.rx).take D.sizeofPD4Data).length = D.sizeofPD4Data := by
      simp [h1]
    unfold readPD4
    rw [andThen_ok _ _ _ a1]
    simp only [ne_eq, not_true_eq_false, if_false]
    rw [poke_whole _ _ (by rw [reserve_empty_length]; exact hl)]
    simp only
    rw [peek_whole _ _ hl]
    simp only [reserve_empty_size]
    rw [if_neg (Nat.not_lt.mpr h1)]
    rcases Nat.lt_or_ge (avail d.rx).length (D.sizeofPD4Data + 2) with h2 | h2
    · refine ⟨?_, fun h => by omega⟩
      rw [if_pos h2]
      refine andThen_missing _ _ _ (readRaw_missing _ 2 a2 ?_)
      rw [a5]
      simp
      omega
    · have h3 : 2 ≤ (avail (readRaw d (D.sizeofPD4Data : Int)).2.rx).length := by
        rw [a5]
        simp
        omega
      obtain ⟨b1, b2, -, -, b5, -⟩ := readRaw_avail _ 2 a2 h3
      simp only [Nat.cast_ofNat] at b1 b2 b5
      rw [andThen_ok _ _ _ b1]
      rw [a5] at b5
      simp only [ne_eq, not_true_eq_false, if_false, a5]
      rw [if_neg (Nat.not_lt.mpr h2)]
      by_cases hc : crc16 D.charSigned checksum ((avail d.rx).take D.sizeofPD4Data)
              = le16 (((avail d.rx).drop D.sizeofPD4Data).take 2)
      · simp [hc, b2, b5]
      · simp [hc, b2, b5]

theorem peek_take (a : List Byte) (n m : Nat) (hnm : n ≤ m) (hm : m ≤ a.length) :
    peek (a.take m) 0 n = some (a.take n) := by
  have : n ≤ (a.take m).length := by simp; omega
  simp [peek, List.take_take, hnm]
  omega

theorem readPD5_stream (D : Decl) (E : Env) (checksum : Nat) (d : Dev) (ho : isOpen d = true) :
    (readPD5 D E checksum d).1
        = (if (avail d.rx).length < D.sizeofPD5Data then .throws .unablePayload
          else if D.sizeofPD5Data < D.sizeofPD4Data then .fault
          else if (avail d.rx).length < D.sizeofPD5Data + 2 then .throws .unableChecksum
          else if crc16 D.charSigned checksum ((avail d.rx).take D.sizeofPD4Data)
              = le16 (((avail d.rx).drop D.sizeofPD5Data).take 2) then
            .ok { format := .PD5,
                  payload := { size := 0, store := (avail d.rx).take D.sizeofPD5Data },
                  pd5_data := some 0 }
          else .throws .checksumMismatch)
      ∧ (D.sizeofPD4Data ≤ D.sizeofPD5Data → D.sizeofPD5Data + 2 ≤ (avail d.rx).length →
          isOpen (readPD5 D E checksum d).2 = true
          ∧ avail (readPD5 D E checksum d).2.rx = (avail d.rx).drop (D.sizeofPD5Data + 2)) := by
  rcases Nat.lt_or_ge (avail d.rx).length D.sizeofPD5Data with h1 | h1
  · refine ⟨?_, fun _ h => by omega⟩
    rw [if_pos h1]
    exact andThen_missing _ _ _ (readRaw_missing d _ ho h1)
  · obtain ⟨a1, a2, -, -, a5, -⟩ := readRaw_avail d D.sizeofPD5Data ho h1
    have hl : ((avail d.rx).take D.sizeofPD5Data).length = D.sizeofPD5Data := by
      simp [h1]
    rw [if_neg (Nat.not_lt.mpr h1)]
    unfold readPD5
    rw [andThen_ok _ _ _ a1]
    simp only [ne_eq, not_true_eq_false, if_false]
    rw [poke_whole _ _ (by rw [reserve_empty_length]; exact hl)]
    simp only
    rcases Nat.lt_or_ge D.sizeofPD5Data D.sizeofPD4Data with h0 | h0
    · refine ⟨?_, fun h _ => by omega⟩
      rw [if_pos h0]
      have : peek (List.take D.sizeofPD5Data (avail d.rx)) 0 D.sizeofPD4Data = none := by
        simp [peek, hl, h0]
      rw [this]
    · rw [if_neg (Nat.not_lt.mpr h0)]
      rw [peek_take _ _ _ h0 h1]
      simp only [reserve_empty_size]
      rcases Nat.lt_or_ge (avail d.rx).length (D.sizeofPD5Data + 2) with h2 | h2
      · refine ⟨?_, fun _ h => by omega⟩
        rw [if_pos h2]
        refine andThen_missing _ _ _ (readRaw_missing _ 2 a2 ?_)
        rw [a5]
        simp
        omega
      · have h3 : 2 ≤ (avail (readRaw d (D.sizeofPD5Data : Int)).2.rx).length := by
          rw [a5]
          simp
          omega
        obtain ⟨b1, b2, -, -, b5, -⟩ := readRaw_avail _ 2 a2 h3
        simp only [Nat.cast_ofNat] at b1 b2 b5
        rw [andThen_ok _ _ _ b1]
        rw [a5] at b5
        simp only [ne_eq, not_true_eq_false, if_false, a5]
        rw [if_neg (Nat.not_lt.mpr h2)]
        by_cases hc : crc16 D.charSigned checksum ((avail d.rx).take D.sizeofPD4Data)
                = le16 (((avail d.rx).drop D.sizeofPD5Data).take 2)
        · simp [hc, b2, b5]
        · simp [hc, b2, b5]

theorem readMessage_closed (D : Decl) (E : Env) (d : Dev) (h : isOpen d = false) :
    readMessage D E d = (.throws .needsOpen, d) := by
  simp [readMessage, readRaw_closed d _ h, Outcome.andThen]

theorem readMessage_short (D : Decl) (E : Env) (d : Dev) (ho : isOpen d = true)
    (h : (avail d.rx).length < 2) :
    (readMessage D E d).1 = .throws .unableBeginning := by
  unfold readMessage
  exact andThen_missing _ _ _ (readRaw_missing d 2 ho h)

theorem readMessage_dispatch (D : Decl) (E : Env) (d : Dev) (ho : isOpen d = true)
    (h : 2 ≤ (avail d.rx).length) :
    readMessage D E d
        = (if le16 ((avail d.rx).take 2) = D.kPD0HeaderID then
            readPD0 D E (crc16 D.charSigned 0 ((avail d.rx).take 2)) (readRaw d 2).2
          else if le16 ((avail d.rx).take 2) = D.kPD4HeaderID then
            readPD4 D E (crc16 D.charSigned 0 ((avail d.rx).take 2)) (readRaw d 2).2
          else if le16 ((avail d.rx).take 2) = D.kPD5HeaderID then
            readPD5 D E (crc16 D.charSigned 0 ((avail d.rx).take 2)) (readRaw d 2).2
          else readText (readRaw d 2).2)
      ∧ isOpen (readRaw d 2).2 = true
      ∧ avail (readRaw d 2).2.rx = (avail d.rx).drop 2
      ∧ pending (readRaw d 2).2.rx + 2 = pending d.rx := by
  obtain ⟨a1, a2, -, -, a5, a6⟩ := readRaw_avail d 2 ho h
  simp only [Nat.cast_ofNat] at a1 a2 a5 a6
  refine ⟨?_, a2, a5, a6⟩
  unfold readMessage
  rw [andThen_ok _ _ _ a1]
  simp

theorem charValue_bounds (s : Bool) (b : Byte) : -128 ≤ charValue s b ∧ charValue s b ≤ 255 := by
  unfold charValue
  have := b.isLt
  split <;> omega

theorem charValue_unsigned (b : Byte) : charValue false b = (b.val : Int) := by
  simp [charValue]

theorem charValue_inj (s : Bool) (x y : Byte) (h : charValue s x = charValue s y) : x = y := by
  unfold charValue at h
  have hx := x.isLt
  have hy := y.isLt
  apply Fin.ext
  split at h <;> split at h <;> omega

theorem crc16_cons (s : Bool) (c : Nat) (b : Byte) (l : List Byte) :
    crc16 s c (b :: l) = crc16 s (((c : Int) + charValue s b) % 65536).toNat l := rfl

theorem crc16_append (s : Bool) (a b : List Byte) :
    ∀ c : Nat, crc16 s c (a ++ b) = crc16 s (crc16 s c a) b := by
  induction a with
  | nil => intro c; rfl
  | cons x a ih => intro c; simp only [List.cons_append, crc16_cons, ih]

theorem crc16_inj (s : Bool) (l : List Byte) :
    ∀ c1 c2 : Nat, c1 < 65536 → c2 < 65536 → crc16 s c1 l = crc16 s c2 l → c1 = c2 := by
  induction l with
  | nil => intro c1 c2 _ _ h; exact h
  | cons x l ih =>
    intro c1 c2 h1 h2 h
    have hb := charValue_bounds s x
    simp only [crc16_cons] at h
    have := ih _ _ (by omega) (by omega) h
    omega

theorem crc16_set_ne (s : Bool) (l : List Byte) :
    ∀ (c i : Nat) (b : Byte), c < 65536 → i < l.length → l.getD i 0 ≠ b →
      crc16 s c (l.set i b) ≠ crc16 s c l := by
  induction l with
  | nil => intro c i b _ hi; simp at hi
  | cons x l ih =>
    intro c i b hc hi hne
    have hx := charValue_bounds s x
    have hb := charValue_bounds s b
    cases i with
    | zero =>
      simp only [List.set_cons_zero, crc16_cons]
      intro h
      have h2 := crc16_inj s l _ _ (by omega) (by omega) h
      have h3 : charValue s b = charValue s x := by omega
      have := charValue_inj s _ _ h3
      simp at hne
      exact hne this.symm
    | succ j =>
      simp only [List.set_cons_succ, crc16_cons]
      simp at hi hne
      exact ih _ j b (by omega) hi (by simpa using hne)

theorem crc16_lt (s : Bool) (l : List Byte) : ∀ c : Nat, c < 65536 → crc16 s c l < 65536 := by
  induction l with
  | nil => intro c h; exact h
  | cons x l ih =>
    intro c _
    rw [crc16_cons]
    exact ih _ (by omega)

theorem crc16_unsigned_sum (l : List Byte) :
    ∀ c : Nat, c < 65536 → crc16 false c l = (c + (l.map Fin.val).sum) % 65536 := by
  induction l with
  | nil => intro c h; simp [crc16]; omega
  | cons x l ih =>
    intro c h
    rw [crc16_cons, ih _ (by omega), charValue_unsigned]
    simp only [List.map_cons, List.sum_cons]
    omega

theorem Decl.WF.pd4_ne_pd0 {D : Decl} (h : D.WF) : D.kPD4HeaderID ≠ D.kPD0HeaderID := by
  obtain ⟨-, -, -, h4, -⟩ := h
  simp at h4
  exact fun e => h4.1.1 e.symm

theorem Decl.WF.pd5_ne_pd0 {D : Decl} (h : D.WF) : D.kPD5HeaderID ≠ D.kPD0HeaderID := by
  obtain ⟨-, -, -, h4, -⟩ := h
  simp at h4
  exact fun e => h4.1.2 e.symm

theorem Decl.WF.pd5_ne_pd4 {D : Decl} (h : D.WF) : D.kPD5HeaderID ≠ D.kPD4HeaderID := by
  obtain ⟨-, -, -, h4, -⟩ := h
  simp at h4
  exact fun e => h4.2 e.symm

/-- The outcome of `readMessage` on a stream that holds a whole PD4 frame. -/
theorem readMessage_pd4 (D : Decl) (E : Env) (d : Dev) (id0 id1 c0 c1 : Byte)
    (payload tail : List Byte) (hD : D.WF) (ho : isOpen d = true)
    (hid : le16 [id0, id1] = D.kPD4HeaderID) (hlen : payload.length = D.sizeofPD4Data)
    (hrx : avail d.rx = id0 :: id1 :: (payload ++ c0 :: c1 :: tail)) :
    (readMessage D E d).1
      = (if crc16 D.charSigned (crc16 D.charSigned 0 [id0, id1]) payload = le16 [c0, c1] then
          .ok { format := .PD4, payload := { size := 0, store := payload }, pd4_data := some 0 }
        else .throws .checksumMismatch) := by
  obtain ⟨e1, e2, e3, -⟩ := readMessage_dispatch D E d ho (by rw [hrx]; simp)
  have ht : (avail d.rx).take 2 = [id0, id1] := by rw [hrx]; rfl
  have hd : (avail d.rx).drop 2 = payload ++ c0 :: c1 :: tail := by rw [hrx]; rfl
  rw [ht] at e1
  rw [hd] at e3
  rw [e1, hid, if_neg hD.pd4_ne_pd0, if_pos rfl]
  rw [(readPD4_stream D E _ _ e2).1, e3]
  have l1 : ¬ (payload ++ c0 :: c1 :: tail).length < D.sizeofPD4Data := by simp; omega
  have l2 : ¬ (payload ++ c0 :: c1 :: tail).length < D.sizeofPD4Data + 2 := by simp; omega
  have t1 : (payload ++ c0 :: c1 :: tail).take D.sizeofPD4Data = payload := by
    rw [← hlen]; simp
  have t2 : ((payload ++ c0 :: c1 :: tail).drop D.sizeofPD4Data).take 2 = [c0, c1] := by
    rw [← hlen]; simp
  rw [if_neg l1, if_neg l2, t1, t2]

/-- On a target whose plain `char` is unsigned, a PD4 frame whose trailing checksum is the
truncated sum of the raw values of its identifier and payload bytes is accepted, and the
message holds exactly the payload. -/
theorem readMessage_pd4_unsigned_char (D : Decl) (E : Env) (d : Dev) (id0 id1 c0 c1 : Byte)
    (payload tail : List Byte) (hD : D.WF) (hu : D.charSigned = false) (ho : isOpen d = true)
    (hid : le16 [id0, id1] = D.kPD4HeaderID) (hlen : payload.length = D.sizeofPD4Data)
    (hrx : avail d.rx = id0 :: id1 :: (payload ++ c0 :: c1 :: tail))
    (hsum : le16 [c0, c1] = (id0.val + id1.val + (payload.map Fin.val).sum) % 65536) :
    (readMessage D E d).1
      = .ok { format := .PD4, payload := { size := 0, store := payload }, pd4_data := some 0 } := by
  rw [readMessage_pd4 D E d id0 id1 c0 c1 payload tail hD ho hid hlen hrx, hu]
  rw [if_pos]
  rw [← crc16_append, crc16_unsigned_sum _ 0 (by omega), hsum]
  simp
  omega

theorem pd0Block_length (D : Decl) (E : Env) (a : List Byte)
    (h1 : D.sizeofPD0Header ≤ payloadBytes D (a.take D.sizeofPD0Header))
    (h2 : payloadBytes D (a.take D.sizeofPD0Header) ≤ a.length) :
    (pd0Block D E a).length = payloadBytes D (a.take D.sizeofPD0Header) := by
  unfold pd0Block
  split <;> simp <;> omega

theorem peek16_take (D : Decl) (a : List Byte) (hD : D.WF) (h : D.sizeofPD0Header ≤ a.length) :
    peek16 (a.take D.sizeofPD0Header) D.offBytesInEnsemble
      = some (ensembleBytes D (a.take D.sizeofPD0Header)) := by
  obtain ⟨-, -, -, -, -, -, -, h8, -⟩ := hD
  have : D.offBytesInEnsemble + 2 ≤ (a.take D.sizeofPD0Header).length := by simp; omega
  simp only [peek16, peek, this, if_true, Option.map_some', ensembleBytes]

theorem poke_reserve (hdr blob : List Byte) (pb : Nat) (junk : Nat → Byte)
    (h1 : hdr.length ≤ pb) (h2 : blob.length = pb - hdr.length) :
    poke (Vec.reserve { size := 0, store := hdr } pb junk).store hdr.length blob
      = some ((if hdr.length < pb then (List.range hdr.length).map junk else hdr) ++ blob) := by
  by_cases h : hdr.length < pb
  · have e : pb = hdr.length + (pb - hdr.length) := by omega
    simp only [Vec.reserve, h, if_true, poke, List.length_map, List.length_range, h2,
      Nat.not_lt_zero, if_false]
    rw [if_pos (by omega)]
    have e2 : hdr.length + (pb - hdr.length) = pb := by omega
    rw [e2, List.drop_of_length_le (by simp), ← List.map_take, List.take_range]
    simp [Nat.min_eq_left (Nat.le_of_lt h)]
  · have e : pb = hdr.length := by omega
    subst e
    have hb : blob = [] := by
      apply List.eq_nil_of_length_eq_zero
      omega
    subst hb
    simp [Vec.reserve, poke]

theorem peek_one (l : List Byte) (i : Nat) (h : i < l.length) :
    peek l i 1 = some [l.getD i 0] := by
  have : i + 1 ≤ l.length := h
  simp only [peek, this, if_true]
  rw [List.getD_eq_getElem _ _ h]
  congr 1
  rw [List.take_one_drop_eq_of_lt_length h]
  rfl

theorem reserve_size (v : Vec) (n : Nat) (block : Nat → Byte) : (v.reserve n block).size = v.size := by
  unfold Vec.reserve
  split <;> rfl

theorem readPD0_stream (D : Decl) (E : Env) (checksum : Nat) (d : Dev) (hD : D.WF)
    (ho : isOpen d = true) :
    (readPD0 D E checksum d).1
        = (if (avail d.rx).length < D.sizeofPD0Header then .throws .unableHeader
          else if payloadBytes D ((avail d.rx).take D.sizeofPD0Header) < D.sizeofPD0Header then
            .throws .unablePayload
          else if (avail d.rx).length < payloadBytes D ((avail d.rx).take D.sizeofPD0Header) then
            .throws .unablePayload
          else if (avail d.rx).length
              < payloadBytes D ((avail d.rx).take D.sizeofPD0Header) + 2 then
            .throws .unableChecksum
          else if crc16 D.charSigned checksum (pd0Block D E (avail d.rx))
              = le16 (((avail d.rx).drop
                  (payloadBytes D ((avail d.rx).take D.sizeofPD0Header))).take 2) then
            walk D (pd0Block D E (avail d.rx)) D.sizeofPD0Header
              ((pd0Block D E (avail d.rx)).getD D.offDataTypes 0).val 0
              { format := .PD0, payload := { size := 0, store := pd0Block D E (avail d.rx) },
                pd0_header := some 0 }
          else .throws .checksumMismatch)
      ∧ (D.sizeofPD0Header ≤ payloadBytes D ((avail d.rx).take D.sizeofPD0Header) →
          payloadBytes D ((avail d.rx).take D.sizeofPD0Header) + 2 ≤ (avail d.rx).length →
          isOpen (readPD0 D E checksum d).2 = true
          ∧ avail (readPD0 D E checksum d).2.rx
              = (avail d.rx).drop (payloadBytes D ((avail d.rx).take D.sizeofPD0Header) + 2)) := by
  have hsz : D.sizeofPD0Header % 65536 = D.sizeofPD0Header := Nat.mod_eq_of_lt hD.2.2.2.2.2.2.1
  rcases Nat.lt_or_ge (avail d.rx).length D.sizeofPD0Header with h1 | h1
  · refine ⟨?_, fun _ _ => by omega⟩
    rw [if_pos h1]
    unfold readPD0
    simp only [hsz]
    exact andThen_missing _ _ _ (readRaw_missing d _ ho h1)
  · obtain ⟨a1, a2, -, -, a5, -⟩ := readRaw_avail d D.sizeofPD0Header ho h1
    have hl : ((avail d.rx).take D.sizeofPD0Header).length = D.sizeofPD0Header := by
      simp [h1]
    rw [if_neg (Nat.not_lt.mpr h1)]
    unfold readPD0
    simp only [hsz]
    rw [andThen_ok _ _ _ a1]
    simp only [ne_eq, not_true_eq_false, if_false]
    rw [poke_whole _ _ (by rw [reserve_empty_length]; exact hl)]
    simp only
    rw [peek16_take D _ hD h1]
    simp only [reserve_empty_size]
    have hpb : ((((ensembleBytes D ((avail d.rx).take D.sizeofPD0Header) : Nat) : Int) - 2 - 2)
        % 65536).toNat = payloadBytes D ((avail d.rx).take D.sizeofPD0Header) := rfl
    simp only [hpb]
    unfold pd0Block
    generalize payloadBytes D ((avail d.rx).take D.sizeofPD0Header) = pb
    rcases Nat.lt_or_ge pb D.sizeofPD0Header with h2 | h2
    · refine ⟨?_, fun _ _ => by omega⟩
      rw [if_pos h2, readRaw_negative _ _ a2 (by omega)]
      have : ¬ ((pb : Int) - (D.sizeofPD0Header : Int) = 0) := by omega
      simp [Outcome.andThen, this]
    · rw [if_neg (Nat.not_lt.mpr h2)]
      have hc : (pb : Int) - (D.sizeofPD0Header : Int) = ((pb - D.sizeofPD0Header : Nat) : Int) := by
        omega
      rw [hc]
      rcases Nat.lt_or_ge (avail d.rx).length pb with h3 | h3
      · refine ⟨?_, fun _ _ => by omega⟩
        rw [if_pos h3]
        refine andThen_missing _ _ _ (readRaw_missing _ _ a2 ?_)
        rw [a5]
        simp
        omega
      · rw [if_neg (Nat.not_lt.mpr h3)]
        obtain ⟨b1, b2, -, -, b5, -⟩ := readRaw_avail (readRaw d D.sizeofPD0Header).2
          (pb - D.sizeofPD0Header) a2 (by rw [a5]; simp; omega)
        rw [a5] at b1 b5
        rw [andThen_ok _ _ _ b1]
        simp only [ne_eq, not_true_eq_false, if_false]
        have hp := poke_reserve ((avail d.rx).take D.sizeofPD0Header)
          ((List.drop D.sizeofPD0Header (avail d.rx)).take (pb - D.sizeofPD0Header)) pb (E.fresh 1)
          (by rw [hl]; exact h2) (by rw [hl]; simp; omega)
        rw [hl] at hp
        rw [hp]
        simp only
        have hblen : ((if D.sizeofPD0Header < pb then List.map (E.fresh 1) (List.range D.sizeofPD0Header)
              else List.take D.sizeofPD0Header (avail d.rx)) ++
              List.take (pb - D.sizeofPD0Header) (List.drop D.sizeofPD0Header (avail d.rx))).length
            = pb := by
          split <;> simp <;> omega
        generalize ((if D.sizeofPD0Header < pb then List.map (E.fresh 1) (List.range D.sizeofPD0Header)
              else List.take D.sizeofPD0Header (avail d.rx)) ++
              List.take (pb - D.sizeofPD0Header) (List.drop D.sizeofPD0Header (avail d.rx))) = blk
          at hblen ⊢
        rw [peek_whole _ _ hblen, reserve_size]
        simp only
        have hdd : List.drop (pb - D.sizeofPD0Header) (List.drop D.sizeofPD0Header (avail d.rx))
            = List.drop pb (avail d.rx) := by
          rw [List.drop_drop]
          congr 1
          omega
        rw [hdd] at b5
        rcases Nat.lt_or_ge (avail d.rx).length (pb + 2) with h4 | h4
        · refine ⟨?_, fun _ _ => by omega⟩
          rw [if_pos h4]
          refine andThen_missing _ _ _ (readRaw_missing _ 2 b2 ?_)
          rw [b5]
          simp
          omega
        · rw [if_neg (Nat.not_lt.mpr h4)]
          obtain ⟨c1, c2, -, -, c5, -⟩ := readRaw_avail _ 2 b2 (by rw [b5]; simp; omega)
          simp only [Nat.cast_ofNat] at c1 c2 c5
          rw [b5] at c1 c5
          rw [andThen_ok _ _ _ c1]
          simp only [ne_eq, not_true_eq_false, if_false]
          have hdt : D.offDataTypes < blk.length := by
            have := hD.2.2.2.2.2.2.2.2.1
            omega
          rw [peek_one _ _ hdt]
          simp only [List.headD_cons]
          by_cases hcs : crc16 D.charSigned checksum blk = le16 (List.take 2 (List.drop pb (avail d.rx)))
          · simp [hcs, c2, c5]
          · simp [hcs, c2, c5]

theorem setView_view_same (m : Message) (b : Nat) (k : Kind) : (m.setView b k).view k = some b := by
  cases k <;> rfl

theorem setView_view_other (m : Message) (b : Nat) (k k1 : Kind) (h : k1 ≠ k) :
    (m.setView b k).view k1 = m.view k1 := by
  cases k <;> cases k1 <;> first | rfl | exact absurd rfl h

theorem setView_format (m : Message) (b : Nat) (k : Kind) : (m.setView b k).format = m.format := by
  cases k <;> rfl

theorem setView_payload (m : Message) (b : Nat) (k : Kind) : (m.setView b k).payload = m.payload := by
  cases k <;> rfl

theorem walk_succ_of_entry (D : Decl) (store : List Byte) (hb count i : Nat) (m : Message)
    (o : Nat) (k : Kind) (h : entry D store hb i = some (o, k)) :
    walk D store hb (count + 1) i m = walk D store hb count (i + 1) (m.setView (o + 2) k) := by
  unfold entry offsetAt at h
  rw [walk]
  cases ho : peek16 store (2 * (hb + i)) with
  | none => simp [ho] at h
  | some offset =>
    simp only [ho] at h ⊢
    cases hid : peek16 store offset with
    | none => simp [hid] at h
    | some id =>
      simp only [hid] at h ⊢
      cases hk : classify D id with
      | none => simp [hk] at h
      | some kind =>
        simp only [hk, Option.some.injEq, Prod.mk.injEq] at h ⊢
        obtain ⟨rfl, rfl⟩ := h
        rfl

theorem walk_succ_of_not_entry (D : Decl) (store : List Byte) (hb count i : Nat) (m : Message)
    (h : entry D store hb i = none) :
    walk D store hb (count + 1) i m
      = (match located store hb i with
         | none => .fault
         | some _ => .throws .unknownDataFormat) := by
  unfold entry at h
  unfold located
  rw [walk]
  unfold offsetAt at h ⊢
  cases ho : peek16 store (2 * (hb + i)) with
  | none => rfl
  | some offset =>
    simp only [ho] at h ⊢
    cases hid : peek16 store offset with
    | none => rfl
    | some id =>
      simp only [hid] at h ⊢
      cases hk : classify D id with
      | none => rfl
      | some kind => simp [hk] at h

theorem walk_ok_iff (D : Decl) (store : List Byte) (hb : Nat) :
    ∀ (count i : Nat) (m : Message),
      (∃ m1, walk D store hb count i m = .ok m1)
        ↔ ∀ j, j < count → (entry D store hb (i + j)).isSome = true := by
  intro count
  induction count with
  | zero =>
    intro i m
    simp [walk]
  | succ n ih =>
    intro i m
    cases he : entry D store hb i with
    | none =>
      rw [walk_succ_of_not_entry D store hb n i m he]
      constructor
      · rintro ⟨m1, h⟩
        split at h <;> cases h
      · intro h
        have := h 0 (by omega)
        simp [he] at this
    | some ok =>
      obtain ⟨o, k⟩ := ok
      rw [walk_succ_of_entry D store hb n i m o k he, ih]
      constructor
      · intro h j hj
        cases j with
        | zero => simp [he]
        | succ j0 =>
          have := h j0 (by omega)
          rw [show i + (j0 + 1) = i + 1 + j0 by omega]
          exact this
      · intro h j hj
        have := h (j + 1) (by omega)
        rw [show i + (j + 1) = i + 1 + j by omega] at this
        exact this

theorem walk_unknown (D : Decl) (store : List Byte) (hb : Nat) :
    ∀ (count i : Nat) (m : Message),
      (∀ j, j < count → (located store hb (i + j)).isSome = true) →
      (∃ j, j < count ∧ entry D store hb (i + j) = none) →
      walk D store hb count i m = .throws .unknownDataFormat := by
  intro count
  induction count with
  | zero =>
    intro i m _ h
    obtain ⟨j, hj, -⟩ := h
    omega
  | succ n ih =>
    intro i m hloc hbad
    cases he : entry D store hb i with
    | none =>
      rw [walk_succ_of_not_entry D store hb n i m he]
      have := hloc 0 (by omega)
      simp only [Nat.add_zero] at this
      cases hl : located store hb i with
      | none => simp [hl] at this
      | some v => rfl
    | some ok =>
      obtain ⟨o, k⟩ := ok
      rw [walk_succ_of_entry D store hb n i m o k he]
      apply ih
      · intro j hj
        have := hloc (j + 1) (by omega)
        rw [show i + (j + 1) = i + 1 + j by omega] at this
        exact this
      · obtain ⟨j, hj, hn⟩ := hbad
        cases j with
        | zero => simp [he] at hn
        | succ j0 =>
          refine ⟨j0, by omega, ?_⟩
          rw [show i + 1 + j0 = i + (j0 + 1) by omega]
          exact hn

theorem walk_views (D : Decl) (store : List Byte) (hb : Nat) :
    ∀ (count i : Nat) (m m1 : Message), walk D store hb count i m = .ok m1 →
      m1.format = m.format ∧ m1.payload = m.payload ∧
      ∀ k : Kind,
        (∀ j o, j < count → entry D store hb (i + j) = some (o, k) →
          (∀ j1 o1, j < j1 → j1 < count → entry D store hb (i + j1) ≠ some (o1, k)) →
          m1.view k = some (o + 2))
        ∧ ((∀ j o, j < count → entry D store hb (i + j) ≠ some (o, k)) → m1.view k = m.view k) := by
  intro count
  induction count with
  | zero =>
    intro i m m1 h
    simp only [walk, Outcome.ok.injEq] at h
    subst h
    refine ⟨rfl, rfl, fun k => ⟨fun j o hj => by omega, fun _ => rfl⟩⟩
  | succ n ih =>
    intro i m m1 h
    cases he : entry D store hb i with
    | none =>
      rw [walk_succ_of_not_entry D store hb n i m he] at h
      split at h <;> cases h
    | some ok =>
      obtain ⟨o0, k0⟩ := ok
      rw [walk_succ_of_entry D store hb n i m o0 k0 he] at h
      obtain ⟨f1, f2, f3⟩ := ih (i + 1) _ m1 h
      refine ⟨by rw [f1, setView_format], by rw [f2, setView_payload], fun k => ⟨?_, ?_⟩⟩
      · intro j o hj hent hlast
        cases j with
        | zero =>
          simp only [Nat.add_zero] at hent
          rw [he] at hent
          simp only [Option.some.injEq, Prod.mk.injEq] at hent
          obtain ⟨rfl, rfl⟩ := hent
          rw [(f3 k0).2, setView_view_same]
          intro j o hj hne
          refine hlast (j + 1) o (by omega) (by omega) ?_
          rw [show i + (j + 1) = i + 1 + j by omega]
          exact hne
        | succ j0 =>
          refine (f3 k).1 j0 o (by omega) ?_ ?_
          · rw [show i + 1 + j0 = i + (j0 + 1) by omega]
            exact hent
          · intro j1 o1 h1 h2
            have := hlast (j1 + 1) o1 (by omega) (by omega)
            rw [show i + (j1 + 1) = i + 1 + j1 by omega] at this
            exact this
      · intro hnone
        have hk : k ≠ k0 := by
          intro e
          subst e
          exact hnone 0 o0 (by omega) (by simpa using he)
        rw [(f3 k).2, setView_view_other _ _ _ _ hk]
        intro j o hj
        have := hnone (j + 1) o (by omega)
        rw [show i + (j + 1) = i + 1 + j by omega] at this
        exact this

/-- The outcome of `readMessage` on a stream that starts with the PD0 identifier, as a
function of the bytes `a` that follow the identifier. -/
theorem readMessage_pd0 (D : Decl) (E : Env) (d : Dev) (id0 id1 : Byte) (a : List Byte)
    (hD : D.WF) (ho : isOpen d = true) (hid : le16 [id0, id1] = D.kPD0HeaderID)
    (hrx : avail d.rx = id0 :: id1 :: a) :
    (readMessage D E d).1
      = (if a.length < D.sizeofPD0Header then .throws .unableHeader
        else if payloadBytes D (a.take D.sizeofPD0Header) < D.sizeofPD0Header then
          .throws .unablePayload
        else if a.length < payloadBytes D (a.take D.sizeofPD0Header) then .throws .unablePayload
        else if a.length < payloadBytes D (a.take D.sizeofPD0Header) + 2 then
          .throws .unableChecksum
        else if crc16 D.charSigned (crc16 D.charSigned 0 [id0, id1]) (pd0Block D E a)
            = le16 ((a.drop (payloadBytes D (a.take D.sizeofPD0Header))).take 2) then
          walk D (pd0Block D E a) D.sizeofPD0Header ((pd0Block D E a).getD D.offDataTypes 0).val 0
            { format := .PD0, payload := { size := 0, store := pd0Block D E a },
              pd0_header := some 0 }
        else .throws .checksumMismatch) := by
  obtain ⟨e1, e2, e3, -⟩ := readMessage_dispatch D E d ho (by rw [hrx]; simp)
  have ht : (avail d.rx).take 2 = [id0, id1] := by rw [hrx]; rfl
  have hd : (avail d.rx).drop 2 = a := by rw [hrx]; rfl
  rw [ht] at e1
  rw [hd] at e3
  rw [e1, hid, if_pos rfl, (readPD0_stream D E _ _ hD e2).1, e3]

theorem payloadBytes_wrap (D : Decl) (header : List Byte) (h : ensembleBytes D header < 4) :
    payloadBytes D header = ensembleBytes D header + 65532 := by
  unfold payloadBytes
  omega

theorem crc16_replicate_zero (s : Bool) (n : Nat) :
    ∀ c : Nat, c < 65536 → crc16 s c (List.replicate n 0) = c := by
  induction n with
  | zero => intro c _; rfl
  | succ n ih =>
    intro c hc
    rw [List.replicate_succ, crc16_cons]
    have h0 : charValue s (0 : Byte) = 0 := by cases s <;> decide
    rw [h0]
    have : (((c : Int) + 0) % 65536).toNat = c := by omega
    rw [this]
    exact ih c hc

theorem avail_ofStream (bytes : List Byte) : avail (Dev.ofStream bytes).rx = bytes := by
  unfold Dev.ofStream avail
  by_cases h : bytes = []
  · simp [h]
  · simp [h, avail]

theorem push_back_full (x : List Byte) (b : Byte) :
    Vec.push_back { size := x.length, store := x } b
      = { size := (x ++ [b]).length, store := x ++ [b] } := by
  simp [Vec.push_back]

theorem foldl_push_back (l : List Byte) :
    ∀ x : List Byte, l.foldl Vec.push_back { size := x.length, store := x }
      = { size := (x ++ l).length, store := x ++ l } := by
  induction l with
  | nil => intro x; simp
  | cons b l ih =>
    intro x
    rw [List.foldl_cons, push_back_full, ih]
    simp

theorem textLoop_stream :
    ∀ (fuel : Nat) (v : Vec) (d : Dev), isOpen d = true → pending d.rx < fuel →
      (textLoop fuel v d).1
          = (if (62 : Byte) ∈ avail d.rx then
              .ok (((avail d.rx).takeWhile (fun b => b != 62) ++ [62]).foldl Vec.push_back v)
            else .throws .unableText)
        ∧ ((62 : Byte) ∈ avail d.rx →
            isOpen (textLoop fuel v d).2 = true
            ∧ avail (textLoop fuel v d).2.rx
                = (avail d.rx).drop (((avail d.rx).takeWhile (fun b => b != 62)).length + 1)) := by
  intro fuel
  induction fuel with
  | zero => intro v d _ h; omega
  | succ f ih =>
    intro v d ho hp
    unfold textLoop
    cases ha : avail d.rx with
    | nil =>
      refine ⟨?_, fun h => by simp at h⟩
      rw [if_neg (by simp)]
      exact andThen_missing _ _ _ (readRaw_missing d 1 ho (by rw [ha]; simp))
    | cons b a1 =>
      obtain ⟨r1, r2, -, -, r5, r6⟩ := readRaw_avail d 1 ho (by rw [ha]; simp)
      simp only [Nat.cast_one] at r1 r2 r5 r6
      rw [ha] at r1 r5
      simp only [List.take_succ_cons, List.take_zero, List.drop_succ_cons, List.drop_zero] at r1 r5
      rw [andThen_ok _ _ _ r1]
      simp only [ne_eq, not_true_eq_false, if_false, List.headD_cons]
      by_cases hb : b = 62
      · subst hb
        simp [r2, r5]
      · obtain ⟨i1, i2⟩ := ih (v.push_back b) (readRaw d 1).2 r2 (by omega)
        rw [if_pos hb, i1, r5]
        have hne : (b != 62) = true := by simpa using hb
        have hmem : ((62 : Byte) ∈ b :: a1) ↔ (62 : Byte) ∈ a1 := by
          simp [Ne.symm hb]
        simp only [hmem, List.takeWhile_cons, hne, if_true, List.cons_append, List.foldl_cons,
          List.length_cons, List.drop_succ_cons]
        refine ⟨trivial, fun h => ?_⟩
        have := i2 (by rw [r5]; exact h)
        rw [r5] at this
        exact this

/-- The outcome of `readMessage` on a stream whose first two bytes are none of the three
binary identifiers, as a function of the bytes `a` that follow them. -/
theorem readMessage_text (D : Decl) (E : Env) (d : Dev) (b0 b1 : Byte) (a : List Byte)
    (ho : isOpen d = true)
    (h0 : le16 [b0, b1] ≠ D.kPD0HeaderID) (h4 : le16 [b0, b1] ≠ D.kPD4HeaderID)
    (h5 : le16 [b0, b1] ≠ D.kPD5HeaderID)
    (hrx : avail d.rx = b0 :: b1 :: a) :
    (readMessage D E d).1
      = (if (62 : Byte) ∈ a then
          .ok { format := .TEXT,
                payload := { size := (a.takeWhile (fun b => b != 62)).length + 2,
                             store := a.takeWhile (fun b => b != 62) ++ [62, 0] },
                text := some 0 }
        else .throws .unableText) := by
  obtain ⟨e1, e2, e3, -⟩ := readMessage_dispatch D E d ho (by rw [hrx]; simp)
  have ht : (avail d.rx).take 2 = [b0, b1] := by rw [hrx]; rfl
  have hd : (avail d.rx).drop 2 = a := by rw [hrx]; rfl
  rw [ht] at e1
  rw [hd] at e3
  rw [e1, if_neg h0, if_neg h4, if_neg h5]
  unfold readText
  obtain ⟨t1, -⟩ := textLoop_stream (pending (readRaw d 2).2.rx + 1) Vec.empty (readRaw d 2).2 e2
    (by omega)
  rw [e3] at t1
  by_cases hm : (62 : Byte) ∈ a
  · rw [if_pos hm] at t1
    rw [andThen_ok _ _ _ t1, if_pos hm]
    have := foldl_push_back (a.takeWhile (fun b => b != 62) ++ [62]) []
    simp only [List.length_nil, List.nil_append] at this
    rw [show Vec.empty = { size := 0, store := [] } from rfl, this, push_back_full]
    simp
  · rw [if_neg hm] at t1
    rw [if_neg hm]
    generalize textLoop (pending (readRaw d 2).2.rx + 1) Vec.empty (readRaw d 2).2 = r at t1
    obtain ⟨o, d1⟩ := r
    simp only at t1
    subst t1
    rfl

theorem readText_stream (d : Dev) (ho : isOpen d = true) :
    (readText d).1
        = (if (62 : Byte) ∈ avail d.rx then
            .ok { format := .TEXT,
                  payload := { size := ((avail d.rx).takeWhile (fun b => b != 62)).length + 2,
                               store := (avail d.rx).takeWhile (fun b => b != 62) ++ [62, 0] },
                  text := some 0 }
          else .throws .unableText)
      ∧ ((62 : Byte) ∈ avail d.rx →
          avail (readText d).2.rx
            = (avail d.rx).drop (((avail d.rx).takeWhile (fun b => b != 62)).length + 1)) := by
  obtain ⟨t1, t2⟩ := textLoop_stream (pending d.rx + 1) Vec.empty d ho (by omega)
  unfold readText
  by_cases hm : (62 : Byte) ∈ avail d.rx
  · rw [if_pos hm] at t1
    refine ⟨?_, fun _ => ?_⟩
    · rw [andThen_ok _ _ _ t1, if_pos hm]
      have := foldl_push_back ((avail d.rx).takeWhile (fun b => b != 62) ++ [62]) []
      simp only [List.length_nil, List.nil_append] at this
      rw [show Vec.empty = { size := 0, store := [] } from rfl, this, push_back_full]
      simp
    · rw [andThen_ok _ _ _ t1]
      exact (t2 hm).2
  · rw [if_neg hm] at t1
    refine ⟨?_, fun h => absurd h hm⟩
    rw [if_neg hm]
    generalize textLoop (pending d.rx + 1) Vec.empty d = r at t1
    obtain ⟨o, d1⟩ := r
    simp only at t1
    subst t1
    rfl

theorem trunc_pd4 (D : Decl) (E : Env) (ck : Nat) (d d1 : Dev) (m : Message) (n : Nat)
    (ho : isOpen d = true) (ho1 : isOpen d1 = true)
    (hok : (readPD4 D E ck d).1 = .ok m)
    (hn : n + (avail (readPD4 D E ck d).2.rx).length < (avail d.rx).length)
    (h1 : avail d1.rx = (avail d.rx).take n) :
    ∃ e, (readPD4 D E ck d1).1 = .throws e := by
  obtain ⟨f1, f2⟩ := readPD4_stream D E ck d ho
  rw [f1] at hok
  have hlen : D.sizeofPD4Data + 2 ≤ (avail d.rx).length := by
    by_contra hc
    by_cases h : (avail d.rx).length < D.sizeofPD4Data
    · rw [if_pos h] at hok; cases hok
    · rw [if_neg h, if_pos (by omega)] at hok; cases hok
  have hfin := (f2 hlen).2
  rw [hfin] at hn
  simp only [List.length_drop] at hn
  obtain ⟨g1, -⟩ := readPD4_stream D E ck d1 ho1
  rw [g1, h1]
  simp only [List.length_take]
  by_cases h : min n (avail d.rx).length < D.sizeofPD4Data
  · exact ⟨_, if_pos h⟩
  · rw [if_neg h, if_pos (by omega)]
    exact ⟨_, rfl⟩

theorem trunc_pd5 (D : Decl) (E : Env) (ck : Nat) (d d1 : Dev) (m : Message) (n : Nat)
    (ho : isOpen d = true) (ho1 : isOpen d1 = true)
    (hok : (readPD5 D E ck d).1 = .ok m)
    (hn : n + (avail (readPD5 D E ck d).2.rx).length < (avail d.rx).length)
    (h1 : avail d1.rx = (avail d.rx).take n) :
    ∃ e, (readPD5 D E ck d1).1 = .throws e := by
  obtain ⟨f1, f2⟩ := readPD5_stream D E ck d ho
  rw [f1] at hok
  have hsz : ¬ (avail d.rx).length < D.sizeofPD5Data := by
    intro h
    rw [if_pos h] at hok; cases hok
  rw [if_neg hsz] at hok
  have h45 : ¬ D.sizeofPD5Data < D.sizeofPD4Data := by
    intro h
    rw [if_pos h] at hok; cases hok
  rw [if_neg h45] at hok
  have hlen : ¬ (avail d.rx).length < D.sizeofPD5Data + 2 := by
    intro h
    rw [if_pos h] at hok; cases hok
  have hfin := (f2 (by omega) (by omega)).2
  rw [hfin] at hn
  simp only [List.length_drop] at hn
  obtain ⟨g1, -⟩ := readPD5_stream D E ck d1 ho1
  rw [g1, h1]
  simp only [List.length_take]
  by_cases h : min n (avail d.rx).length < D.sizeofPD5Data
  · exact ⟨_, if_pos h⟩
  · rw [if_neg h, if_neg h45, if_pos (by omega)]
    exact ⟨_, rfl⟩

theorem trunc_pd0 (D : Decl) (E : Env) (ck : Nat) (d d1 : Dev) (m : Message) (n : Nat)
    (hD : D.WF) (ho : isOpen d = true) (ho1 : isOpen d1 = true)
    (hok : (readPD0 D E ck d).1 = .ok m)
    (hn : n + (avail (readPD0 D E ck d).2.rx).length < (avail d.rx).length)
    (h1 : avail d1.rx = (avail d.rx).take n) :
    ∃ e, (readPD0 D E ck d1).1 = .throws e := by
  obtain ⟨f1, f2⟩ := readPD0_stream D E ck d hD ho
  rw [f1] at hok
  have c1 : ¬ (avail d.rx).length < D.sizeofPD0Header := by
    intro h
    rw [if_pos h] at hok; cases hok
  rw [if_neg c1] at hok
  have c2 : ¬ payloadBytes D ((avail d.rx).take D.sizeofPD0Header) < D.sizeofPD0Header := by
    intro h
    rw [if_pos h] at hok; cases hok
  rw [if_neg c2] at hok
  have c3 : ¬ (avail d.rx).length < payloadBytes D ((avail d.rx).take D.sizeofPD0Header) := by
    intro h
    rw [if_pos h] at hok; cases hok
  rw [if_neg c3] at hok
  have c4 : ¬ (avail d.rx).length < payloadBytes D ((avail d.rx).take D.sizeofPD0Header) + 2 := by
    intro h
    rw [if_pos h] at hok; cases hok
  have hfin := (f2 (by omega) (by omega)).2
  rw [hfin] at hn
  simp only [List.length_drop] at hn
  obtain ⟨g1, -⟩ := readPD0_stream D E ck d1 hD ho1
  rw [g1, h1]
  simp only [List.length_take]
  by_cases h : min n (avail d.rx).length < D.sizeofPD0Header
  · exact ⟨_, if_pos h⟩
  · rw [if_neg h]
    have htt : List.take D.sizeofPD0Header (List.take n (avail d.rx))
        = List.take D.sizeofPD0Header (avail d.rx) := by
      rw [List.take_take, Nat.min_eq_left (by omega)]
    rw [htt, if_neg c2]
    by_cases h3 : min n (avail d.rx).length
        < payloadBytes D ((avail d.rx).take D.sizeofPD0Header)
    · exact ⟨_, if_pos h3⟩
    · rw [if_neg h3, if_pos (by omega)]
      exact ⟨_, rfl⟩

theorem not_mem_take_takeWhile (a : List Byte) (n : Nat)
    (h : n ≤ (a.takeWhile (fun b => b != 62)).length) : (62 : Byte) ∉ a.take n := by
  intro hm
  have e : a.take n = (a.takeWhile (fun b => b != 62)).take n := by
    conv_lhs => rw [← List.takeWhile_append_dropWhile (fun b => b != 62) a]
    rw [List.take_append_of_le_length h]
  rw [e] at hm
  have := List.mem_takeWhile_imp (List.mem_of_mem_take hm)
  simp at this

theorem trunc_text (d d1 : Dev) (m : Message) (n : Nat)
    (ho : isOpen d = true) (ho1 : isOpen d1 = true)
    (hok : (readText d).1 = .ok m)
    (hn : n + (avail (readText d).2.rx).length < (avail d.rx).length)
    (h1 : avail d1.rx = (avail d.rx).take n) :
    ∃ e, (readText d1).1 = .throws e := by
  obtain ⟨f1, f2⟩ := readText_stream d ho
  rw [f1] at hok
  have hm : (62 : Byte) ∈ avail d.rx := by
    by_contra h
    rw [if_neg h] at hok; cases hok
  rw [f2 hm] at hn
  simp only [List.length_drop] at hn
  obtain ⟨g1, -⟩ := readText_stream d1 ho1
  rw [g1, h1, if_neg (not_mem_take_takeWhile _ _ (by omega))]
  exact ⟨_, rfl⟩

/-- The outcome of `readMessage` on a stream that holds a whole PD5 frame, when
`sizeof(PD4_Data)` does not exceed `sizeof(PD5_Data)`: the frame is accepted exactly when
the trailing checksum is `crc16` of the identifier and the first `sizeof(PD4_Data)`
payload bytes. -/
theorem readMessage_pd5 (D : Decl) (E : Env) (d : Dev) (id0 id1 c0 c1 : Byte)
    (payload tail : List Byte) (hD : D.WF) (ho : isOpen d = true)
    (hid : le16 [id0, id1] = D.kPD5HeaderID) (hlen : payload.length = D.sizeofPD5Data)
    (h45 : D.sizeofPD4Data ≤ D.sizeofPD5Data)
    (hrx : avail d.rx = id0 :: id1 :: (payload ++ c0 :: c1 :: tail)) :
    (readMessage D E d).1
      = (if crc16 D.charSigned (crc16 D.charSigned 0 [id0, id1]) (payload.take D.sizeofPD4Data)
            = le16 [c0, c1] then
          .ok { format := .PD5, payload := { size := 0, store := payload }, pd5_data := some 0 }
        else .throws .checksumMismatch) := by
  obtain ⟨e1, e2, e3, -⟩ := readMessage_dispatch D E d ho (by rw [hrx]; simp)
  have ht : (avail d.rx).take 2 = [id0, id1] := by rw [hrx]; rfl
  have hd : (avail d.rx).drop 2 = payload ++ c0 :: c1 :: tail := by rw [hrx]; rfl
  rw [ht] at e1
  rw [hd] at e3
  rw [e1, hid, if_neg hD.pd5_ne_pd0, if_neg hD.pd5_ne_pd4, if_pos rfl]
  rw [(readPD5_stream D E _ _ e2).1, e3]
  have l1 : ¬ (payload ++ c0 :: c1 :: tail).length < D.sizeofPD5Data := by simp; omega
  have l2 : ¬ (payload ++ c0 :: c1 :: tail).length < D.sizeofPD5Data + 2 := by simp; omega
  have t0 : (payload ++ c0 :: c1 :: tail).take D.sizeofPD4Data = payload.take D.sizeofPD4Data :=
    List.take_append_of_le_length (by omega)
  have t1 : (payload ++ c0 :: c1 :: tail).take D.sizeofPD5Data = payload := by
    rw [← hlen]; simp
  have t2 : ((payload ++ c0 :: c1 :: tail).drop D.sizeofPD5Data).take 2 = [c0, c1] := by
    rw [← hlen]; simp
  rw [if_neg l1, if_neg (by omega), if_neg l2, t0, t1, t2]

theorem readLoop_trace (rx : List Event) :
    ∀ (d : Dev) (N B fuel : Nat) (blob : List Byte), d.rx = rx → B < N → N - B ≤ fuel →
      (∃ new, (readLoop (N : Int) fuel (B : Int) blob d).2.2.calls = d.calls ++ new
          ∧ loopTrace ((N : Int) - (B : Int)) new ∧ waits new ≤ N - B)
        ∧ readLoop (N : Int) fuel (B : Int) blob d
            = readLoop (N : Int) (N - B) (B : Int) blob d := by
  induction rx with
  | nil =>
    intro d N B fuel blob hrx hB hf
    obtain ⟨f, rfl⟩ : ∃ f, fuel = f + 1 := ⟨fuel - 1, by omega⟩
    obtain ⟨g, hg⟩ : ∃ g, N - B = g + 1 := ⟨N - B - 1, by omega⟩
    rw [hg]
    refine ⟨⟨[.selectRead 0], ?_, ?_, ?_⟩, ?_⟩
    · simp [readLoop, selectRead, hrx]
    · simp [loopTrace, Call.waitResult]
    · simp [waits]
    · simp [readLoop, selectRead, hrx]
  | cons e es ih =>
    intro d N B fuel blob hrx hB hf
    obtain ⟨f, rfl⟩ : ∃ f, fuel = f + 1 := ⟨fuel - 1, by omega⟩
    obtain ⟨g, hg⟩ : ∃ g, N - B = g + 1 := ⟨N - B - 1, by omega⟩
    cases e with
    | timeout =>
      rw [hg]
      refine ⟨⟨[.selectRead 0], ?_, ?_, ?_⟩, ?_⟩
      · simp [readLoop, selectRead, hrx]
      · simp [loopTrace, Call.waitResult]
      · simp [waits]
      · simp [readLoop, selectRead, hrx]
    | waitError =>
      rw [hg]
      refine ⟨⟨[.selectRead (-1)], ?_, ?_, ?_⟩, ?_⟩
      · simp [readLoop, selectRead, hrx]
      · simp [loopTrace, Call.waitResult]
      · simp [waits]
      · simp [readLoop, selectRead, hrx]
    | readError =>
      rw [hg]
      refine ⟨⟨[.selectRead 1, .read ((N : Int) - (B : Int)) (-1)], ?_, ?_, ?_⟩, ?_⟩
      · simp [readLoop, selectRead, sysRead, hrx]
      · simp [loopTrace, Call.waitResult, Call.transfer]
        omega
      · simp [waits]
      · simp [readLoop, selectRead, sysRead, hrx]
    | data c =>
      by_cases hc : c = []
      · subst hc
        rw [hg]
        refine ⟨⟨[.selectRead 1, .read ((N : Int) - (B : Int)) 0], ?_, ?_, ?_⟩, ?_⟩
        · simp [readLoop, selectRead, sysRead, hrx]
        · simp [loopTrace, Call.waitResult, Call.transfer]
          omega
        · simp [waits]
        · simp [readLoop, selectRead, sysRead, hrx]
      · have hlen : 0 < c.length := List.length_pos.mpr hc
        by_cases hfull : N - B ≤ c.length
        · rw [hg, readLoop_data_full d N B f blob c es hrx hB hfull,
            readLoop_data_full d N B g blob c es hrx hB hfull]
          refine ⟨⟨[.selectRead 1, .read ((N : Int) - (B : Int)) ((N - B : Nat) : Int)], rfl, ?_, ?_⟩,
            rfl⟩
          · simp [loopTrace, Call.waitResult, Call.transfer]
            omega
          · simp [waits]
        · have hs : c.length < N - B := by omega
          rw [hg, readLoop_data_short d N B f blob c es hrx hc hs,
            readLoop_data_short d N B g blob c es hrx hc hs]
          obtain ⟨⟨new, n1, n2, n3⟩, n4⟩ := ih
            { d with rx := es,
                     calls := d.calls ++ [.selectRead 1, .read ((N : Int) - (B : Int)) c.length] }
            N (B + c.length) f (blob ++ c) rfl (by omega) (by omega)
          obtain ⟨-, m4⟩ := ih
            { d with rx := es,
                     calls := d.calls ++ [.selectRead 1, .read ((N : Int) - (B : Int)) c.length] }
            N (B + c.length) g (blob ++ c) rfl (by omega) (by omega)
          refine ⟨⟨[.selectRead 1, .read ((N : Int) - (B : Int)) c.length] ++ new, ?_, ?_, ?_⟩, ?_⟩
          · rw [n1]
            simp
          · simp only [List.cons_append, List.nil_append, loopTrace, Call.waitResult, Call.transfer,
              true_and]
            refine ⟨(c.length : Int), rfl, by omega, Or.inr ⟨by omega, by omega, ?_⟩⟩
            have e : (N : Int) - (B : Int) - (c.length : Int) = (N : Int) - ((B + c.length : Nat) : Int) := by
              omega
            rw [e]
            exact n2
          · show waits new + 1 ≤ g + 1
            omega
          · rw [n4, m4]

theorem peek_inside (blob : List Byte) (pos n : Nat) (h : pos + n ≤ blob.length) :
    peek blob pos n = some ((blob.drop pos).take n) := by
  simp [peek, h]

theorem writeLoop_accept_short (blob : List Byte) (d : Dev) (N B f r : Nat) (es : List WEvent)
    (htx : d.tx = .accept r :: es) (hr : 0 < r) (hs : r < N - B) (hb : N ≤ blob.length) :
    writeLoop blob (N : Int) (f + 1) (B : Int) d
      = writeLoop blob (N : Int) f ((B + r : Nat) : Int)
          { d with tx := es, wire := d.wire ++ (blob.drop B).take r,
                   calls := d.calls ++ [.selectWrite 1, .write ((N : Int) - (B : Int)) r] } := by
  have h1 : min r (N - B) = r := by omega
  have hp := peek_inside blob B r (by omega)
  simp only [writeLoop, selectWrite, sysWrite, htx]
  have e1 : ((N : Int) - (B : Int)).toNat = N - B := by omega
  simp only [Int.toNat_ofNat, e1, h1, hp]
  simp [hr]
  intro h
  omega

theorem writeLoop_accept_full (blob : List Byte) (d : Dev) (N B f r : Nat) (es : List WEvent)
    (htx : d.tx = .accept r :: es) (hB : B < N) (hs : N - B ≤ r) (hb : N ≤ blob.length) :
    writeLoop blob (N : Int) (f + 1) (B : Int) d
      = (.ok (N : Int),
          { d with tx := if r - (N - B) = 0 then es else .accept (r - (N - B)) :: es,
                   wire := d.wire ++ (blob.drop B).take (N - B),
                   calls := d.calls ++
                     [.selectWrite 1, .write ((N : Int) - (B : Int)) ((N - B : Nat) : Int)] }) := by
  have h1 : min r (N - B) = N - B := by omega
  have hp := peek_inside blob B (N - B) (by omega)
  have h2 : (B : Int) + ((N - B : Nat) : Int) = N := by omega
  simp only [writeLoop, selectWrite, sysWrite, htx]
  have e1 : ((N : Int) - (B : Int)).toNat = N - B := by omega
  simp only [Int.toNat_ofNat, e1, h1, hp]
  simp [hB, h2]


theorem writeLoop_spec (blob : List Byte) (tx : List WEvent) :
    ∀ (d : Dev) (N B fuel : Nat), d.tx = tx → B < N → N ≤ blob.length → N - B ≤ fuel →
      (writeLoop blob (N : Int) fuel (B : Int) d).1
          = .ok (((B + min (N - B) (roomOf tx) : Nat) : Int))
        ∧ (writeLoop blob (N : Int) fuel (B : Int) d).2.wire
            = d.wire ++ (blob.drop B).take (min (N - B) (roomOf tx))
        ∧ (writeLoop blob (N : Int) fuel (B : Int) d).2.deviceFD = d.deviceFD
        ∧ (writeLoop blob (N : Int) fuel (B : Int) d).2.rx = d.rx
        ∧ (N - B ≤ roomOf tx →
            roomOf (writeLoop blob (N : Int) fuel (B : Int) d).2.tx = roomOf tx - (N - B))
        ∧ (∃ new, (writeLoop blob (N : Int) fuel (B : Int) d).2.calls = d.calls ++ new
            ∧ loopTrace ((N : Int) - (B : Int)) new ∧ waits new ≤ N - B)
        ∧ writeLoop blob (N : Int) fuel (B : Int) d
            = writeLoop blob (N : Int) (N - B) (B : Int) d := by
  induction tx with
  | nil =>
    intro d N B fuel htx hB hb hf
    obtain ⟨f, rfl⟩ : ∃ f, fuel = f + 1 := ⟨fuel - 1, by omega⟩
    obtain ⟨g, hg⟩ : ∃ g, N - B = g + 1 := ⟨N - B - 1, by omega⟩
    rw [hg]
    refine ⟨?_, ?_, ?_, ?_, ?_, ⟨[.selectWrite 0], ?_, ?_, ?_⟩, ?_⟩
    all_goals simp [writeLoop, selectWrite, htx, roomOf, loopTrace, Call.waitResult, waits]
  | cons e es ih =>
    intro d N B fuel htx hB hb hf
    obtain ⟨f, rfl⟩ : ∃ f, fuel = f + 1 := ⟨fuel - 1, by omega⟩
    obtain ⟨g, hg⟩ : ∃ g, N - B = g + 1 := ⟨N - B - 1, by omega⟩
    cases e with
    | timeout =>
      rw [hg]
      refine ⟨?_, ?_, ?_, ?_, ?_, ⟨[.selectWrite 0], ?_, ?_, ?_⟩, ?_⟩
      all_goals simp [writeLoop, selectWrite, htx, roomOf, loopTrace, Call.waitResult, waits]
    | waitError =>
      rw [hg]
      refine ⟨?_, ?_, ?_, ?_, ?_, ⟨[.selectWrite (-1)], ?_, ?_, ?_⟩, ?_⟩
      all_goals simp [writeLoop, selectWrite, htx, roomOf, loopTrace, Call.waitResult, waits]
    | writeError =>
      rw [hg]
      refine ⟨?_, ?_, ?_, ?_, ?_,
        ⟨[.selectWrite 1, .write ((N : Int) - (B : Int)) (-1)], ?_, ?_, ?_⟩, ?_⟩
      all_goals simp [writeLoop, selectWrite, sysWrite, htx, roomOf, loopTrace, Call.waitResult,
        Call.transfer, waits]
      omega
    | accept r =>
      by_cases hr0 : r = 0
      · subst hr0
        rw [hg]
        have e1 : ((N : Int) - (B : Int)).toNat = N - B := by omega
        have hp : peek blob B 0 = some [] := by
          rw [peek_inside blob B 0 (by omega)]; simp
        refine ⟨?_, ?_, ?_, ?_, ?_,
          ⟨[.selectWrite 1, .write ((N : Int) - (B : Int)) 0], ?_, ?_, ?_⟩, ?_⟩
        all_goals simp [writeLoop, selectWrite, sysWrite, htx, roomOf, loopTrace,
          Call.waitResult, Call.transfer, waits, hp]
        omega
      · by_cases hs : r < N - B
        · have hstep := writeLoop_accept_short blob d N B f r es htx (by omega) hs hb
          have hstep2 := writeLoop_accept_short blob d N B g r es htx (by omega) hs hb
          obtain ⟨h1, h2, h3, h4, h5, ⟨new, h6, h7, h8⟩, h9⟩ :=
            ih { d with tx := es, wire := d.wire ++ (blob.drop B).take r,
                        calls := d.calls ++ [.selectWrite 1, .write ((N : Int) - (B : Int)) r] }
              N (B + r) f rfl (by omega) hb (by omega)
          have hg9 :=
            ih { d with tx := es, wire := d.wire ++ (blob.drop B).take r,
                        calls := d.calls ++ [.selectWrite 1, .write ((N : Int) - (B : Int)) r] }
              N (B + r) g rfl (by omega) hb (by omega)
          have h9g := hg9.2.2.2.2.2.2
          have hroom : roomOf (WEvent.accept r :: es) = r + roomOf es := by
            simp [roomOf, hr0]
          have hmin : min (N - B) (r + roomOf es) = r + min (N - (B + r)) (roomOf es) := by
            omega
          rw [hstep, hroom, hmin]
          refine ⟨?_, ?_, ?_, ?_, ?_, ?_, ?_⟩
          · rw [h1]; congr 2; omega
          · rw [h2]
            simp only [List.append_assoc]
            congr 1
            rw [List.take_add, List.drop_drop]
          · rw [h3]
          · rw [h4]
          · intro hle
            rw [h5 (by omega)]; omega
          · refine ⟨[.selectWrite 1, .write ((N : Int) - (B : Int)) r] ++ new, ?_, ?_, ?_⟩
            · rw [h6]; simp
            · simp only [List.cons_append, List.nil_append, loopTrace, Call.waitResult,
                Call.transfer]
              refine ⟨trivial, (r : Int), rfl, by omega, Or.inr ⟨by omega, by omega, ?_⟩⟩
              have e : (N : Int) - (B : Int) - (r : Int) = (N : Int) - ((B + r : Nat) : Int) := by
                push_cast; omega
              rw [e]; exact h7
            · show waits new + 1 ≤ N - B
              omega
          · rw [hg, hstep2, h9, h9g]
        · have hstep := writeLoop_accept_full blob d N B f r es htx hB (by omega) hb
          have hstep2 := writeLoop_accept_full blob d N B g r es htx hB (by omega) hb
          have hroom : roomOf (WEvent.accept r :: es) = r + roomOf es := by
            simp [roomOf, hr0]
          have hmin : min (N - B) (r + roomOf es) = N - B := by omega
          rw [hstep, hroom, hmin]
          refine ⟨?_, ?_, ?_, ?_, ?_, ?_, ?_⟩
          · simp only []; congr 2; omega
          · rfl
          · rfl
          · rfl
          · intro _
            simp only []
            split
            · omega
            · simp only [roomOf]; split <;> omega
          · refine ⟨[.selectWrite 1, .write ((N : Int) - (B : Int)) ((N - B : Nat) : Int)],
              rfl, ?_, ?_⟩
            · simp only [loopTrace, Call.waitResult, Call.transfer]
              refine ⟨trivial, ((N - B : Nat) : Int), rfl, by omega, Or.inl ⟨trivial, Or.inr ?_⟩⟩
              omega
            · simp only [waits]; omega
          · conv_rhs => rw [hg, hstep2]

theorem writeRaw_closed (d : Dev) (blob : List Byte) (n : Int) (h : isOpen d = false) :
    writeRaw d blob n = (.throws .needsOpen, d) := by
  simp [writeRaw, h]

theorem writeRaw_nonpos (d : Dev) (blob : List Byte) (n : Int) (ho : isOpen d = true)
    (hn : n ≤ 0) : writeRaw d blob n = (.ok n, d) := by
  have : ¬ n > 0 := by omega
  simp [writeRaw, ho, this]

theorem readRaw_nonpos (d : Dev) (n : Int) (ho : isOpen d = true) (hn : n ≤ 0) :
    readRaw d n = (.ok (n, []), d) := by
  have : ¬ n > 0 := by omega
  simp [readRaw, ho, this]

theorem writeRaw_spec (d : Dev) (blob : List Byte) (N : Nat) (ho : isOpen d = true)
    (hN : 0 < N) (hb : N ≤ blob.length) :
    (writeRaw d blob (N : Int)).1 = .ok ((N : Int) - ((min N (roomOf d.tx) : Nat) : Int))
      ∧ (writeRaw d blob (N : Int)).2.wire = d.wire ++ blob.take (min N (roomOf d.tx))
      ∧ isOpen (writeRaw d blob (N : Int)).2 = true
      ∧ (writeRaw d blob (N : Int)).2.rx = d.rx
      ∧ (N ≤ roomOf d.tx → roomOf (writeRaw d blob (N : Int)).2.tx = roomOf d.tx - N)
      ∧ ∃ new, (writeRaw d blob (N : Int)).2.calls = d.calls ++ new
          ∧ loopTrace (N : Int) new ∧ waits new ≤ N := by
  have hs := writeLoop_spec blob d.tx d N 0 N rfl hN hb (by omega)
  simp only [Nat.sub_zero, Nat.zero_add, Nat.cast_zero, List.drop_zero, Int.sub_zero] at hs
  obtain ⟨a1, a2, a3, a4, a5, a6, -⟩ := hs
  have hp : (N : Int) > 0 := by omega
  have hw : writeRaw d blob (N : Int)
      = (.ok ((N : Int) - ((min N (roomOf d.tx) : Nat) : Int)),
          (writeLoop blob (N : Int) N 0 d).2) := by
    simp only [writeRaw, ho, hp, if_true, Int.toNat_ofNat]
    simp only [Bool.true_eq_false, if_false]
    rw [andThen_ok _ _ _ a1]
  rw [hw]
  refine ⟨rfl, a2, ?_, a4, a5, a6⟩
  simp only [isOpen] at ho ⊢
  rw [a3]
  exact ho

theorem readRaw_trace (d : Dev) (N : Nat) (ho : isOpen d = true) (hN : 0 < N) :
    ∃ new, (readRaw d (N : Int)).2.calls = d.calls ++ new
      ∧ loopTrace (N : Int) new ∧ waits new ≤ N := by
  have hs := (readLoop_trace d.rx d N 0 N [] rfl hN (by omega)).1
  simp only [Nat.sub_zero, Nat.cast_zero, Int.sub_zero] at hs
  have hp : (N : Int) > 0 := by omega
  simp only [readRaw, ho, hp, if_true, Int.toNat_ofNat]
  simp only [Bool.true_eq_false, if_false]
  exact hs

theorem sendText_overflow (text : List Byte) (d : Dev) (h : text.length = 1023) :
    sendText text d = (.throws .writeOverflow, d) := by
  simp [sendText, h, BUF_SIZE]

theorem sendText_closed (text : List Byte) (d : Dev) (h : text.length ≠ 1023)
    (hc : isOpen d = false) : sendText text d = (.throws .needsOpen, d) := by
  have h1 : ¬ ((text.length : Int) = (BUF_SIZE : Int) - 1) := by
    simp only [BUF_SIZE]; omega
  simp only [sendText, h1, if_false]
  rw [writeRaw_closed _ _ _ hc]
  rfl

theorem writeRaw_text (d : Dev) (blob : List Byte) (N : Nat) (ho : isOpen d = true)
    (hb : N ≤ blob.length) :
    (writeRaw d blob (N : Int)).1 = .ok ((N : Int) - ((min N (roomOf d.tx) : Nat) : Int))
      ∧ (writeRaw d blob (N : Int)).2.wire = d.wire ++ blob.take (min N (roomOf d.tx))
      ∧ isOpen (writeRaw d blob (N : Int)).2 = true
      ∧ (N ≤ roomOf d.tx → roomOf (writeRaw d blob (N : Int)).2.tx = roomOf d.tx - N) := by
  rcases Nat.eq_zero_or_pos N with h0 | hpos
  · subst h0
    rw [Nat.cast_zero, writeRaw_nonpos d blob 0 ho (by omega)]
    simp [ho]
  · obtain ⟨a1, a2, a3, -, a5, -⟩ := writeRaw_spec d blob N ho hpos hb
    exact ⟨a1, a2, a3, a5⟩

theorem sendText_spec (text : List Byte) (d : Dev) (ho : isOpen d = true)
    (h : text.length ≠ 1023) (h2 : text.length ≤ 1024) :
    (sendText text d).1
        = (if roomOf d.tx < text.length then .throws .unableSend
           else if roomOf d.tx = text.length then .throws .unableCR else .ok ())
      ∧ (sendText text d).2.wire
        = d.wire ++ (text.take 1023 ++ [0]).take (min text.length (roomOf d.tx))
            ++ (if text.length < roomOf d.tx then [13] else []) := by
  have h1 : ¬ ((text.length : Int) = (BUF_SIZE : Int) - 1) := by
    simp only [BUF_SIZE]; omega
  have hb : text.length ≤ (text.take 1023 ++ [0]).length := by
    simp only [List.length_append, List.length_take, List.length_cons, List.length_nil]
    omega
  obtain ⟨a1, a2, a3, a4⟩ := writeRaw_text d (text.take 1023 ++ [0]) text.length ho hb
  have hst : sendText text d
      = Outcome.andThen (writeRaw d (text.take 1023 ++ [0]) (text.length : Int)) fun r1 d1 =>
          if r1 ≠ 0 then (.throws .unableSend, d1) else
          Outcome.andThen (writeRaw d1 [13] 1) fun r2 d2 =>
            if r2 ≠ 0 then (.throws .unableCR, d2) else (.ok (), d2) := by
    unfold sendText
    simp only []
    rw [if_neg h1]
    rfl
  rw [hst, andThen_ok _ _ _ a1]
  by_cases hr : roomOf d.tx < text.length
  · have e : (text.length : Int) - ((min text.length (roomOf d.tx) : Nat) : Int) ≠ 0 := by
      omega
    have e2 : ¬ text.length < roomOf d.tx := by omega
    rw [if_pos e, if_pos hr, if_neg e2, List.append_nil]
    exact ⟨rfl, a2⟩
  · have e : ¬ ((text.length : Int) - ((min text.length (roomOf d.tx) : Nat) : Int) ≠ 0) := by
      omega
    rw [if_neg e, if_neg hr]
    have hle : text.length ≤ roomOf d.tx := by omega
    have hroom := a4 hle
    obtain ⟨b1, b2, -, -⟩ :=
      writeRaw_text (writeRaw d (text.take 1023 ++ [0]) (text.length : Int)).2 [13] 1 a3
        (by simp)
    simp only [Nat.cast_one] at b1 b2
    rw [andThen_ok _ _ _ b1, hroom]
    rw [hroom, a2] at b2
    by_cases hq : roomOf d.tx = text.length
    · have e3 : (1 : Int) - ((min 1 (roomOf d.tx - text.length) : Nat) : Int) ≠ 0 := by
        omega
      have e4 : ¬ text.length < roomOf d.tx := by omega
      have e5 : min 1 (roomOf d.tx - text.length) = 0 := by omega
      rw [if_pos e3, if_pos hq, if_neg e4]
      refine ⟨rfl, ?_⟩
      rw [b2, e5]
      rfl
    · have e3 : ¬ ((1 : Int) - ((min 1 (roomOf d.tx - text.length) : Nat) : Int) ≠ 0) := by
        omega
      have e4 : text.length < roomOf d.tx := by omega
      have e5 : min 1 (roomOf d.tx - text.length) = 1 := by omega
      rw [if_neg e3, if_neg hq, if_pos e4]
      refine ⟨rfl, ?_⟩
      rw [b2, e5]
      rfl

theorem take_buffer (text : List Byte) (k : Nat) (hk : k ≤ text.length)
    (h : text.length ≤ 1023) : (text.take 1023 ++ [0]).take k = text.take k := by
  rw [List.take_of_length_le h, List.take_append_of_le_length hk]

theorem sendText_ok (text : List Byte) (d : Dev) (ho : isOpen d = true)
    (h : text.length < 1023) (hroom : text.length < roomOf d.tx) :
    (sendText text d).1 = .ok () ∧ (sendText text d).2.wire = d.wire ++ text ++ [13] := by
  obtain ⟨a1, a2⟩ := sendText_spec text d ho (by omega) (by omega)
  have e1 : ¬ roomOf d.tx < text.length := by omega
  have e2 : ¬ roomOf d.tx = text.length := by omega
  have e3 : min text.length (roomOf d.tx) = text.length := by omega
  rw [if_neg e1, if_neg e2] at a1
  rw [if_pos hroom, e3, take_buffer text _ (le_refl _) (by omega), List.take_length] at a2
  exact ⟨a1, a2⟩

theorem sendText_fail (text : List Byte) (d : Dev) (ho : isOpen d = true)
    (h : text.length < 1023) (hroom : roomOf d.tx ≤ text.length) :
    (sendText text d).1
        = .throws (if roomOf d.tx < text.length then .unableSend else .unableCR)
      ∧ (sendText text d).2.wire = d.wire ++ text.take (roomOf d.tx) := by
  obtain ⟨a1, a2⟩ := sendText_spec text d ho (by omega) (by omega)
  have e1 : ¬ text.length < roomOf d.tx := by omega
  have e3 : min text.length (roomOf d.tx) = roomOf d.tx := by omega
  rw [if_neg e1, e3, take_buffer text _ hroom (by omega), List.append_nil] at a2
  refine ⟨?_, a2⟩
  rw [a1]
  by_cases hq : roomOf d.tx < text.length
  · rw [if_pos hq, if_pos hq]
  · rw [if_neg hq, if_neg hq, if_pos (by omega)]

theorem sendText_1024 (text : List Byte) (d : Dev) (ho : isOpen d = true)
    (h : text.length = 1024) (hroom : 1024 < roomOf d.tx) :
    (sendText text d).1 = .ok ()
      ∧ (sendText text d).2.wire = d.wire ++ text.take 1023 ++ [0, 13] := by
  obtain ⟨a1, a2⟩ := sendText_spec text d ho (by omega) (by omega)
  have e1 : ¬ roomOf d.tx < text.length := by omega
  have e2 : ¬ roomOf d.tx = text.length := by omega
  have e3 : min text.length (roomOf d.tx) = (text.take 1023 ++ [0]).length := by
    simp only [List.length_append, List.length_take, List.length_cons, List.length_nil]
    omega
  rw [if_neg e1, if_neg e2] at a1
  rw [if_pos (by omega), e3, List.take_length] at a2
  refine ⟨a1, ?_⟩
  rw [a2]
  simp

theorem formatText_plain (text : List Char) (h : ∀ c ∈ text, c ≠ '%') (args : List Arg) :
    formatText text args = some text := by
  induction text with
  | nil => simp [formatText]
  | cons c cs ih =>
    have hc : c ≠ '%' := h c (List.mem_cons_self _ _)
    have ih1 := ih (fun x hx => h x (List.mem_cons_of_mem _ hx))
    rw [formatText]
    · rw [ih1]; rfl
    all_goals
      intros
      simp_all

theorem readText_open (d : Dev) (ho : isOpen d = true) (hm : (62 : Byte) ∈ avail d.rx) :
    isOpen (readText d).2 = true := by
  obtain ⟨t1, t2⟩ := textLoop_stream (pending d.rx + 1) Vec.empty d ho (by omega)
  rw [if_pos hm] at t1
  unfold readText
  rw [andThen_ok _ _ _ t1]
  exact (t2 hm).1

theorem readMessage_avail (D : Decl) (E : Env) (d d1 : Dev) (hD : D.WF)
    (ho : isOpen d = true) (ho1 : isOpen d1 = true) (h : avail d1.rx = avail d.rx) :
    (readMessage D E d1).1 = (readMessage D E d).1 := by
  by_cases h2 : (avail d.rx).length < 2
  · rw [readMessage_short D E d ho h2, readMessage_short D E d1 ho1 (by rw [h]; exact h2)]
  · obtain ⟨e1, e2, e3, -⟩ := readMessage_dispatch D E d ho (by omega)
    obtain ⟨g1, g2, g3, -⟩ := readMessage_dispatch D E d1 ho1 (by rw [h]; omega)
    rw [h] at g1 g3
    rw [← e3] at g3
    rw [e1, g1]
    split
    · rw [(readPD0_stream D E _ _ hD e2).1, (readPD0_stream D E _ _ hD g2).1, g3]
    · split
      · rw [(readPD4_stream D E _ _ e2).1, (readPD4_stream D E _ _ g2).1, g3]
      · split
        · rw [(readPD5_stream D E _ _ e2).1, (readPD5_stream D E _ _ g2).1, g3]
        · rw [(readText_stream _ e2).1, (readText_stream _ g2).1, g3]

theorem take_of_take_eq {α : Type} (a b : List α) (n k : Nat) (h : a.take n = b.take n)
    (hk : k ≤ n) : a.take k = b.take k := by
  have := congrArg (List.take k) h
  rwa [List.take_take, List.take_take, Nat.min_eq_left hk] at this

theorem drop_take_of_take_eq {α : Type} (a b : List α) (n i j : Nat)
    (h : a.take n = b.take n) (hij : i + j ≤ n) : (a.drop i).take j = (b.drop i).take j := by
  have h1 := take_of_take_eq a b n (i + j) h hij
  have := congrArg (List.drop i) h1
  rwa [List.drop_take, List.drop_take, Nat.add_sub_cancel_left] at this

theorem length_of_take_eq {α : Type} (a b : List α) (n : Nat) (h : a.take n = b.take n)
    (hb : n ≤ b.length) : n ≤ a.length := by
  have := congrArg List.length h
  rw [List.length_take, List.length_take] at this
  omega

theorem readPD4_frame (D : Decl) (E : Env) (ck : Nat) (d : Dev) (m : Message)
    (ho : isOpen d = true) (hok : (readPD4 D E ck d).1 = .ok m) :
    D.sizeofPD4Data + 2 ≤ (avail d.rx).length
      ∧ isOpen (readPD4 D E ck d).2 = true
      ∧ avail (readPD4 D E ck d).2.rx = (avail d.rx).drop (D.sizeofPD4Data + 2)
      ∧ m.format = .PD4
      ∧ ∀ d1, isOpen d1 = true →
          (avail d1.rx).take (D.sizeofPD4Data + 2) = (avail d.rx).take (D.sizeofPD4Data + 2) →
          (readPD4 D E ck d1).1 = .ok m := by
  obtain ⟨f1, f2⟩ := readPD4_stream D E ck d ho
  rw [f1] at hok
  have c1 : ¬ (avail d.rx).length < D.sizeofPD4Data := by
    intro h
    rw [if_pos h] at hok; cases hok
  rw [if_neg c1] at hok
  have c2 : ¬ (avail d.rx).length < D.sizeofPD4Data + 2 := by
    intro h
    rw [if_pos h] at hok; cases hok
  rw [if_neg c2] at hok
  have hlen : D.sizeofPD4Data + 2 ≤ (avail d.rx).length := by omega
  refine ⟨hlen, (f2 hlen).1, (f2 hlen).2, ?_, ?_⟩
  · split at hok
    · cases hok; rfl
    · cases hok
  · intro d1 ho1 hpre
    have hlen1 := length_of_take_eq _ _ _ hpre hlen
    obtain ⟨g1, -⟩ := readPD4_stream D E ck d1 ho1
    rw [g1, if_neg (by omega), if_neg (by omega),
      take_of_take_eq _ _ _ D.sizeofPD4Data hpre (by omega),
      drop_take_of_take_eq _ _ _ D.sizeofPD4Data 2 hpre (by omega)]
    exact hok

theorem readPD5_frame (D : Decl) (E : Env) (ck : Nat) (d : Dev) (m : Message)
    (ho : isOpen d = true) (hok : (readPD5 D E ck d).1 = .ok m) :
    D.sizeofPD5Data + 2 ≤ (avail d.rx).length
      ∧ isOpen (readPD5 D E ck d).2 = true
      ∧ avail (readPD5 D E ck d).2.rx = (avail d.rx).drop (D.sizeofPD5Data + 2)
      ∧ m.format = .PD5
      ∧ ∀ d1, isOpen d1 = true →
          (avail d1.rx).take (D.sizeofPD5Data + 2) = (avail d.rx).take (D.sizeofPD5Data + 2) →
          (readPD5 D E ck d1).1 = .ok m := by
  obtain ⟨f1, f2⟩ := readPD5_stream D E ck d ho
  rw [f1] at hok
  have c1 : ¬ (avail d.rx).length < D.sizeofPD5Data := by
    intro h
    rw [if_pos h] at hok; cases hok
  rw [if_neg c1] at hok
  have c0 : ¬ D.sizeofPD5Data < D.sizeofPD4Data := by
    intro h
    rw [if_pos h] at hok; cases hok
  rw [if_neg c0] at hok
  have c2 : ¬ (avail d.rx).length < D.sizeofPD5Data + 2 := by
    intro h
    rw [if_pos h] at hok; cases hok
  rw [if_neg c2] at hok
  have hlen : D.sizeofPD5Data + 2 ≤ (avail d.rx).length := by omega
  refine ⟨hlen, (f2 (by omega) hlen).1, (f2 (by omega) hlen).2, ?_, ?_⟩
  · split at hok
    · cases hok; rfl
    · cases hok
  · intro d1 ho1 hpre
    have hlen1 := length_of_take_eq _ _ _ hpre hlen
    obtain ⟨g1, -⟩ := readPD5_stream D E ck d1 ho1
    rw [g1, if_neg (by omega), if_neg c0, if_neg (by omega),
      take_of_take_eq _ _ _ D.sizeofPD4Data hpre (by omega),
      take_of_take_eq _ _ _ D.sizeofPD5Data hpre (by omega),
      drop_take_of_take_eq _ _ _ D.sizeofPD5Data 2 hpre (by omega)]
    exact hok

theorem readPD0_frame (D : Decl) (E : Env) (ck : Nat) (d : Dev) (m : Message) (hD : D.WF)
    (ho : isOpen d = true) (hok : (readPD0 D E ck d).1 = .ok m) :
    D.sizeofPD0Header ≤ payloadBytes D ((avail d.rx).take D.sizeofPD0Header)
      ∧ payloadBytes D ((avail d.rx).take D.sizeofPD0Header) + 2 ≤ (avail d.rx).length
      ∧ isOpen (readPD0 D E ck d).2 = true
      ∧ avail (readPD0 D E ck d).2.rx
          = (avail d.rx).drop (payloadBytes D ((avail d.rx).take D.sizeofPD0Header) + 2)
      ∧ m.format = .PD0
      ∧ ∀ d1, isOpen d1 = true →
          (avail d1.rx).take (payloadBytes D ((avail d.rx).take D.sizeofPD0Header) + 2)
            = (avail d.rx).take (payloadBytes D ((avail d.rx).take D.sizeofPD0Header) + 2) →
          (readPD0 D E ck d1).1 = .ok m
            ∧ (avail d1.rx).take D.sizeofPD0Header = (avail d.rx).take D.sizeofPD0Header := by
  obtain ⟨f1, f2⟩ := readPD0_stream D E ck d hD ho
  rw [f1] at hok
  have c1 : ¬ (avail d.rx).length < D.sizeofPD0Header := by
    intro h
    rw [if_pos h] at hok; cases hok
  rw [if_neg c1] at hok
  have c2 : ¬ payloadBytes D ((avail d.rx).take D.sizeofPD0Header) < D.sizeofPD0Header := by
    intro h
    rw [if_pos h] at hok; cases hok
  rw [if_neg c2] at hok
  have c3 : ¬ (avail d.rx).length < payloadBytes D ((avail d.rx).take D.sizeofPD0Header) := by
    intro h
    rw [if_pos h] at hok; cases hok
  rw [if_neg c3] at hok
  have c4 : ¬ (avail d.rx).length < payloadBytes D ((avail d.rx).take D.sizeofPD0Header) + 2 := by
    intro h
    rw [if_pos h] at hok; cases hok
  rw [if_neg c4] at hok
  have hfmt : m.format = .PD0 := by
    split at hok
    · exact (walk_views D _ _ _ _ _ m hok).1
    · cases hok
  refine ⟨by omega, by omega, (f2 (by omega) (by omega)).1, (f2 (by omega) (by omega)).2,
    hfmt, ?_⟩
  intro d1 ho1 hpre
  have hlen1 := length_of_take_eq _ _ _ hpre (by omega)
  have hh : (avail d1.rx).take D.sizeofPD0Header = (avail d.rx).take D.sizeofPD0Header :=
    take_of_take_eq _ _ _ D.sizeofPD0Header hpre (by omega)
  refine ⟨?_, hh⟩
  have hblk : pd0Block D E (avail d1.rx) = pd0Block D E (avail d.rx) := by
    unfold pd0Block
    rw [hh, drop_take_of_take_eq _ _ _ D.sizeofPD0Header
      (payloadBytes D ((avail d.rx).take D.sizeofPD0Header) - D.sizeofPD0Header) hpre (by omega)]
  obtain ⟨g1, -⟩ := readPD0_stream D E ck d1 hD ho1
  rw [g1, hh, if_neg (by omega), if_neg c2, if_neg (by omega), if_neg (by omega), hblk,
    drop_take_of_take_eq _ _ _ (payloadBytes D ((avail d.rx).take D.sizeofPD0Header)) 2 hpre
      (by omega)]
  exact hok

theorem takeWhile_stop (tw r : List Byte) (h : ∀ x ∈ tw, x ≠ 62) :
    (tw ++ 62 :: r).takeWhile (fun b => b != 62) = tw := by
  induction tw with
  | nil => simp
  | cons x xs ih =>
    have hx : x ≠ 62 := h x (List.mem_cons_self _ _)
    have := ih (fun y hy => h y (List.mem_cons_of_mem _ hy))
    have hb : (x != 62) = true := by simpa using hx
    rw [List.cons_append, List.takeWhile_cons, hb, if_pos rfl, this]

theorem text_split (a : List Byte) (hm : (62 : Byte) ∈ a) :
    a.take ((a.takeWhile (fun b => b != 62)).length + 1)
      = a.takeWhile (fun b => b != 62) ++ [62] := by
  induction a with
  | nil => cases hm
  | cons x xs ih =>
    by_cases hx : x = 62
    · subst hx
      simp
    · have hm1 : (62 : Byte) ∈ xs := by
        rcases List.mem_cons.mp hm with h | h
        · exact absurd h.symm hx
        · exact h
      have := ih hm1
      have hb : (x != 62) = true := by simpa using hx
      rw [List.takeWhile_cons, hb, if_pos rfl, List.length_cons, List.take_succ_cons, this]
      rfl

theorem readText_frame (d : Dev) (m : Message) (ho : isOpen d = true)
    (hok : (readText d).1 = .ok m) :
    ((avail d.rx).takeWhile (fun b => b != 62)).length + 1 ≤ (avail d.rx).length
      ∧ isOpen (readText d).2 = true
      ∧ avail (readText d).2.rx
          = (avail d.rx).drop (((avail d.rx).takeWhile (fun b => b != 62)).length + 1)
      ∧ m.format = .TEXT
      ∧ ∀ d1, isOpen d1 = true →
          (avail d1.rx).take (((avail d.rx).takeWhile (fun b => b != 62)).length + 1)
            = (avail d.rx).take (((avail d.rx).takeWhile (fun b => b != 62)).length + 1) →
          (readText d1).1 = .ok m
            ∧ (avail d1.rx).takeWhile (fun b => b != 62)
                = (avail d.rx).takeWhile (fun b => b != 62) := by
  obtain ⟨f1, f2⟩ := readText_stream d ho
  rw [f1] at hok
  have hm : (62 : Byte) ∈ avail d.rx := by
    by_contra h
    rw [if_neg h] at hok; cases hok
  rw [if_pos hm] at hok
  have hsp := text_split _ hm
  have hlen : ((avail d.rx).takeWhile (fun b => b != 62)).length + 1 ≤ (avail d.rx).length := by
    have := congrArg List.length hsp
    rw [List.length_take, List.length_append] at this
    simp only [List.length_cons, List.length_nil] at this
    omega
  refine ⟨hlen, readText_open d ho hm, f2 hm, ?_, ?_⟩
  · cases hok; rfl
  · intro d1 ho1 hpre
    rw [hsp] at hpre
    have h1 : avail d1.rx = (avail d.rx).takeWhile (fun b => b != 62)
        ++ 62 :: (avail d1.rx).drop (((avail d.rx).takeWhile (fun b => b != 62)).length + 1) := by
      conv_lhs => rw [← List.take_append_drop
        (((avail d.rx).takeWhile (fun b => b != 62)).length + 1) (avail d1.rx), hpre]
      simp
    have hall : ∀ x ∈ (avail d.rx).takeWhile (fun b => b != 62), x ≠ 62 := by
      intro x hx
      have := List.mem_takeWhile_imp hx
      simpa using this
    have htw : (avail d1.rx).takeWhile (fun b => b != 62)
        = (avail d.rx).takeWhile (fun b => b != 62) := by
      rw [h1]
      exact takeWhile_stop _ _ hall
    have hm1 : (62 : Byte) ∈ avail d1.rx := by
      rw [h1]
      simp
    refine ⟨?_, htw⟩
    obtain ⟨g1, -⟩ := readText_stream d1 ho1
    rw [g1, if_pos hm1, htw]
    exact hok

theorem drop_two_drop {α : Type} (a : List α) (k : Nat) :
    (a.drop 2).drop k = a.drop (2 + k) := by
  rw [List.drop_drop]

theorem readMessage_frame (D : Decl) (E : Env) (d : Dev) (m : Message) (hD : D.WF)
    (hok : (readMessage D E d).1 = .ok m) :
    isOpen d = true
      ∧ frameLength D (avail d.rx) ≤ (avail d.rx).length
      ∧ isOpen (readMessage D E d).2 = true
      ∧ avail (readMessage D E d).2.rx = (avail d.rx).drop (frameLength D (avail d.rx))
      ∧ m.format
          = (if le16 ((avail d.rx).take 2) = D.kPD0HeaderID then .PD0
             else if le16 ((avail d.rx).take 2) = D.kPD4HeaderID then .PD4
             else if le16 ((avail d.rx).take 2) = D.kPD5HeaderID then .PD5 else .TEXT)
      ∧ ∀ d1, isOpen d1 = true →
          (avail d1.rx).take (frameLength D (avail d.rx))
            = (avail d.rx).take (frameLength D (avail d.rx)) →
          (readMessage D E d1).1 = .ok m
            ∧ frameLength D (avail d1.rx) = frameLength D (avail d.rx) := by
  have ho : isOpen d = true := by
    by_contra h
    rw [readMessage_closed D E d (by simpa using h)] at hok
    cases hok
  have h2 : 2 ≤ (avail d.rx).length := by
    by_contra h
    rw [readMessage_short D E d ho (by omega)] at hok
    cases hok
  obtain ⟨e1, e2, e3, -⟩ := readMessage_dispatch D E d ho h2
  refine ⟨ho, ?_⟩
  rw [e1] at hok ⊢
  have key : ∀ (k : Nat) (d1 : Dev), isOpen d1 = true → 2 + k ≤ (avail d.rx).length →
      (avail d1.rx).take (2 + k) = (avail d.rx).take (2 + k) →
      (readMessage D E d1
          = (if le16 ((avail d.rx).take 2) = D.kPD0HeaderID then
              readPD0 D E (crc16 D.charSigned 0 ((avail d.rx).take 2)) (readRaw d1 2).2
            else if le16 ((avail d.rx).take 2) = D.kPD4HeaderID then
              readPD4 D E (crc16 D.charSigned 0 ((avail d.rx).take 2)) (readRaw d1 2).2
            else if le16 ((avail d.rx).take 2) = D.kPD5HeaderID then
              readPD5 D E (crc16 D.charSigned 0 ((avail d.rx).take 2)) (readRaw d1 2).2
            else readText (readRaw d1 2).2))
        ∧ isOpen (readRaw d1 2).2 = true
        ∧ (avail d1.rx).take 2 = (avail d.rx).take 2
        ∧ (avail (readRaw d1 2).2.rx).take k = (avail (readRaw d 2).2.rx).take k := by
    intro k d1 ho1 hk hpre
    have hl1 := length_of_take_eq _ _ _ hpre hk
    obtain ⟨g1, g2, g3, -⟩ := readMessage_dispatch D E d1 ho1 (by omega)
    have ht : (avail d1.rx).take 2 = (avail d.rx).take 2 :=
      take_of_take_eq _ _ _ 2 hpre (by omega)
    rw [ht] at g1
    refine ⟨g1, g2, ht, ?_⟩
    rw [g3, e3]
    exact drop_take_of_take_eq _ _ _ 2 k hpre (le_refl _)
  by_cases c0 : le16 ((avail d.rx).take 2) = D.kPD0HeaderID
  · rw [if_pos c0] at hok ⊢
    obtain ⟨p1, p2, p3, p4, p5, p6⟩ := readPD0_frame D E _ _ m hD e2 hok
    rw [e3] at p1 p2 p4 p6
    rw [List.length_drop] at p2
    have hfl : frameLength D (avail d.rx)
        = 2 + (payloadBytes D (((avail d.rx).drop 2).take D.sizeofPD0Header) + 2) := by
      unfold frameLength
      rw [if_pos c0]
      omega
    rw [hfl, if_pos c0]
    refine ⟨by omega, p3, ?_, p5, ?_⟩
    · rw [p4, drop_two_drop]
    · intro d1 ho1 hpre
      obtain ⟨k1, k2, k3, k4⟩ := key _ d1 ho1 (by omega) hpre
      rw [e3] at k4
      obtain ⟨q1, q2⟩ := p6 _ k2 k4
      rw [k1, if_pos c0]
      refine ⟨q1, ?_⟩
      obtain ⟨-, -, g3, -⟩ := readMessage_dispatch D E d1 ho1
        (by have := length_of_take_eq _ _ _ hpre (by omega); omega)
      rw [g3] at q2
      unfold frameLength
      rw [k3, if_pos c0, q2]
      omega
  · rw [if_neg c0] at hok ⊢
    by_cases c4 : le16 ((avail d.rx).take 2) = D.kPD4HeaderID
    · rw [if_pos c4] at hok ⊢
      obtain ⟨p2, p3, p4, p5, p6⟩ := readPD4_frame D E _ _ m e2 hok
      rw [e3] at p2 p4 p6
      rw [List.length_drop] at p2
      have hfl : frameLength D (avail d.rx) = 2 + (D.sizeofPD4Data + 2) := by
        unfold frameLength
        rw [if_neg c0, if_pos c4]
        omega
      rw [hfl, if_pos c4]
      refine ⟨by omega, p3, ?_, by rw [if_neg c0]; exact p5, ?_⟩
      · rw [p4, drop_two_drop]
      · intro d1 ho1 hpre
        obtain ⟨k1, k2, k3, k4⟩ := key _ d1 ho1 (by omega) hpre
        rw [e3] at k4
        rw [k1, if_neg c0, if_pos c4]
        refine ⟨p6 _ k2 k4, ?_⟩
        unfold frameLength
        rw [k3, if_neg c0, if_pos c4]
        omega
    · rw [if_neg c4] at hok ⊢
      by_cases c5 : le16 ((avail d.rx).take 2) = D.kPD5HeaderID
      · rw [if_pos c5] at hok ⊢
        obtain ⟨p2, p3, p4, p5, p6⟩ := readPD5_frame D E _ _ m e2 hok
        rw [e3] at p2 p4 p6
        rw [List.length_drop] at p2
        have hfl : frameLength D (avail d.rx) = 2 + (D.sizeofPD5Data + 2) := by
          unfold frameLength
          rw [if_neg c0, if_neg c4, if_pos c5]
          omega
        rw [hfl, if_pos c5]
        refine ⟨by omega, p3, ?_, by rw [if_neg c0, if_neg c4]; exact p5, ?_⟩
        · rw [p4, drop_two_drop]
        · intro d1 ho1 hpre
          obtain ⟨k1, k2, k3, k4⟩ := key _ d1 ho1 (by omega) hpre
          rw [e3] at k4
          rw [k1, if_neg c0, if_neg c4, if_pos c5]
          refine ⟨p6 _ k2 k4, ?_⟩
          unfold frameLength
          rw [k3, if_neg c0, if_neg c4, if_pos c5]
          omega
      · rw [if_neg c5] at hok ⊢
        obtain ⟨p2, p3, p4, p5, p6⟩ := readText_frame _ m e2 hok
        rw [e3] at p2 p4 p6
        rw [List.length_drop] at p2
        have hfl : frameLength D (avail d.rx)
            = 2 + ((((avail d.rx).drop 2).takeWhile (fun b => b != 62)).length + 1) := by
          unfold frameLength
          rw [if_neg c0, if_neg c4, if_neg c5]
          omega
        rw [hfl, if_neg c5]
        refine ⟨by omega, p3, ?_, by rw [if_neg c0, if_neg c4]; exact p5, ?_⟩
        · rw [p4, drop_two_drop]
        · intro d1 ho1 hpre
          obtain ⟨k1, k2, k3, k4⟩ := key _ d1 ho1 (by omega) hpre
          rw [e3] at k4
          obtain ⟨q1, q2⟩ := p6 _ k2 k4
          rw [k1, if_neg c0, if_neg c4, if_neg c5]
          refine ⟨q1, ?_⟩
          obtain ⟨-, -, g3, -⟩ := readMessage_dispatch D E d1 ho1
            (by have := length_of_take_eq _ _ _ hpre (by omega); omega)
          rw [g3] at q2
          unfold frameLength
          rw [k3, if_neg c0, if_neg c4, if_neg c5, q2]
          omega

theorem le16_lt (bytes : List Byte) : le16 bytes < 65536 := by
  unfold le16
  have h0 := (bytes.getD 0 0).isLt
  have h1 := (bytes.getD 1 0).isLt
  omega

theorem payloadBytes_of_ge (D : Decl) (header : List Byte) (h : 4 ≤ ensembleBytes D header) :
    payloadBytes D header = ensembleBytes D header - 4 := by
  have hlt : ensembleBytes D header < 65536 := le16_lt _
  unfold payloadBytes
  omega

theorem avail_append_stop (pre rest : List Event) (e : Event) (he : ∀ c, e ≠ .data c) :
    avail (pre ++ e :: rest) = avail pre := by
  induction pre with
  | nil =>
    cases e with
    | data c => exact absurd rfl (he c)
    | timeout => rfl
    | waitError => rfl
    | readError => rfl
  | cons x xs ih =>
    cases x with
    | data c =>
      show (if c = [] then [] else c ++ avail (xs ++ e :: rest)) = _
      rw [ih]
      rfl
    | timeout => rfl
    | waitError => rfl
    | readError => rfl

theorem roomOf_append_stop (pre rest : List WEvent) (e : WEvent) (he : ∀ r, e ≠ .accept r) :
    roomOf (pre ++ e :: rest) = roomOf pre := by
  induction pre with
  | nil =>
    cases e with
    | accept r => exact absurd rfl (he r)
    | timeout => rfl
    | waitError => rfl
    | writeError => rfl
  | cons x xs ih =>
    cases x with
    | accept r =>
      show (if r = 0 then 0 else r + roomOf (xs ++ e :: rest)) = _
      rw [ih]
      rfl
    | timeout => rfl
    | waitError => rfl
    | writeError => rfl

theorem readMessage_sizes (D : Decl) (E : Env) (d : Dev) (m : Message) (hD : D.WF)
    (hok : (readMessage D E d).1 = .ok m) :
    (m.format = .PD4 → m.payload.size = 0 ∧ m.payload.store.length = D.sizeofPD4Data)
      ∧ (m.format = .PD5 → m.payload.size = 0 ∧ m.payload.store.length = D.sizeofPD5Data)
      ∧ (m.format = .PD0 → m.payload.size = 0
          ∧ m.payload.store.length
              = payloadBytes D (((avail d.rx).drop 2).take D.sizeofPD0Header))
      ∧ (m.format = .TEXT → m.payload.size = m.payload.store.length
          ∧ m.payload.size = (((avail d.rx).drop 2).takeWhile (fun b => b != 62)).length + 2) := by
  have ho : isOpen d = true := by
    by_contra h
    rw [readMessage_closed D E d (by simpa using h)] at hok
    cases hok
  have h2 : 2 ≤ (avail d.rx).length := by
    by_contra h
    rw [readMessage_short D E d ho (by omega)] at hok
    cases hok
  obtain ⟨e1, e2, e3, -⟩ := readMessage_dispatch D E d ho h2
  rw [e1] at hok
  by_cases c0 : le16 ((avail d.rx).take 2) = D.kPD0HeaderID
  · rw [if_pos c0] at hok
    obtain ⟨p1, p2, -, -, p5, -⟩ := readPD0_frame D E _ _ m hD e2 hok
    obtain ⟨f1, -⟩ := readPD0_stream D E (crc16 D.charSigned 0 ((avail d.rx).take 2)) _ hD e2
    rw [f1, if_neg (by omega), if_neg (by omega), if_neg (by omega), if_neg (by omega)] at hok
    have hpay : m.payload
        = { size := 0, store := pd0Block D E (avail (readRaw d 2).2.rx) } := by
      split at hok
      · exact (walk_views D _ _ _ _ _ m hok).2.1
      · cases hok
    have hl := pd0Block_length D E (avail (readRaw d 2).2.rx) p1 (by omega)
    rw [e3] at hl hpay
    refine ⟨fun h => ?_, fun h => ?_, fun _ => ?_, fun h => ?_⟩
    · rw [p5] at h; cases h
    · rw [p5] at h; cases h
    · rw [hpay]; exact ⟨rfl, hl⟩
    · rw [p5] at h; cases h
  · rw [if_neg c0] at hok
    by_cases c4 : le16 ((avail d.rx).take 2) = D.kPD4HeaderID
    · rw [if_pos c4] at hok
      obtain ⟨p2, -, -, p5, -⟩ := readPD4_frame D E _ _ m e2 hok
      obtain ⟨f1, -⟩ := readPD4_stream D E (crc16 D.charSigned 0 ((avail d.rx).take 2)) _ e2
      rw [f1, if_neg (by omega), if_neg (by omega)] at hok
      have hpay : m.payload
          = { size := 0, store := (avail (readRaw d 2).2.rx).take D.sizeofPD4Data } := by
        split at hok
        · cases hok; rfl
        · cases hok
      refine ⟨fun _ => ?_, fun h => ?_, fun h => ?_, fun h => ?_⟩
      · rw [hpay]
        refine ⟨rfl, ?_⟩
        simp only [List.length_take]
        omega
      · rw [p5] at h; cases h
      · rw [p5] at h; cases h
      · rw [p5] at h; cases h
    · rw [if_neg c4] at hok
      by_cases c5 : le16 ((avail d.rx).take 2) = D.kPD5HeaderID
      · rw [if_pos c5] at hok
        obtain ⟨p2, -, -, p5, -⟩ := readPD5_frame D E _ _ m e2 hok
        obtain ⟨f1, -⟩ := readPD5_stream D E (crc16 D.charSigned 0 ((avail d.rx).take 2)) _ e2
        rw [f1, if_neg (by omega)] at hok
        have c0 : ¬ D.sizeofPD5Data < D.sizeofPD4Data := by
          intro h
          rw [if_pos h] at hok; cases hok
        rw [if_neg c0, if_neg (by omega)] at hok
        have hpay : m.payload
            = { size := 0, store := (avail (readRaw d 2).2.rx).take D.sizeofPD5Data } := by
          split at hok
          · cases hok; rfl
          · cases hok
        refine ⟨fun h => ?_, fun _ => ?_, fun h => ?_, fun h => ?_⟩
        · rw [p5] at h; cases h
        · rw [hpay]
          refine ⟨rfl, ?_⟩
          simp only [List.length_take]
          omega
        · rw [p5] at h; cases h
        · rw [p5] at h; cases h
      · rw [if_neg c5] at hok
        obtain ⟨-, -, -, p5, -⟩ := readText_frame _ m e2 hok
        obtain ⟨f1, -⟩ := readText_stream (readRaw d 2).2 e2
        rw [f1] at hok
        have hm : (62 : Byte) ∈ avail (readRaw d 2).2.rx := by
          by_contra h
          rw [if_neg h] at hok; cases hok
        rw [if_pos hm, e3] at hok
        refine ⟨fun h => ?_, fun h => ?_, fun h => ?_, fun _ => ?_⟩
        · rw [p5] at h; cases h
        · rw [p5] at h; cases h
        · rw [p5] at h; cases h
        · cases hok
          simp

theorem walk_stays_unknown (D : Decl) (store : List Byte) (hb : Nat) :
    ∀ (count i : Nat) (m : Message),
      (∀ j, j < count → (∀ j1, j1 < j → (entry D store hb (i + j1)).isSome = true) →
        (located store hb (i + j)).isSome = true) →
      (∃ j, j < count ∧ entry D store hb (i + j) = none) →
      walk D store hb count i m = .throws .unknownDataFormat := by
  intro count
  induction count with
  | zero =>
    intro i m _ h
    obtain ⟨j, hj, -⟩ := h
    omega
  | succ n ih =>
    intro i m hstay hbad
    cases he : entry D store hb i with
    | none =>
      rw [walk_succ_of_not_entry D store hb n i m he]
      have := hstay 0 (by omega) (by intro j1 h1; omega)
      simp only [Nat.add_zero] at this
      cases hl : located store hb i with
      | none => simp [hl] at this
      | some v => rfl
    | some ok =>
      obtain ⟨o, k⟩ := ok
      rw [walk_succ_of_entry D store hb n i m o k he]
      apply ih
      · intro j hj hpre
        have := hstay (j + 1) (by omega) (by
          intro j1 h1
          cases j1 with
          | zero => simp [he]
          | succ j2 =>
            have := hpre j2 (by omega)
            rw [show i + 1 + j2 = i + (j2 + 1) by omega] at this
            exact this)
        rw [show i + (j + 1) = i + 1 + j by omega] at this
        exact this
      · obtain ⟨j, hj, hn⟩ := hbad
        cases j with
        | zero => simp [he] at hn
        | succ j0 =>
          refine ⟨j0, by omega, ?_⟩
          rw [show i + 1 + j0 = i + (j0 + 1) by omega]
          exact hn

theorem pd0WrapFrame_taken :
    ensembleBytes (rdi false) (pd0WrapTail.take (rdi false).sizeofPD0Header) = 3
      ∧ (∃ m, (readMessage (rdi false) (Env.holding [3, 0, 0, 0])
            (Dev.ofStream pd0WrapFrame)).1 = .ok m ∧ m.format = .PD0)
      ∧ avail (readMessage (rdi false) (Env.holding [3, 0, 0, 0])
            (Dev.ofStream pd0WrapFrame)).2.rx = []
      ∧ (avail (Dev.ofStream pd0WrapFrame).rx).length = 65539 := by
  have hs : (rdi false).sizeofPD0Header = 4 := rfl
  have ht : pd0WrapTail.take (rdi false).sizeofPD0Header = [3, 0, 0, 0] := rfl
  have hpb : payloadBytes (rdi false) [3, 0, 0, 0] = 65535 := by decide
  have hlen : pd0WrapTail.length = 65537 := by
    rw [pd0WrapTail, List.length_append, List.length_append, List.length_replicate]
    simp only [List.length_cons, List.length_nil]
  have hflen : pd0WrapFrame.length = 65539 := by
    rw [pd0WrapFrame, List.length_cons, List.length_cons, hlen]
  have hd4 : List.drop 4 pd0WrapTail = List.replicate 65531 0 ++ [0x01, 0x01] := rfl
  have hfresh : List.map ((Env.holding [3, 0, 0, 0]).fresh 1) (List.range 4) = [3, 0, 0, 0] := by
    decide
  have hblk : pd0Block (rdi false) (Env.holding [3, 0, 0, 0]) pd0WrapTail
      = [3, 0, 0, 0] ++ List.replicate 65531 0 := by
    unfold pd0Block
    rw [ht, hpb, hs, if_pos (by omega), hd4, hfresh]
    rw [List.take_left' (by rw [List.length_replicate])]
  have hdrop : List.drop 65535 pd0WrapTail = [0x01, 0x01] := by
    have e : pd0WrapTail = ([3, 0, 0, 0] ++ List.replicate 65531 0) ++ [0x01, 0x01] :=
      (List.append_assoc _ _ _).symm
    rw [e]
    exact List.drop_left' (by
      rw [List.length_append, List.length_replicate]
      simp only [List.length_cons, List.length_nil])
  have hcrc : crc16 false (crc16 false 0 [0x7F, 0x7F]) ([3, 0, 0, 0] ++ List.replicate 65531 0)
      = 257 := by
    rw [crc16_append, crc16_replicate_zero]
    · decide
    · decide
  have hrm := readMessage_pd0 (rdi false) (Env.holding [3, 0, 0, 0]) (Dev.ofStream pd0WrapFrame)
    0x7F 0x7F pd0WrapTail (by decide) (by rfl) (by decide) (avail_ofStream _)
  rw [ht, hpb, hlen, hblk, hdrop] at hrm
  have hcs : (rdi false).charSigned = false := rfl
  rw [hcs, hcrc, hs, if_neg (by omega), if_neg (by omega), if_neg (by omega), if_neg (by omega),
    if_pos (by decide)] at hrm
  have hok : (readMessage (rdi false) (Env.holding [3, 0, 0, 0]) (Dev.ofStream pd0WrapFrame)).1
      = .ok { format := .PD0,
              payload := { size := 0, store := [3, 0, 0, 0] ++ List.replicate 65531 0 },
              pd0_header := some 0 } := by
    rw [hrm]
    rfl
  obtain ⟨-, -, -, f4, -⟩ := readMessage_frame (rdi false) (Env.holding [3, 0, 0, 0])
    (Dev.ofStream pd0WrapFrame) _ (by decide) hok
  have hfl : frameLength (rdi false) pd0WrapFrame = 2 + 65535 + 2 := by
    unfold frameLength
    have h2 : pd0WrapFrame.take 2 = [0x7F, 0x7F] := rfl
    have h3 : (pd0WrapFrame.drop 2).take (rdi false).sizeofPD0Header = [3, 0, 0, 0] := rfl
    rw [h2, h3, hpb, if_pos (by decide)]
  rw [avail_ofStream, hfl] at f4
  refine ⟨by rw [ht]; decide, ⟨_, hok, rfl⟩, ?_, by rw [avail_ofStream, hflen]⟩
  rw [f4]
  exact List.drop_eq_nil_of_le (by rw [hflen])

theorem readMessage_back_to_back (D : Decl) (E1 E2 : Env) (d1 d2 d : Dev) (m1 : Message)
    (hD : D.WF) (ho : isOpen d = true) (ho2 : isOpen d2 = true)
    (h1 : (readMessage D E1 d1).1 = .ok m1)
    (hall : avail (readMessage D E1 d1).2.rx = [])
    (hd : avail d.rx = avail d1.rx ++ avail d2.rx) :
    (m1.format = .PD4 → (avail d1.rx).length = 2 + D.sizeofPD4Data + 2)
      ∧ (m1.format = .PD5 → (avail d1.rx).length = 2 + D.sizeofPD5Data + 2)
      ∧ (m1.format = .PD0 →
          (avail d1.rx).length
              = 2 + payloadBytes D (((avail d1.rx).drop 2).take D.sizeofPD0Header) + 2
            ∧ (4 ≤ ensembleBytes D (((avail d1.rx).drop 2).take D.sizeofPD0Header) →
                (avail d1.rx).length
                  = ensembleBytes D (((avail d1.rx).drop 2).take D.sizeofPD0Header))
            ∧ (ensembleBytes D (((avail d1.rx).drop 2).take D.sizeofPD0Header) < 4 →
                (avail d1.rx).length
                  = ensembleBytes D (((avail d1.rx).drop 2).take D.sizeofPD0Header) + 65536))
      ∧ (readMessage D E1 d).1 = .ok m1
      ∧ avail (readMessage D E1 d).2.rx = avail d2.rx
      ∧ (readMessage D E2 (readMessage D E1 d).2).1 = (readMessage D E2 d2).1 := by
  obtain ⟨-, f2, -, f4, f5, f6⟩ := readMessage_frame D E1 d1 m1 hD h1
  have hfl : frameLength D (avail d1.rx) = (avail d1.rx).length := by
    rw [f4] at hall
    have := List.drop_eq_nil_iff.mp hall
    omega
  have hpre : (avail d.rx).take (frameLength D (avail d1.rx))
      = (avail d1.rx).take (frameLength D (avail d1.rx)) := by
    rw [hd, hfl, List.take_left, List.take_length]
  obtain ⟨g1, g2⟩ := f6 d ho hpre
  obtain ⟨-, -, k3, k4, -, -⟩ := readMessage_frame D E1 d m1 hD g1
  have hrest : avail (readMessage D E1 d).2.rx = avail d2.rx := by
    rw [k4, g2, hfl, hd, List.drop_left]
  refine ⟨?_, ?_, ?_, g1, hrest, readMessage_avail D E2 d2 _ hD ho2 k3 hrest⟩
  · intro hf
    rw [← hfl]
    unfold frameLength
    by_cases c0 : le16 ((avail d1.rx).take 2) = D.kPD0HeaderID
    · rw [if_pos c0, hf] at f5; cases f5
    · rw [if_neg c0] at f5 ⊢
      by_cases c4 : le16 ((avail d1.rx).take 2) = D.kPD4HeaderID
      · rw [if_pos c4]
      · rw [if_neg c4] at f5
        by_cases c5 : le16 ((avail d1.rx).take 2) = D.kPD5HeaderID
        · rw [if_pos c5, hf] at f5; cases f5
        · rw [if_neg c5, hf] at f5; cases f5
  · intro hf
    rw [← hfl]
    unfold frameLength
    by_cases c0 : le16 ((avail d1.rx).take 2) = D.kPD0HeaderID
    · rw [if_pos c0, hf] at f5; cases f5
    · rw [if_neg c0] at f5 ⊢
      by_cases c4 : le16 ((avail d1.rx).take 2) = D.kPD4HeaderID
      · rw [if_pos c4, hf] at f5; cases f5
      · rw [if_neg c4] at f5 ⊢
        by_cases c5 : le16 ((avail d1.rx).take 2) = D.kPD5HeaderID
        · rw [if_pos c5]
        · rw [if_neg c5, hf] at f5; cases f5
  · intro hf
    have hlen : (avail d1.rx).length
        = 2 + payloadBytes D (((avail d1.rx).drop 2).take D.sizeofPD0Header) + 2 := by
      rw [← hfl]
      unfold frameLength
      by_cases c0 : le16 ((avail d1.rx).take 2) = D.kPD0HeaderID
      · rw [if_pos c0]
      · rw [if_neg c0] at f5
        by_cases c4 : le16 ((avail d1.rx).take 2) = D.kPD4HeaderID
        · rw [if_pos c4, hf] at f5; cases f5
        · rw [if_neg c4] at f5
          by_cases c5 : le16 ((avail d1.rx).take 2) = D.kPD5HeaderID
          · rw [if_pos c5, hf] at f5; cases f5
          · rw [if_neg c5, hf] at f5; cases f5
    refine ⟨hlen, fun h4 => ?_, fun h4 => ?_⟩
    · rw [hlen, payloadBytes_of_ge D _ h4]
      omega
    · rw [hlen, payloadBytes_wrap D _ h4]
      omega

theorem readMessage_pd0_block (D : Decl) (E : Env) (d : Dev) (m : Message) (hD : D.WF)
    (hok : (readMessage D E d).1 = .ok m) (hf : m.format = .PD0) :
    m.payload.store = pd0Block D E ((avail d.rx).drop 2)
      ∧ (D.sizeofPD0Header < payloadBytes D (((avail d.rx).drop 2).take D.sizeofPD0Header) →
          m.payload.store.take D.sizeofPD0Header
            = (List.range D.sizeofPD0Header).map (E.fresh 1)) := by
  obtain ⟨ho, -, -, -, f5, -⟩ := readMessage_frame D E d m hD hok
  have h2 : 2 ≤ (avail d.rx).length := by
    by_contra h
    rw [readMessage_short D E d ho (by omega)] at hok
    cases hok
  have c0 : le16 ((avail d.rx).take 2) = D.kPD0HeaderID := by
    by_contra c0
    rw [if_neg c0, hf] at f5
    split at f5
    · cases f5
    · split at f5 <;> cases f5
  obtain ⟨e1, e2, e3, -⟩ := readMessage_dispatch D E d ho h2
  rw [e1, if_pos c0] at hok
  obtain ⟨p1, p2, -, -, -, -⟩ := readPD0_frame D E _ _ m hD e2 hok
  obtain ⟨f1, -⟩ := readPD0_stream D E (crc16 D.charSigned 0 ((avail d.rx).take 2)) _ hD e2
  rw [f1, if_neg (by omega), if_neg (by omega), if_neg (by omega), if_neg (by omega)] at hok
  have hpay : m.payload
      = { size := 0, store := pd0Block D E (avail (readRaw d 2).2.rx) } := by
    split at hok
    · exact (walk_views D _ _ _ _ _ m hok).2.1
    · cases hok
  rw [e3] at hpay
  refine ⟨by rw [hpay], fun hlt => ?_⟩
  rw [hpay]
  show (pd0Block D E ((avail d.rx).drop 2)).take D.sizeofPD0Header = _
  unfold pd0Block
  rw [if_pos hlt, List.take_left' (by simp)]

/-! ## The claims -/

/-- C1 (code at the failing input): with a signed plain `char` the PD4 frame
`7D 00 80 00 .. 00` with the trailing checksum `00FD`, the truncated sum of the raw values
of its identifier and payload bytes, is rejected with the checksum-mismatch error; with an
unsigned plain `char` the same frame is accepted and the message holds its payload. -/
theorem C1_pd4_high_byte_frame_rejected :
    (readMessage (rdi true) Env.zero (Dev.ofStream pd4HighByteFrame)).1
        = .throws .checksumMismatch
      ∧ (readMessage (rdi false) Env.zero (Dev.ofStream pd4HighByteFrame)).1
        = .ok { format := .PD4, payload := { size := 0, store := 0x80 :: List.replicate 42 0 },
                pd4_data := some 0 } := by
  constructor
  · decide
  · rfl

/-- C2 (code at the failing input): with a signed plain `char`, `crc16` adds the byte
`0x80` as -128: from 0 it yields `0xFF80`, not the sum of raw values `0x0080`; with an
unsigned plain `char` it yields `0x0080`. -/
theorem C2_crc16_sign_extends :
    crc16 true 0 [0x80] = 0xFF80 ∧ crc16 true 0 [0x80] ≠ (0 + 0x80) % 65536
      ∧ crc16 false 0 [0x80] = 0x0080 := by
  decide

/-- C3 (code at the failing input): in the scenario frame the 16-bit value right after the
header, at payload position `sizeof(PD0_Header) + 2*0` = 4, is 6 and points at the
fixed-leader identifier; the entry `readMessage` uses is the one at byte
`2 * (sizeof(PD0_Header) + 0)` = 8, which is 10 and points at the identifier `FFFF`.
When the block allocated by the second `reserve` holds the header bytes the checksum
passes and the frame is rejected with the unknown-data-format error; when it holds zero
bytes the frame is rejected with the checksum-mismatch error. -/
theorem C3_pd0_offset_table_position :
    peek16 pd0ScenarioPayload ((rdi false).sizeofPD0Header + 2 * 0) = some 6
      ∧ (peek16 pd0ScenarioPayload 6).map (classify (rdi false)) = some (some .fixedLeader)
      ∧ offsetAt pd0ScenarioPayload (rdi false).sizeofPD0Header 0 = some 10
      ∧ (readMessage (rdi false) (Env.holding [30, 0, 0, 1]) (Dev.ofStream pd0ScenarioFrame)).1
          = .throws .unknownDataFormat
      ∧ (readMessage (rdi false) Env.zero (Dev.ofStream pd0ScenarioFrame)).1
          = .throws .checksumMismatch := by
  refine ⟨by decide, by decide, by decide, by decide, by decide⟩

/-- C4 (code at the failing inputs): in the PD5 case the checksum is accumulated over
`sizeof(PD4_Data)` = 43 payload bytes.  The PD5 frame whose trailing checksum is `crc16`
of the identifier and all 84 payload bytes is rejected, and the frame whose trailing
checksum differs from that value (it leaves out the last payload byte) is accepted. -/
theorem C4_pd5_checksum_over_pd4_size :
    le16 [0x7F, 0x00] = crc16 false (crc16 false 0 [0x7D, 0x01]) (List.replicate 83 0 ++ [0x01])
      ∧ (readMessage (rdi false) Env.zero (Dev.ofStream pd5TailFrame)).1
          = .throws .checksumMismatch
      ∧ le16 [0x7E, 0x00] ≠ crc16 false (crc16 false 0 [0x7D, 0x01]) (List.replicate 83 0 ++ [0x01])
      ∧ (readMessage (rdi false) Env.zero (Dev.ofStream pd5ShortSumFrame)).1
          = .ok { format := .PD5,
                  payload := { size := 0, store := List.replicate 83 0 ++ [0x01] },
                  pd5_data := some 0 } := by
  refine ⟨by decide, by decide, by decide, by rfl⟩

/-- C5: if `readMessage` accepts a PD4 frame, then the frame in which exactly one payload
byte is replaced by a different value, the identifier and the trailing checksum being
unchanged, is rejected with the checksum-mismatch error. -/
theorem C5_pd4_single_byte_corruption (D : Decl) (E : Env) (d d1 : Dev)
    (id0 id1 c0 c1 : Byte) (payload tail : List Byte) (i : Nat) (b : Byte)
    (hD : D.WF) (ho : isOpen d = true) (ho1 : isOpen d1 = true)
    (hid : le16 [id0, id1] = D.kPD4HeaderID) (hlen : payload.length = D.sizeofPD4Data)
    (hrx : avail d.rx = id0 :: id1 :: (payload ++ c0 :: c1 :: tail))
    (hacc : ∃ m, (readMessage D E d).1 = .ok m)
    (hi : i < payload.length) (hb : payload[i] ≠ b)
    (hrx1 : avail d1.rx = id0 :: id1 :: (payload.set i b ++ c0 :: c1 :: tail)) :
    (readMessage D E d1).1 = .throws .checksumMismatch := by
  obtain ⟨m, hm⟩ := hacc
  rw [readMessage_pd4 D E d id0 id1 c0 c1 payload tail hD ho hid hlen hrx] at hm
  have hc : crc16 D.charSigned (crc16 D.charSigned 0 [id0, id1]) payload = le16 [c0, c1] := by
    by_contra hne
    rw [if_neg hne] at hm
    cases hm
  rw [readMessage_pd4 D E d1 id0 id1 c0 c1 (payload.set i b) tail hD ho1 hid
    (by simpa using hlen) hrx1]
  have hne := crc16_set_ne D.charSigned payload (crc16 D.charSigned 0 [id0, id1]) i b
    (crc16_lt _ _ _ (by omega)) hi (by rw [List.getD_eq_getElem _ _ hi]; exact hb)
  rw [if_neg]
  rw [← hc]
  exact hne

/-- C5 at a concrete frame: the all-zero PD4 frame is accepted, and with its first payload
byte changed to 1 it is rejected with the checksum-mismatch error. -/
theorem C5_pd4_single_byte_corruption_witness :
    (readMessage (rdi false) Env.zero
        (Dev.ofStream ([0x7D, 0x00] ++ (List.replicate 43 (0 : Byte)).set 0 1 ++ [0x7D, 0x00]))).1
      = .throws .checksumMismatch :=
  C5_pd4_single_byte_corruption (rdi false) Env.zero (Dev.ofStream pd4ZeroFrame)
    (Dev.ofStream ([0x7D, 0x00] ++ (List.replicate 43 (0 : Byte)).set 0 1 ++ [0x7D, 0x00]))
    0x7D 0x00 0x7D 0x00 (List.replicate 43 0) [] 0 1
    (by decide) (by decide) (by decide) (by decide) (by decide) (by decide)
    ⟨_, by rfl⟩ (by decide) (by decide) (by decide)

/-- C6 (counterexample): two frames that pass the checksum.  For `pd0TwinFrame`,
`readMessage` returns the Message `pd0TwinMessage`; the walked offsets 12 and 14 both
locate a fixed-leader identifier, and the view for the fixed leader refers to position
14 + 2 only: the walked offset 12 does not leave it referring to 12 + 2.  For
`pd0PastFrame` the payload has 10 bytes and the walked offset is 10: it locates no
identifier of the frame, and `readMessage` reads the two bytes behind the payload
(the outcome `fault`: undefined behaviour), so the frame does not determine whether a
Message is returned. -/
theorem C6_counterexample_repeated_kind_or_past_payload :
    (readMessage (rdi false) (Env.holding [20, 0, 0, 2]) (Dev.ofStream pd0TwinFrame)).1
        = .ok pd0TwinMessage
      ∧ entry (rdi false) pd0TwinMessage.payload.store 4 0 = some (12, .fixedLeader)
      ∧ entry (rdi false) pd0TwinMessage.payload.store 4 1 = some (14, .fixedLeader)
      ∧ pd0TwinMessage.view .fixedLeader = some (14 + 2)
      ∧ pd0TwinMessage.view .fixedLeader ≠ some (12 + 2)
      ∧ pd0Block (rdi false) (Env.holding [14, 0, 0, 1]) (pd0PastFrame.drop 2)
          = [14, 0, 0, 1, 0, 0, 0, 0, 10, 0]
      ∧ offsetAt [14, 0, 0, 1, 0, 0, 0, 0, 10, 0] 4 0 = some 10
      ∧ located [14, 0, 0, 1, 0, 0, 0, 0, 10, 0] 4 0 = none
      ∧ (readMessage (rdi false) (Env.holding [14, 0, 0, 1]) (Dev.ofStream pd0PastFrame)).1
          = .fault := by
  refine ⟨by rfl, by decide, by decide, by decide, by decide, by decide, by decide, by decide,
    by decide⟩

/-- C6 (amended): for a PD0 frame that passes the checksum and whose walk stays inside the
payload (every table entry that the walk reaches, and the identifier at the offset it
holds, lie inside the block of `payload_bytes` bytes), `readMessage` returns a Message
exactly when every walked entry locates one of the thirteen known identifiers; on success
the view of a kind refers to position `o + 2` for the last walked offset `o` of that kind
(and is unassigned when no walked offset has that kind); and when some walked entry
locates an identifier that is not known, `readMessage` fails with the
unknown-data-format error. -/
theorem C6_pd0_walk_outcome (D : Decl) (E : Env) (d : Dev) (id0 id1 : Byte) (a : List Byte)
    (hD : D.WF) (ho : isOpen d = true) (hid : le16 [id0, id1] = D.kPD0HeaderID)
    (hrx : avail d.rx = id0 :: id1 :: a)
    (hhdr : D.sizeofPD0Header ≤ payloadBytes D (a.take D.sizeofPD0Header))
    (hlen : payloadBytes D (a.take D.sizeofPD0Header) + 2 ≤ a.length)
    (hcrc : crc16 D.charSigned (crc16 D.charSigned 0 [id0, id1]) (pd0Block D E a)
      = le16 ((a.drop (payloadBytes D (a.take D.sizeofPD0Header))).take 2))
    (hstay : ∀ i, i < ((pd0Block D E a).getD D.offDataTypes 0).val →
      (∀ j, j < i → (entry D (pd0Block D E a) D.sizeofPD0Header j).isSome = true) →
      (located (pd0Block D E a) D.sizeofPD0Header i).isSome = true) :
    ((∃ m, (readMessage D E d).1 = .ok m)
        ↔ ∀ i, i < ((pd0Block D E a).getD D.offDataTypes 0).val →
            (entry D (pd0Block D E a) D.sizeofPD0Header i).isSome = true)
      ∧ (∀ m, (readMessage D E d).1 = .ok m →
          m.format = .PD0 ∧ m.payload.store = pd0Block D E a ∧
          ∀ k : Kind,
            (∀ i o, i < ((pd0Block D E a).getD D.offDataTypes 0).val →
              entry D (pd0Block D E a) D.sizeofPD0Header i = some (o, k) →
              (∀ j o1, i < j → j < ((pd0Block D E a).getD D.offDataTypes 0).val →
                entry D (pd0Block D E a) D.sizeofPD0Header j ≠ some (o1, k)) →
              m.view k = some (o + 2))
            ∧ ((∀ i o, i < ((pd0Block D E a).getD D.offDataTypes 0).val →
                entry D (pd0Block D E a) D.sizeofPD0Header i ≠ some (o, k)) →
              m.view k = none))
      ∧ ((∃ i, i < ((pd0Block D E a).getD D.offDataTypes 0).val ∧
            entry D (pd0Block D E a) D.sizeofPD0Header i = none) →
          (readMessage D E d).1 = .throws .unknownDataFormat) := by
  have hrm := readMessage_pd0 D E d id0 id1 a hD ho hid hrx
  rw [if_neg (by omega), if_neg (by omega), if_neg (by omega), if_neg (by omega), if_pos hcrc] at hrm
  rw [hrm]
  refine ⟨?_, ?_, ?_⟩
  · have := walk_ok_iff D (pd0Block D E a) D.sizeofPD0Header
      ((pd0Block D E a).getD D.offDataTypes 0).val 0
      { format := .PD0, payload := { size := 0, store := pd0Block D E a }, pd0_header := some 0 }
    simpa using this
  · intro m hm
    obtain ⟨f1, f2, f3⟩ := walk_views D _ _ _ _ _ m hm
    refine ⟨f1, by rw [f2], fun k => ⟨?_, ?_⟩⟩
    · intro i o hi he hlast
      refine (f3 k).1 i o hi (by simpa using he) ?_
      intro j o1 h1 h2
      simpa using hlast j o1 h1 h2
    · intro hnone
      rw [(f3 k).2]
      · cases k <;> rfl
      · intro j o hj
        simpa using hnone j o hj
  · intro hbad
    refine walk_stays_unknown D _ _ _ 0 _ ?_ ?_
    · intro j hj hpre
      simpa using hstay j hj (fun j1 h1 => by simpa using hpre j1 h1)
    · obtain ⟨i, hi, he⟩ := hbad
      exact ⟨i, hi, by simpa using he⟩

/-- C6 (amended) at the frame `pd0TwinFrame`: it passes the checksum, its walk stays
inside the payload, and `readMessage` returns a Message exactly when each of its two
walked entries locates a known identifier. -/
theorem C6_pd0_walk_outcome_witness :
    (∃ m, (readMessage (rdi false) (Env.holding [20, 0, 0, 2]) (Dev.ofStream pd0TwinFrame)).1
        = .ok m)
      ↔ ∀ i, i < ((pd0Block (rdi false) (Env.holding [20, 0, 0, 2])
            (pd0TwinPayload ++ [0x2E, 0x01])).getD (rdi false).offDataTypes 0).val →
          (entry (rdi false) (pd0Block (rdi false) (Env.holding [20, 0, 0, 2])
            (pd0TwinPayload ++ [0x2E, 0x01])) (rdi false).sizeofPD0Header i).isSome = true :=
  (C6_pd0_walk_outcome (rdi false) (Env.holding [20, 0, 0, 2]) (Dev.ofStream pd0TwinFrame)
    0x7F 0x7F (pd0TwinPayload ++ [0x2E, 0x01])
    (by decide) (by decide) (by decide) (by decide) (by decide) (by decide) (by decide)
    (by decide)).1

/-- C8 (counterexample): the header of `pd0WrapFrame` declares an ensemble byte count of
3, below 4.  `readMessage` does not reject it: it takes `payload_bytes` = 65535, reads
that many bytes and returns a PD0 Message with a block of 65535 bytes. -/
theorem C8_counterexample_wrapped_count_accepted :
    ensembleBytes (rdi false) (pd0WrapTail.take (rdi false).sizeofPD0Header) = 3
      ∧ (readMessage (rdi false) (Env.holding [3, 0, 0, 0]) (Dev.ofStream pd0WrapFrame)).1
        = .ok { format := .PD0,
                payload := { size := 0, store := [3, 0, 0, 0] ++ List.replicate 65531 0 },
                pd0_header := some 0 } := by
  have hs : (rdi false).sizeofPD0Header = 4 := rfl
  have ht : pd0WrapTail.take (rdi false).sizeofPD0Header = [3, 0, 0, 0] := rfl
  have hpb : payloadBytes (rdi false) [3, 0, 0, 0] = 65535 := by decide
  have hlen : pd0WrapTail.length = 65537 := by
    rw [pd0WrapTail, List.length_append, List.length_append, List.length_replicate]
    simp only [List.length_cons, List.length_nil]
  have hd4 : List.drop 4 pd0WrapTail = List.replicate 65531 0 ++ [0x01, 0x01] := rfl
  have hfresh : List.map ((Env.holding [3, 0, 0, 0]).fresh 1) (List.range 4) = [3, 0, 0, 0] := by
    decide
  have hblk : pd0Block (rdi false) (Env.holding [3, 0, 0, 0]) pd0WrapTail
      = [3, 0, 0, 0] ++ List.replicate 65531 0 := by
    unfold pd0Block
    rw [ht, hpb, hs, if_pos (by omega), hd4, hfresh]
    rw [List.take_left' (by rw [List.length_replicate])]
  have hdrop : List.drop 65535 pd0WrapTail = [0x01, 0x01] := by
    have e : pd0WrapTail = ([3, 0, 0, 0] ++ List.replicate 65531 0) ++ [0x01, 0x01] :=
      (List.append_assoc _ _ _).symm
    rw [e]
    exact List.drop_left' (by
      rw [List.length_append, List.length_replicate]
      simp only [List.length_cons, List.length_nil])
  have hcrc : crc16 false (crc16 false 0 [0x7F, 0x7F]) ([3, 0, 0, 0] ++ List.replicate 65531 0)
      = 257 := by
    rw [crc16_append, crc16_replicate_zero]
    · decide
    · decide
  refine ⟨by rw [ht]; decide, ?_⟩
  have hrm := readMessage_pd0 (rdi false) (Env.holding [3, 0, 0, 0]) (Dev.ofStream pd0WrapFrame)
    0x7F 0x7F pd0WrapTail (by decide) (by rfl) (by decide) (avail_ofStream _)
  rw [ht, hpb, hlen, hblk, hdrop] at hrm
  have hcs : (rdi false).charSigned = false := rfl
  rw [hcs, hcrc, hs, if_neg (by omega), if_neg (by omega), if_neg (by omega), if_neg (by omega),
    if_pos (by decide)] at hrm
  rw [hrm]
  rfl

/-- C8 (amended): for a PD0 header whose ensemble byte count `c` is smaller than 4,
`payload_bytes` is the wrapped-around value `c + 65532`, and `readMessage` goes on with
it: it fails with the unable-to-read-payload error when the line delivers fewer than
`c + 65532` bytes after the identifier (or the header is larger than that), and
otherwise reads the trailing checksum, compares it and walks a block of `c + 65532`
bytes. -/
theorem C8_pd0_wrapped_payload_bytes (D : Decl) (E : Env) (d : Dev) (id0 id1 : Byte)
    (a : List Byte)
    (hD : D.WF) (ho : isOpen d = true) (hid : le16 [id0, id1] = D.kPD0HeaderID)
    (hrx : avail d.rx = id0 :: id1 :: a)
    (hhdr : D.sizeofPD0Header ≤ a.length)
    (hsmall : ensembleBytes D (a.take D.sizeofPD0Header) < 4) :
    payloadBytes D (a.take D.sizeofPD0Header) = ensembleBytes D (a.take D.sizeofPD0Header) + 65532
      ∧ (readMessage D E d).1
        = (if ensembleBytes D (a.take D.sizeofPD0Header) + 65532 < D.sizeofPD0Header then
            .throws .unablePayload
          else if a.length < ensembleBytes D (a.take D.sizeofPD0Header) + 65532 then
            .throws .unablePayload
          else if a.length < ensembleBytes D (a.take D.sizeofPD0Header) + 65532 + 2 then
            .throws .unableChecksum
          else if crc16 D.charSigned (crc16 D.charSigned 0 [id0, id1]) (pd0Block D E a)
              = le16 ((a.drop (ensembleBytes D (a.take D.sizeofPD0Header) + 65532)).take 2) then
            walk D (pd0Block D E a) D.sizeofPD0Header
              ((pd0Block D E a).getD D.offDataTypes 0).val 0
              { format := .PD0, payload := { size := 0, store := pd0Block D E a },
                pd0_header := some 0 }
          else .throws .checksumMismatch) := by
  have hw := payloadBytes_wrap D _ hsmall
  have hrm := readMessage_pd0 D E d id0 id1 a hD ho hid hrx
  rw [if_neg (by omega)] at hrm
  rw [hw] at hrm
  exact ⟨hw, hrm⟩

/-- C8 (amended) at the stream `7F 7F 03 00 00 00`: the header declares an ensemble byte
count of 3, `payload_bytes` is 65535, and `readMessage` fails because the line does not
deliver that many bytes. -/
theorem C8_pd0_wrapped_payload_bytes_witness :
    payloadBytes (rdi false) (([3, 0, 0, 0] : List Byte).take (rdi false).sizeofPD0Header)
        = ensembleBytes (rdi false) (([3, 0, 0, 0] : List Byte).take (rdi false).sizeofPD0Header)
          + 65532
      ∧ (readMessage (rdi false) Env.zero (Dev.ofStream [0x7F, 0x7F, 3, 0, 0, 0])).1
        = .throws .unablePayload :=
  ⟨(C8_pd0_wrapped_payload_bytes (rdi false) Env.zero (Dev.ofStream [0x7F, 0x7F, 3, 0, 0, 0])
      0x7F 0x7F [3, 0, 0, 0]
      (by decide) (by decide) (by decide) (by decide) (by decide) (by decide)).1,
   (C8_pd0_wrapped_payload_bytes (rdi false) Env.zero (Dev.ofStream [0x7F, 0x7F, 3, 0, 0, 0])
      0x7F 0x7F [3, 0, 0, 0]
      (by decide) (by decide) (by decide) (by decide) (by decide) (by decide)).2⟩

/-- C9 (code at the failing inputs): the two bytes already read as the identifier are not
put into the payload and are not examined for the prompt.  On the stream `A B C >` the
payload of the TEXT Message is `C > NUL`, not `A B C > NUL`; on the stream `A >`, of
length 2 and ending in the prompt, `readMessage` goes on reading and fails. -/
theorem C9_text_payload_omits_first_two_bytes :
    (readMessage (rdi false) Env.zero (Dev.ofStream [0x41, 0x42, 0x43, 0x3E])).1
        = .ok { format := .TEXT, payload := { size := 3, store := [0x43, 0x3E, 0] },
                text := some 0 }
      ∧ (readMessage (rdi false) Env.zero (Dev.ofStream [0x41, 0x3E])).1
        = .throws .unableText := by
  refine ⟨by rfl, by decide⟩

/-- C10: on an open device, whenever the line stops delivering bytes before the frame
being decoded is complete, `readMessage` throws and returns no Message, whatever bytes
were delivered: inside the identifier (fewer than 2 bytes) it throws the
unable-to-read-beginning error; for a PD0 identifier, inside the header the
unable-to-read-header error, inside the `payload_bytes` bytes of the payload the
unable-to-read-payload error, inside the trailing checksum the unable-to-read-checksum
error; for a PD4 or PD5 identifier, inside the payload the unable-to-read-payload error
and inside the trailing checksum the unable-to-read-checksum error; for any other
identifier, when no `>` follows, the unable-to-read-text-character error. -/
theorem C10_truncated_stream_fails (D : Decl) (E : Env) (d : Dev) (hD : D.WF)
    (ho : isOpen d = true) :
    ((avail d.rx).length < 2 → (readMessage D E d).1 = .throws .unableBeginning)
      ∧ (2 ≤ (avail d.rx).length → le16 ((avail d.rx).take 2) = D.kPD0HeaderID →
          (((avail d.rx).drop 2).length < D.sizeofPD0Header →
            (readMessage D E d).1 = .throws .unableHeader)
          ∧ (D.sizeofPD0Header ≤ ((avail d.rx).drop 2).length →
              ((avail d.rx).drop 2).length
                < payloadBytes D (((avail d.rx).drop 2).take D.sizeofPD0Header) →
              (readMessage D E d).1 = .throws .unablePayload)
          ∧ (D.sizeofPD0Header ≤ payloadBytes D (((avail d.rx).drop 2).take D.sizeofPD0Header) →
              payloadBytes D (((avail d.rx).drop 2).take D.sizeofPD0Header)
                ≤ ((avail d.rx).drop 2).length →
              ((avail d.rx).drop 2).length
                < payloadBytes D (((avail d.rx).drop 2).take D.sizeofPD0Header) + 2 →
              (readMessage D E d).1 = .throws .unableChecksum))
      ∧ (2 ≤ (avail d.rx).length → le16 ((avail d.rx).take 2) = D.kPD4HeaderID →
          (((avail d.rx).drop 2).length < D.sizeofPD4Data →
            (readMessage D E d).1 = .throws .unablePayload)
          ∧ (D.sizeofPD4Data ≤ ((avail d.rx).drop 2).length →
              ((avail d.rx).drop 2).length < D.sizeofPD4Data + 2 →
              (readMessage D E d).1 = .throws .unableChecksum))
      ∧ (2 ≤ (avail d.rx).length → le16 ((avail d.rx).take 2) = D.kPD5HeaderID →
          (((avail d.rx).drop 2).length < D.sizeofPD5Data →
            (readMessage D E d).1 = .throws .unablePayload)
          ∧ (D.sizeofPD4Data ≤ D.sizeofPD5Data →
              D.sizeofPD5Data ≤ ((avail d.rx).drop 2).length →
              ((avail d.rx).drop 2).length < D.sizeofPD5Data + 2 →
              (readMessage D E d).1 = .throws .unableChecksum))
      ∧ (2 ≤ (avail d.rx).length → le16 ((avail d.rx).take 2) ≠ D.kPD0HeaderID →
          le16 ((avail d.rx).take 2) ≠ D.kPD4HeaderID →
          le16 ((avail d.rx).take 2) ≠ D.kPD5HeaderID →
          (62 : Byte) ∉ (avail d.rx).drop 2 →
          (readMessage D E d).1 = .throws .unableText) := by
  have h40 := Decl.WF.pd4_ne_pd0 hD
  have h50 := Decl.WF.pd5_ne_pd0 hD
  have h54 := Decl.WF.pd5_ne_pd4 hD
  refine ⟨fun h => readMessage_short D E d ho h, fun h2 hid => ?_, fun h2 hid => ?_,
    fun h2 hid => ?_, fun h2 n0 n4 n5 hgt => ?_⟩
  · obtain ⟨e1, e2, e3, -⟩ := readMessage_dispatch D E d ho h2
    obtain ⟨f1, -⟩ := readPD0_stream D E (crc16 D.charSigned 0 ((avail d.rx).take 2)) _ hD e2
    rw [e1, if_pos hid, f1, e3]
    refine ⟨fun h => ?_, fun h1 h3 => ?_, fun h1 h3 h4 => ?_⟩
    · rw [if_pos h]
    · rw [if_neg (by omega)]
      by_cases hp : payloadBytes D (((avail d.rx).drop 2).take D.sizeofPD0Header)
          < D.sizeofPD0Header
      · rw [if_pos hp]
      · rw [if_neg hp, if_pos h3]
    · rw [if_neg (by omega), if_neg (by omega), if_neg (by omega), if_pos h4]
  · obtain ⟨e1, e2, e3, -⟩ := readMessage_dispatch D E d ho h2
    obtain ⟨f1, -⟩ := readPD4_stream D E (crc16 D.charSigned 0 ((avail d.rx).take 2)) _ e2
    have n0 : le16 ((avail d.rx).take 2) ≠ D.kPD0HeaderID := by rw [hid]; exact h40
    rw [e1, if_neg n0, if_pos hid, f1, e3]
    refine ⟨fun h => ?_, fun h1 h3 => ?_⟩
    · rw [if_pos h]
    · rw [if_neg (by omega), if_pos h3]
  · obtain ⟨e1, e2, e3, -⟩ := readMessage_dispatch D E d ho h2
    obtain ⟨f1, -⟩ := readPD5_stream D E (crc16 D.charSigned 0 ((avail d.rx).take 2)) _ e2
    have n0 : le16 ((avail d.rx).take 2) ≠ D.kPD0HeaderID := by rw [hid]; exact h50
    have n4 : le16 ((avail d.rx).take 2) ≠ D.kPD4HeaderID := by rw [hid]; exact h54
    rw [e1, if_neg n0, if_neg n4, if_pos hid, f1, e3]
    refine ⟨fun h => ?_, fun h45 h1 h3 => ?_⟩
    · rw [if_pos h]
    · rw [if_neg (by omega), if_neg (by omega), if_pos h3]
  · obtain ⟨e1, e2, e3, -⟩ := readMessage_dispatch D E d ho h2
    obtain ⟨f1, -⟩ := readText_stream (readRaw d 2).2 e2
    rw [e1, if_neg n0, if_neg n4, if_neg n5, f1, e3, if_neg hgt]

/-- C10 at a stream that no accepted frame extends: a PD4 identifier, 43 zero payload
bytes and the byte `00`, after which the line stops (the checksum of such a frame starts
with `7D`); `readMessage` throws the unable-to-read-checksum error. -/
theorem C10_truncated_stream_fails_witness :
    (readMessage (rdi false) Env.zero
        (Dev.ofStream ([0x7D, 0x00] ++ List.replicate 43 0 ++ [0x00]))).1
      = .throws .unableChecksum :=
  ((C10_truncated_stream_fails (rdi false) Env.zero
      (Dev.ofStream ([0x7D, 0x00] ++ List.replicate 43 0 ++ [0x00])) (by decide)
      (by decide)).2.2.1 (by decide) (by decide)).2 (by decide) (by decide)

/-- C11 (code at the failing input): the line delivers the PD0 frame `pd0TwinFrame`
followed by the PD0 frame `pd0SwapFrame`, whose header is `14 00 02 00`.  The first
`readMessage` returns `pd0TwinMessage` and leaves exactly the second frame.  In the second
call the block that the second `reserve` allocates holds the bytes `14 00 00 02`, the
header of the first frame: `readMessage` never stores the header of the second frame
there, takes the checksum and the number of data types from those bytes, and returns a
Message whose payload starts with `14 00 00 02` and that equals the Message of the first
frame.  On `pd0SwapFrame` alone, `readMessage` returns another Message when the new block
holds `14 00 02 00`, and throws the checksum-mismatch error when it holds zero bytes. -/
theorem C11_second_message_holds_stale_header :
    (readMessage (rdi false) (Env.holding [20, 0, 0, 2])
        (Dev.ofStream (pd0TwinFrame ++ pd0SwapFrame))).1 = .ok pd0TwinMessage
      ∧ avail (readMessage (rdi false) (Env.holding [20, 0, 0, 2])
          (Dev.ofStream (pd0TwinFrame ++ pd0SwapFrame))).2.rx = pd0SwapFrame
      ∧ (readMessage (rdi false) (Env.holding [20, 0, 0, 2])
          (readMessage (rdi false) (Env.holding [20, 0, 0, 2])
            (Dev.ofStream (pd0TwinFrame ++ pd0SwapFrame))).2).1 = .ok pd0TwinMessage
      ∧ pd0TwinMessage.payload.store.take 4 = [20, 0, 0, 2]
      ∧ (pd0SwapFrame.drop 2).take 4 = [20, 0, 2, 0]
      ∧ (readMessage (rdi false) (Env.holding [20, 0, 2, 0]) (Dev.ofStream pd0SwapFrame)).1
          = .ok { format := .PD0,
                  payload := { size := 0,
                               store := [20, 0, 2, 0, 0, 0, 0, 0, 12, 0, 14, 0, 0, 0, 0, 0] },
                  pd0_header := some 0 }
      ∧ (readMessage (rdi false) Env.zero (Dev.ofStream pd0SwapFrame)).1
          = .throws .checksumMismatch := by
  refine ⟨by decide, by decide, by decide, by decide, by decide, by decide, by decide⟩

/-- C12: for every count `n > 0` on an open device, `readRaw(n)` returns `n` minus the
number of bytes that the line delivered to it, which are the bytes of the stream up to
the first wait that times out (or fails) or read that delivers nothing, at most `n` of
them: the result lies between 0 and `n`, it is 0 exactly when `n` bytes arrived, and the
destination starts with the delivered bytes in arrival order. -/
theorem C12_readRaw_missing_count (d : Dev) (n : Nat) (ho : isOpen d = true) (hn : 0 < n) :
    (readRaw d (n : Int)).1
        = .ok ((n : Int) - (((avail d.rx).take n).length : Int), (avail d.rx).take n)
      ∧ 0 ≤ (n : Int) - (((avail d.rx).take n).length : Int)
      ∧ (n : Int) - (((avail d.rx).take n).length : Int) ≤ n
      ∧ ((n : Int) - (((avail d.rx).take n).length : Int) = 0 ↔ n ≤ (avail d.rx).length) := by
  have h := readRaw_stream d n ho
  rw [List.length_take]
  refine ⟨h, by omega, by omega, by omega⟩

/-- C12 at the example: when the line delivers 3 bytes and the next wait times out,
`readRaw(10)` returns 7 and the destination starts with the 3 bytes. -/
theorem C12_readRaw_missing_count_witness :
    (readRaw (Dev.ofLine [.data [0x11, 0x22, 0x33], .timeout] []) 10).1
      = .ok (7, [0x11, 0x22, 0x33]) :=
  (C12_readRaw_missing_count (Dev.ofLine [.data [0x11, 0x22, 0x33], .timeout] []) 10
    (by decide) (by decide)).1

/-- C13: when the formatted text `s` of a command is shorter than 1023 bytes, the device
is open and the line takes every byte offered (at least the bytes of `s` and one more),
`writeCommand` returns normally and the line has received exactly the bytes of `s`
followed by one carriage return `0x0D`. -/
theorem C13_writeCommand_sends_text_and_cr (cmd : Command) (args : List Arg) (s : List Char)
    (d : Dev) (hf : formatText cmd.format.toList args = some s) (hs : s.length < 1023)
    (ho : isOpen d = true) (hroom : s.length + 1 ≤ roomOf d.tx) :
    (writeCommand cmd args d).1 = .ok ()
      ∧ (writeCommand cmd args d).2.wire = d.wire ++ s.map charByte ++ [0x0D] := by
  unfold writeCommand
  rw [hf]
  exact sendText_ok (s.map charByte) d ho (by rw [List.length_map]; exact hs)
    (by rw [List.length_map]; omega)

/-- C13 at the example: for the format `%s=%d` with the arguments `CE` and 7 the line
receives exactly the bytes of `CE=7` and a carriage return. -/
theorem C13_writeCommand_sends_text_and_cr_witness :
    (writeCommand cmdAssign [.str "CE", .int 7] (Dev.ofLine [] [.accept 64])).1 = .ok ()
      ∧ (writeCommand cmdAssign [.str "CE", .int 7] (Dev.ofLine [] [.accept 64])).2.wire
        = [0x43, 0x45, 0x3D, 0x37, 0x0D] :=
  C13_writeCommand_sends_text_and_cr cmdAssign [.str "CE", .int 7] ['C', 'E', '=', '7']
    (Dev.ofLine [] [.accept 64]) (by decide) (by decide) (by decide) (by decide)

/-- C14 (code at the failing input): for the command whose formatted text is 1024 times
the letter `A`, longer than the buffer can hold, `writeCommand` on a line that takes every
byte does not throw: it returns normally after the line received the first 1023 letters,
the terminating NUL of the buffer and a carriage return. -/
theorem C14_long_text_sent_truncated :
    formatText cmdLong.format.toList [] = some (List.replicate 1024 'A')
      ∧ (writeCommand cmdLong [] (Dev.ofLine [] [.accept 2000])).1 = .ok ()
      ∧ (writeCommand cmdLong [] (Dev.ofLine [] [.accept 2000])).2.wire
        = List.replicate 1023 0x41 ++ [0x00, 0x0D] := by
  have hf : formatText cmdLong.format.toList [] = some (List.replicate 1024 'A') := by
    apply formatText_plain
    intro c hc
    have : c = 'A' := List.eq_of_mem_replicate hc
    rw [this]
    decide
  have hm : (List.replicate 1024 'A').map charByte = List.replicate 1024 (0x41 : Byte) := by
    rw [List.map_replicate]
    rfl
  have h := sendText_1024 (List.replicate 1024 (0x41 : Byte)) (Dev.ofLine [] [.accept 2000])
    (by decide) (by rw [List.length_replicate]) (by decide)
  rw [List.take_replicate, show min 1023 1024 = 1023 from rfl] at h
  have hw : writeCommand cmdLong [] (Dev.ofLine [] [.accept 2000])
      = sendText (List.replicate 1024 (0x41 : Byte)) (Dev.ofLine [] [.accept 2000]) := by
    unfold writeCommand
    rw [hf]
    show sendText (List.map charByte (List.replicate 1024 'A')) _ = _
    rw [hm]
  rw [hw]
  exact ⟨hf, h.1, h.2⟩

/-- C15 (counterexample): for the format `%s=%d` with the arguments `CE` and 7, on a line
that takes two bytes and then stays busy until the wait times out, `writeCommand` fails
with the unable-to-send-message error after the line has received the bytes of `CE`. -/
theorem C15_counterexample_partial_write :
    (writeCommand cmdAssign [.str "CE", .int 7] (Dev.ofLine [] [.accept 2, .timeout])).1
        = .throws .unableSend
      ∧ (Dev.ofLine [] [.accept 2, .timeout]).wire = []
      ∧ (writeCommand cmdAssign [.str "CE", .int 7] (Dev.ofLine [] [.accept 2, .timeout])).2.wire
        = [0x43, 0x45] := by
  decide

/-- C15 (amended): on an open device, for a command whose formatted text `s` has at most
1023 bytes: when `s` has 1023 bytes `writeCommand` fails with the write-buffer-overflow
error and nothing is written; when `s` is shorter and the line takes fewer bytes than `s`
has, it fails with the unable-to-send-message error and the line has received that
proper prefix of `s`; when the line takes exactly the bytes of `s` and no more, it fails
with the unable-to-send-carriage-return error and the line has received all of `s`. -/
theorem C15_failed_command_output (cmd : Command) (args : List Arg) (s : List Char) (d : Dev)
    (hf : formatText cmd.format.toList args = some s) (ho : isOpen d = true) :
    (s.length = 1023 → writeCommand cmd args d = (.throws .writeOverflow, d))
      ∧ (s.length < 1023 → roomOf d.tx < s.length →
          (writeCommand cmd args d).1 = .throws .unableSend
          ∧ (writeCommand cmd args d).2.wire = d.wire ++ (s.map charByte).take (roomOf d.tx))
      ∧ (s.length < 1023 → roomOf d.tx = s.length →
          (writeCommand cmd args d).1 = .throws .unableCR
          ∧ (writeCommand cmd args d).2.wire = d.wire ++ s.map charByte) := by
  have hw : writeCommand cmd args d = sendText (s.map charByte) d := by
    unfold writeCommand
    rw [hf]
  rw [hw]
  refine ⟨fun h => ?_, fun h hr => ?_, fun h hr => ?_⟩
  · exact sendText_overflow _ d (by rw [List.length_map]; exact h)
  · obtain ⟨a1, a2⟩ := sendText_fail (s.map charByte) d ho (by rw [List.length_map]; exact h)
      (by rw [List.length_map]; omega)
    rw [List.length_map, if_pos hr] at a1
    exact ⟨a1, a2⟩
  · obtain ⟨a1, a2⟩ := sendText_fail (s.map charByte) d ho (by rw [List.length_map]; exact h)
      (by rw [List.length_map]; omega)
    rw [List.length_map, if_neg (by omega)] at a1
    refine ⟨a1, ?_⟩
    rw [a2, hr, ← List.length_map s charByte, List.take_length]

/-- C15 at a concrete line: for the format `%s=%d` with the arguments `CE` and 7, on a
line that takes four bytes and then stays busy, `writeCommand` fails with the
unable-to-send-carriage-return error after the line has received the bytes of `CE=7`. -/
theorem C15_failed_command_output_witness :
    (writeCommand cmdAssign [.str "CE", .int 7] (Dev.ofLine [] [.accept 4, .timeout])).1
        = .throws .unableCR
      ∧ (writeCommand cmdAssign [.str "CE", .int 7] (Dev.ofLine [] [.accept 4, .timeout])).2.wire
        = [0x43, 0x45, 0x3D, 0x37] :=
  (C15_failed_command_output cmdAssign [.str "CE", .int 7] ['C', 'E', '=', '7']
    (Dev.ofLine [] [.accept 4, .timeout]) (by decide) (by decide)).2.2 (by decide) (by decide)

/-- C16: when no device is open (`_deviceFD` is negative), for every count `readRaw` and
`writeRaw` throw the device-needs-to-be-open error, so does `readMessage`, and
`writeCommand` fails (with the write-buffer-overflow error when the formatted text has
1023 bytes, with the device-needs-to-be-open error otherwise); each of them leaves the
driver and the line as they were, without any wait, read or write. -/
theorem C16_closed_device_fails (D : Decl) (E : Env) (d : Dev) (n : Int) (blob : List Byte)
    (cmd : Command) (args : List Arg) (s : List Char)
    (hc : d.deviceFD < 0) (hf : formatText cmd.format.toList args = some s) :
    readRaw d n = (.throws .needsOpen, d)
      ∧ writeRaw d blob n = (.throws .needsOpen, d)
      ∧ readMessage D E d = (.throws .needsOpen, d)
      ∧ writeCommand cmd args d
          = (.throws (if s.length = 1023 then .writeOverflow else .needsOpen), d) := by
  have hcl : isOpen d = false := by
    unfold isOpen
    exact decide_eq_false (by omega)
  refine ⟨readRaw_closed d n hcl, writeRaw_closed d blob n hcl, readMessage_closed D E d hcl, ?_⟩
  have hw : writeCommand cmd args d = sendText (s.map charByte) d := by
    unfold writeCommand
    rw [hf]
  rw [hw]
  by_cases h : s.length = 1023
  · rw [if_pos h]
    exact sendText_overflow _ d (by rw [List.length_map]; exact h)
  · rw [if_neg h]
    exact sendText_closed _ d (by rw [List.length_map]; exact h) hcl

/-- C16 at a concrete driver: on the driver that was never opened, `readRaw(0)`,
`writeRaw` of two bytes, `readMessage` and the command `CE=7` all throw the
device-needs-to-be-open error and leave the driver and the line as they were. -/
theorem C16_closed_device_fails_witness :
    readRaw Dev.closed 0 = (.throws .needsOpen, Dev.closed)
      ∧ writeRaw Dev.closed [0x43, 0x45] 2 = (.throws .needsOpen, Dev.closed)
      ∧ readMessage (rdi false) Env.zero Dev.closed = (.throws .needsOpen, Dev.closed)
      ∧ writeCommand cmdAssign [.str "CE", .int 7] Dev.closed
          = (.throws .needsOpen, Dev.closed) :=
  C16_closed_device_fails (rdi false) Env.zero Dev.closed 0 [0x43, 0x45] cmdAssign
    [.str "CE", .int 7] ['C', 'E', '=', '7'] (by decide) (by decide)

/-- C17 (code): for every Message that `readMessage` returns with the format PD0, PD4 or
PD5, the payload vector has `size()` 0, because the bytes are stored behind `reserve`
without a `resize`; the decoded bytes (`payload_bytes` for PD0, the size of the structure
for PD4 and PD5) lie in the reserved block.  Only for TEXT, filled with `push_back`,
`size()` is the number of bytes stored: the text after the first two bytes up to `>`, the
`>` and the terminator. -/
theorem C17_binary_payload_size_zero (D : Decl) (E : Env) (d : Dev) (m : Message) (hD : D.WF)
    (hok : (readMessage D E d).1 = .ok m) :
    (m.format = .PD4 → m.payload.size = 0 ∧ m.payload.store.length = D.sizeofPD4Data)
      ∧ (m.format = .PD5 → m.payload.size = 0 ∧ m.payload.store.length = D.sizeofPD5Data)
      ∧ (m.format = .PD0 → m.payload.size = 0
          ∧ m.payload.store.length
              = payloadBytes D (((avail d.rx).drop 2).take D.sizeofPD0Header))
      ∧ (m.format = .TEXT → m.payload.size = m.payload.store.length
          ∧ m.payload.size = (((avail d.rx).drop 2).takeWhile (fun b => b != 62)).length + 2) :=
  readMessage_sizes D E d m hD hok

/-- C17 at the failing input: the Message returned for the all-zero PD4 frame has a
payload of `size()` 0, while 43 bytes were decoded into its block. -/
theorem C17_binary_payload_size_zero_witness :
    ∃ m, (readMessage (rdi false) Env.zero (Dev.ofStream pd4ZeroFrame)).1 = .ok m
      ∧ m.format = .PD4 ∧ m.payload.size = 0 ∧ m.payload.store.length = 43 :=
  ⟨{ format := .PD4, payload := { size := 0, store := List.replicate 43 0 },
     pd4_data := some 0 }, by rfl, rfl,
    (C17_binary_payload_size_zero (rdi false) Env.zero (Dev.ofStream pd4ZeroFrame)
      { format := .PD4, payload := { size := 0, store := List.replicate 43 0 },
        pd4_data := some 0 }
      (by decide) (by rfl)).1 rfl⟩

/-- C18 (counterexample): with 5 bytes asked for, `readRaw` returns the same result, 5
bytes missing and nothing stored, when the first wait times out, when it fails, and when
the `read` call fails; `writeRaw` returns the same result, 5 bytes unwritten, when the
first wait times out, when it fails, and when the `write` call fails. -/
theorem C18_counterexample_same_result :
    (readRaw (Dev.ofLine [.timeout] []) 5).1 = .ok (5, [])
      ∧ (readRaw (Dev.ofLine [.waitError] []) 5).1 = .ok (5, [])
      ∧ (readRaw (Dev.ofLine [.readError] []) 5).1 = .ok (5, [])
      ∧ (writeRaw (Dev.ofLine [] [.timeout]) [1, 2, 3, 4, 5] 5).1 = .ok 5
      ∧ (writeRaw (Dev.ofLine [] [.waitError]) [1, 2, 3, 4, 5] 5).1 = .ok 5
      ∧ (writeRaw (Dev.ofLine [] [.writeError]) [1, 2, 3, 4, 5] 5).1 = .ok 5 := by
  decide

/-- C18 (amended): the result of `readRaw` and of `writeRaw` is the number of bytes still
missing, whatever stopped the transfer.  For every count `n > 0` on an open device, after
the same events `pre` on the line, the result when the next wait times out equals the
result when that wait reports an error and the result when the `read` (or `write`) call
reports an error; for `readRaw` the bytes stored are the same too. -/
theorem C18_timeout_and_error_same_result (d : Dev) (n : Nat) (blob : List Byte)
    (pre r1 r2 r3 : List Event) (wpre w1 w2 w3 : List WEvent)
    (ho : isOpen d = true) (hn : 0 < n) (hb : n ≤ blob.length) :
    (readRaw { d with rx := pre ++ .timeout :: r1 } (n : Int)).1
        = (readRaw { d with rx := pre ++ .waitError :: r2 } (n : Int)).1
      ∧ (readRaw { d with rx := pre ++ .timeout :: r1 } (n : Int)).1
        = (readRaw { d with rx := pre ++ .readError :: r3 } (n : Int)).1
      ∧ (writeRaw { d with tx := wpre ++ .timeout :: w1 } blob (n : Int)).1
        = (writeRaw { d with tx := wpre ++ .waitError :: w2 } blob (n : Int)).1
      ∧ (writeRaw { d with tx := wpre ++ .timeout :: w1 } blob (n : Int)).1
        = (writeRaw { d with tx := wpre ++ .writeError :: w3 } blob (n : Int)).1 := by
  have hr : ∀ rx : List Event, isOpen { d with rx := rx } = true := fun _ => ho
  have hw : ∀ tx : List WEvent, isOpen { d with tx := tx } = true := fun _ => ho
  have e1 := readRaw_stream { d with rx := pre ++ .timeout :: r1 } n (hr _)
  have e2 := readRaw_stream { d with rx := pre ++ .waitError :: r2 } n (hr _)
  have e3 := readRaw_stream { d with rx := pre ++ .readError :: r3 } n (hr _)
  have g1 := (writeRaw_spec { d with tx := wpre ++ .timeout :: w1 } blob n (hw _) hn hb).1
  have g2 := (writeRaw_spec { d with tx := wpre ++ .waitError :: w2 } blob n (hw _) hn hb).1
  have g3 := (writeRaw_spec { d with tx := wpre ++ .writeError :: w3 } blob n (hw _) hn hb).1
  have a1 : avail (pre ++ .timeout :: r1) = avail pre :=
    avail_append_stop pre r1 .timeout (by intro c h; cases h)
  have a2 : avail (pre ++ .waitError :: r2) = avail pre :=
    avail_append_stop pre r2 .waitError (by intro c h; cases h)
  have a3 : avail (pre ++ .readError :: r3) = avail pre :=
    avail_append_stop pre r3 .readError (by intro c h; cases h)
  have b1 : roomOf (wpre ++ .timeout :: w1) = roomOf wpre :=
    roomOf_append_stop wpre w1 .timeout (by intro c h; cases h)
  have b2 : roomOf (wpre ++ .waitError :: w2) = roomOf wpre :=
    roomOf_append_stop wpre w2 .waitError (by intro c h; cases h)
  have b3 : roomOf (wpre ++ .writeError :: w3) = roomOf wpre :=
    roomOf_append_stop wpre w3 .writeError (by intro c h; cases h)
  simp only [a1, a2, a3] at e1 e2 e3
  simp only [b1, b2, b3] at g1 g2 g3
  exact ⟨e1.trans e2.symm, e1.trans e3.symm, g1.trans g2.symm, g1.trans g3.symm⟩

/-- C18 at a concrete line: after one chunk of three bytes, `readRaw(10)` returns the
same result for a timeout as for a failing wait, and `writeRaw` of ten bytes returns the
same result for a timeout as for a failing wait after the line took three bytes. -/
theorem C18_timeout_and_error_same_result_witness :
    (readRaw (Dev.ofLine ([.data [1, 2, 3]] ++ .timeout :: []) []) 10).1
        = (readRaw (Dev.ofLine ([.data [1, 2, 3]] ++ .waitError :: []) []) 10).1
      ∧ (writeRaw (Dev.ofLine [] ([.accept 3] ++ .timeout :: [])) (List.replicate 10 0) 10).1
        = (writeRaw (Dev.ofLine [] ([.accept 3] ++ .waitError :: [])) (List.replicate 10 0) 10).1 :=
  have h := C18_timeout_and_error_same_result (Dev.ofLine [] []) 10 (List.replicate 10 0)
    [.data [1, 2, 3]] [] [] [] [.accept 3] [] [] [] (by decide) (by decide) (by decide)
  ⟨h.1, h.2.2.1⟩

/-- C19: the checksum can be accumulated piecewise, whichever signedness plain `char`
has: for every value `c` and byte sequences `a` and `b`, `crc16` over `b` seeded with
`crc16` of `c` over `a` equals `crc16` of `c` over `a ++ b`, and over no bytes it returns
the seed; in particular the sum seeded with the two identifier bytes and continued over
the payload is the sum over identifier ++ payload. -/
theorem C19_crc16_incremental (s : Bool) (c : Nat) (a b : List Byte) (id0 id1 : Byte) :
    crc16 s (crc16 s c a) b = crc16 s c (a ++ b)
      ∧ crc16 s c [] = c
      ∧ crc16 s (crc16 s 0 [id0, id1]) b = crc16 s 0 (id0 :: id1 :: b) :=
  ⟨(crc16_append s a b c).symm, rfl, (crc16_append s [id0, id1] b 0).symm⟩

/-- C20: on an open device the loops of `readRaw` and `writeRaw` end by their own exit
test.  For `n ≤ 0` the loop is not entered: no wait, read or write happens.  For `n > 0`
(and, for `writeRaw`, an object of at least `n` bytes) the system calls of the loop form
a trace in which every iteration waits once, a ready iteration asks for exactly the bytes
still missing and gets at most that many, and an iteration is followed by another one
only when it transferred at least one byte and bytes are still missing; there are at
most `n` wait cycles, and allowing the loop more than `n` iterations changes nothing. -/
theorem C20_transfer_loops_terminate (d : Dev) (n : Int) (blob : List Byte)
    (ho : isOpen d = true) (hb : n.toNat ≤ blob.length) :
    (n ≤ 0 → readRaw d n = (.ok (n, []), d) ∧ writeRaw d blob n = (.ok n, d))
      ∧ (0 < n →
          (∃ new, (readRaw d n).2.calls = d.calls ++ new
              ∧ loopTrace n new ∧ waits new ≤ n.toNat)
          ∧ (∃ new, (writeRaw d blob n).2.calls = d.calls ++ new
              ∧ loopTrace n new ∧ waits new ≤ n.toNat)
          ∧ (∀ fuel, n.toNat ≤ fuel →
              readLoop n fuel 0 [] d = readLoop n n.toNat 0 [] d
              ∧ writeLoop blob n fuel 0 d = writeLoop blob n n.toNat 0 d)) := by
  refine ⟨fun h => ⟨readRaw_nonpos d n ho h, writeRaw_nonpos d blob n ho h⟩, fun h => ?_⟩
  obtain ⟨N, rfl⟩ : ∃ N : Nat, n = (N : Int) := ⟨n.toNat, by omega⟩
  have hN : 0 < N := by omega
  rw [Int.toNat_ofNat] at hb ⊢
  refine ⟨readRaw_trace d N ho hN, ?_, fun fuel hf => ⟨?_, ?_⟩⟩
  · obtain ⟨-, -, -, -, -, a6⟩ := writeRaw_spec d blob N ho hN hb
    exact a6
  · have := (readLoop_trace d.rx d N 0 fuel [] rfl hN (by omega)).2
    simpa using this
  · have := (writeLoop_spec blob d.tx d N 0 fuel rfl hN hb (by omega)).2.2.2.2.2.2
    simpa using this

/-- C20 at a concrete line: the system calls of `readRaw(10)` on a line that delivers
three bytes and then times out form such a trace, with at most ten wait cycles. -/
theorem C20_transfer_loops_terminate_witness :
    ∃ new, (readRaw (Dev.ofLine [.data [1, 2, 3], .timeout] [.accept 4, .accept 9]) 10).2.calls
        = (Dev.ofLine [.data [1, 2, 3], .timeout] [.accept 4, .accept 9]).calls ++ new
      ∧ loopTrace 10 new ∧ waits new ≤ (10 : Int).toNat :=
  ((C20_transfer_loops_terminate (Dev.ofLine [.data [1, 2, 3], .timeout] [.accept 4, .accept 9])
    10 (List.replicate 10 0) (by decide) (by decide)).2 (by decide)).1

end DVL

/-! ## Lemmas about the PID controller -/

namespace PIDController

theorem spinOnce_fixed {K : Type} [LinearOrderedField K] (msgs : List (Callback K)) :
    ∀ c : PIDController K,
      (c.spinOnce msgs).m_upper_limit = c.m_upper_limit
        ∧ (c.spinOnce msgs).m_lower_limit = c.m_lower_limit
        ∧ (c.spinOnce msgs).m_windup_limit = c.m_windup_limit
        ∧ (c.spinOnce msgs).m_unwind_angle = c.m_unwind_angle
        ∧ (c.spinOnce msgs).m_filter = c.m_filter
        ∧ (c.spinOnce msgs).m_prev_error = c.m_prev_error
        ∧ (c.spinOnce msgs).m_prev_time = c.m_prev_time := by
  induction msgs with
  | nil => intro c; exact ⟨rfl, rfl, rfl, rfl, rfl, rfl, rfl⟩
  | cons m msgs ih =>
    intro c
    cases m with
    | sensor data => exact ih (c.sensorCallback data)
    | config kp ki kd target => exact ih (c.configCallback kp ki kd target)

theorem limited_bounds {K : Type} [LinearOrderedField K] (upper lower x : K)
    (h : lower ≤ upper) : lower ≤ limited upper lower x ∧ limited upper lower x ≤ upper := by
  unfold limited
  split
  · exact ⟨h, le_refl _⟩
  · split
    · exact ⟨le_refl _, h⟩
    · constructor <;> linarith [not_lt.mp ‹¬ x > upper›, not_lt.mp ‹¬ x < lower›]

theorem unwound_upper {K : Type} [LinearOrderedField K] (PI e : K) (h : PI < e) :
    unwound PI e = 2 * PI - e := by
  unfold unwound
  rw [if_pos h]

theorem unwound_lower {K : Type} [LinearOrderedField K] (PI e : K) (hPI : 0 < PI)
    (h : e < -PI) : unwound PI e = 2 * PI + e := by
  unfold unwound
  rw [if_neg (by linarith), if_pos h]

theorem not_multiple {K : Type} [LinearOrderedField K] (PI e : K) (hPI : 0 < PI)
    (h1 : PI < e) (h2 : e < 2 * PI) (k : ℤ) : 2 * PI - e - e ≠ (k : K) * (2 * PI) := by
  intro h
  have he : e = (1 - (k : K)) * PI := by linarith
  rw [he] at h1 h2
  have hk : (k : K) < 0 := by
    by_contra hc
    have : 0 ≤ (k : K) := not_lt.mp hc
    nlinarith
  have hk1 : k ≤ -1 := by
    have : k < 0 := by exact_mod_cast hk
    omega
  have hk2 : (k : K) ≤ -1 := by exact_mod_cast hk1
  nlinarith

theorem update_error {K : Type} [LinearOrderedField K] (PI : K) (msgs : List (Callback K))
    (now1 now2 : K) (c : PIDController K) :
    (update PI msgs now1 now2 c).1.m_error
      = (if c.m_unwind_angle = true then
          unwound PI (if c.m_filter = true then
            ((c.spinOnce msgs).m_desired - (c.spinOnce msgs).m_current) / 2 + c.m_prev_error / 2
            else (c.spinOnce msgs).m_desired - (c.spinOnce msgs).m_current)
        else if c.m_filter = true then
          ((c.spinOnce msgs).m_desired - (c.spinOnce msgs).m_current) / 2 + c.m_prev_error / 2
        else (c.spinOnce msgs).m_desired - (c.spinOnce msgs).m_current) := by
  obtain ⟨-, -, -, h4, h5, h6, -⟩ := spinOnce_fixed msgs c
  simp only [update, h4, h5, h6]

end PIDController
/-! ## The claims about the PID controller -/

namespace PIDController

/-- C21 (code): with unwinding on and filtering off, let `e` be the raw error
`m_desired - m_current`.  For `-2*PI ≤ e < -PI` the error that `update` uses is
`e + 2*PI`, the equivalent angle, of magnitude below `PI`.  For `PI < e < 2*PI` it is
`2*PI - e`: its magnitude is below `PI`, but it is the negation of the equivalent angle
`e - 2*PI`, and it does not differ from `e` by an integer multiple of `2*PI`. -/
theorem C21_unwinding_negates_large_positive_error {K : Type} [LinearOrderedField K] (PI : K)
    (msgs : List (Callback K)) (now1 now2 : K) (c : PIDController K) (e : K)
    (hPI : 0 < PI) (hun : c.m_unwind_angle = true) (hf : c.m_filter = false)
    (he : (c.spinOnce msgs).m_desired - (c.spinOnce msgs).m_current = e) :
    (PI < e → e < 2 * PI →
        (update PI msgs now1 now2 c).1.m_error = 2 * PI - e
        ∧ |(update PI msgs now1 now2 c).1.m_error| < PI
        ∧ (update PI msgs now1 now2 c).1.m_error = -(e - 2 * PI)
        ∧ ∀ k : ℤ, (update PI msgs now1 now2 c).1.m_error - e ≠ (k : K) * (2 * PI))
      ∧ (e < -PI → -(2 * PI) ≤ e →
        (update PI msgs now1 now2 c).1.m_error = e + 2 * PI
        ∧ |(update PI msgs now1 now2 c).1.m_error| < PI) := by
  have herr : (update PI msgs now1 now2 c).1.m_error = unwound PI e := by
    rw [update_error, if_pos hun, hf, he]
    rfl
  rw [herr]
  refine ⟨fun h1 h2 => ?_, fun h1 h2 => ?_⟩
  · rw [unwound_upper PI e h1]
    refine ⟨rfl, ?_, by ring, fun k => not_multiple PI e hPI h1 h2 k⟩
    rw [abs_lt]
    constructor <;> linarith
  · rw [unwound_lower PI e hPI h1]
    refine ⟨by ring, ?_⟩
    rw [abs_lt]
    constructor <;> linarith

/-- C21 at the failing input: with `PI` the number π, the target 3π/2 and the measured
value 0, the error that `update` uses is π/2, not -π/2; it differs from the raw error by
-π, which is no integer multiple of 2π. -/
theorem C21_unwinding_negates_large_positive_error_witness :
    (update Real.pi [] 1 1 (angular (3 * Real.pi / 2))).1.m_error = Real.pi / 2
      ∧ ∀ k : ℤ, (update Real.pi [] 1 1 (angular (3 * Real.pi / 2))).1.m_error
          - 3 * Real.pi / 2 ≠ (k : ℝ) * (2 * Real.pi) :=
  have h := (C21_unwinding_negates_large_positive_error Real.pi [] 1 1
    (angular (3 * Real.pi / 2)) (3 * Real.pi / 2) Real.pi_pos rfl rfl
    (by simp [spinOnce, angular])).1
    (by linarith [Real.pi_pos]) (by linarith [Real.pi_pos])
  ⟨by rw [h.1]; ring, h.2.2.2⟩

/-- C22: after `update` with a non-zero time step, over exact arithmetic: when
`m_lower_limit ≤ m_upper_limit` the published command, which is the stored
`m_command_msg.data`, lies between `m_lower_limit` and `m_upper_limit`; when
`m_windup_limit ≥ 0` the stored `m_error_integral` lies between `-m_windup_limit` and
`m_windup_limit`; this holds for all gains, flags, previous values, messages delivered by
`ros::spinOnce` and measured values, and `update` leaves the three limits as they were. -/
theorem C22_command_and_integral_within_limits {K : Type} [LinearOrderedField K] (PI : K)
    (msgs : List (Callback K)) (now1 now2 : K) (c : PIDController K)
    (hdt : now1 - c.m_prev_time ≠ 0) :
    (c.m_lower_limit ≤ c.m_upper_limit →
        c.m_lower_limit ≤ (update PI msgs now1 now2 c).2
        ∧ (update PI msgs now1 now2 c).2 ≤ c.m_upper_limit
        ∧ (update PI msgs now1 now2 c).1.m_command_msg = (update PI msgs now1 now2 c).2)
      ∧ (0 ≤ c.m_windup_limit →
        -c.m_windup_limit ≤ (update PI msgs now1 now2 c).1.m_error_integral
        ∧ (update PI msgs now1 now2 c).1.m_error_integral ≤ c.m_windup_limit)
      ∧ (update PI msgs now1 now2 c).1.m_upper_limit = c.m_upper_limit
      ∧ (update PI msgs now1 now2 c).1.m_lower_limit = c.m_lower_limit
      ∧ (update PI msgs now1 now2 c).1.m_windup_limit = c.m_windup_limit := by
  have _ := hdt
  obtain ⟨h1, h2, h3, -⟩ := spinOnce_fixed msgs c
  refine ⟨fun h => ?_, fun h => ?_, h1, h2, h3⟩
  · simp only [update, h1, h2]
    exact ⟨(limited_bounds _ _ _ h).1, (limited_bounds _ _ _ h).2, trivial⟩
  · simp only [update, h3]
    exact limited_bounds c.m_windup_limit (-c.m_windup_limit) _ (by linarith)

/-- C22 at a concrete step: the controller with the default limits 1000, -1000 and 1000
and the target 5000, after a sensor message 0 and a time step of 2 seconds, publishes a
command between -1000 and 1000 and stores an integral between -1000 and 1000. -/
theorem C22_command_and_integral_within_limits_witness :
    ((-1000 : ℚ) ≤ (update (22 / 7) [.sensor 0] 2 3 (angular 5000)).2
        ∧ (update (22 / 7 : ℚ) [.sensor 0] 2 3 (angular 5000)).2 ≤ 1000)
      ∧ ((-1000 : ℚ) ≤ (update (22 / 7) [.sensor 0] 2 3 (angular 5000)).1.m_error_integral
        ∧ (update (22 / 7 : ℚ) [.sensor 0] 2 3 (angular 5000)).1.m_error_integral ≤ 1000) :=
  have h := C22_command_and_integral_within_limits (22 / 7 : ℚ) [.sensor 0] 2 3 (angular 5000)
    (by norm_num [angular])
  have h1 := h.1 (by norm_num [angular])
  ⟨⟨h1.1, h1.2.1⟩, h.2.1 (by norm_num [angular])⟩

end PIDController
